import Mathlib

/-! Event processor and watchers (`internal/kube/watchers/watchers.go`).

A shallow embedding of the event processing loop of the `watchers` package:
the `ResourceChange` event, the rate limited work queue the processor owns,
`EventProcessor.process`, `EventProcessor.Stop`, `newEventHandler`, the
`Handle`/`Get`/`List` methods every watcher type shares, the watcher
constructors with `addWatcher`, `StartWatchers` and `WaitForCacheSync`,
`CallbackAfter` and `FilterByNamespace`; and of the command `site create` of
the non-kube platform (`internal/cmd/skupper/site/nonkube/site_create.go`).

Go pointers to handler values are modelled by natural numbers (a reference
into the processor's table of handler values); `error` is `Option Error`
with `none` for `nil`.
-/

namespace Watchers

/-- A Go `error` value; `nil` is `none : Option Error`. -/
abbrev Error := String

/-- Reference to a value implementing `ResourceChangeHandler` (a `*ConfigMapWatcher`,
a `*CallbackHandler`, ...). Interface values holding pointers compare by pointer
identity, which is equality of references here. -/
abbrev HandlerRef := Nat

/-- The struct `ResourceChange`: the form in which events are added to the work queue. -/
structure ResourceChange where
  Handler : HandlerRef
  Key : String
deriving DecidableEq, Repr

/-- A value held by the type-erased queue (`interface{}`): a `ResourceChange`, or
a value of some other dynamic type (identified by a tag), for which the type
assertion `obj.(ResourceChange)` fails. -/
inductive Item where
  | change (evt : ResourceChange)
  | other (tag : Nat)
deriving DecidableEq, Repr

/-- A mirrored object of some resource kind, reduced to its metadata and an
identifier of its content. -/
structure Obj where
  ns : String
  name : String
  content : Nat
deriving DecidableEq, Repr

/-- The twenty watcher types of the package, used by `Describe`. -/
inductive WatcherKind where
  | ConfigMap | Secret | Service | Pod | Dynamic | Namespace | Node | Site
  | Listener | Connector | Link | AccessToken | AccessGrant | SecuredAccess
  | Ingress | Route | Certificate | RouterAccess | AttachedConnectorBinding
  | AttachedConnector
deriving DecidableEq, Repr

/-- The word each watcher type puts in front of the key in `Describe`. -/
def WatcherKind.label : WatcherKind → String
  | .ConfigMap => "ConfigMap"
  | .Secret => "Secret"
  | .Service => "Service"
  | .Pod => "Pod"
  | .Dynamic => "Dynamic"
  | .Namespace => "Namespace"
  | .Node => "Node"
  | .Site => "Site"
  | .Listener => "Listener"
  | .Connector => "Connector"
  | .Link => "Link"
  | .AccessToken => "AccessToken"
  | .AccessGrant => "AccessGrant"
  | .SecuredAccess => "SecuredAccess"
  | .Ingress => "Ingress"
  | .Route => "Route"
  | .Certificate => "Certificate"
  | .RouterAccess => "RouterAccess"
  | .AttachedConnectorBinding => "AttachedConnectorBinding"
  | .AttachedConnector => "AttachedConnector"

/-- Observable steps of the processor, recorded oldest first. The record is
ghost state: the Go code keeps no such list, it is what a test double of the
handlers, the logger and the queue would see. -/
inductive Event where
  -- `evt.Handler.Handle(evt)` was entered.
  | handle (evt : ResourceChange)
  -- the domain handler of watcher `w` was called with `(key, obj)`.
  | domainCall (w : HandlerRef) (key : String) (obj : Option Obj)
  -- the callback of callback handler `h` was called with `context`.
  | callbackCall (h : HandlerRef) (context : String)
  -- the line `[errorKey] Error while handling description: err` was logged.
  | logError (errorKey description : String) (err : Error)
  -- the line `Invalid object on event queue for errorKey` was logged.
  | logInvalid (errorKey : String) (obj : Item)
  -- `queue.AddRateLimited(obj)` was called.
  | addRateLimited (obj : Item)
  -- `queue.Forget(obj)` was called.
  | forget (obj : Item)
  -- `queue.Done(obj)` was called.
  | done (obj : Item)
  -- `utilruntime.HandleError(err)` was called.
  | handleError (err : Error)
  -- `log.Println(msg)` was called.
  | logPrintln (msg : String)
  -- `watcher.Start(stopCh)` was called: the informer of watcher `w` was set running.
  | start (w : HandlerRef)
deriving DecidableEq, Repr

/-- A domain handler `func(string, *T) error`. A Go function value may keep
state between calls; its result is a function of what has happened so far
(the record of events), of the key and of the object (`none` for `nil`). -/
abbrev DomainHandler := List Event → String → Option Obj → Option Error

/-- The type `Callback`: `func(context string) error`. -/
abbrev Callback := List Event → String → Option Error

/-- The values behind a `ResourceChangeHandler`: a watcher of some kind with
its domain handler (`handler` field), or a `CallbackHandler{callback, context}`. -/
inductive HandlerImpl where
  | watcher (kind : WatcherKind) (handler : DomainHandler)
  | callback (callback : Callback) (context : String)

/-! ## The work queue

`EventProcessor.queue` is a `workqueue.RateLimitingInterface` built by
`workqueue.NewNamedRateLimitingQueue(workqueue.DefaultControllerRateLimiter(), name)`.
-/

/-- An entry of the delaying queue: an item waiting to be added at `readyAt`. -/
structure WaitFor where
  data : Item
  readyAt : Nat
deriving DecidableEq, Repr

/-- Modelled from the spec: the work queue of package
`k8s.io/client-go/util/workqueue`, a dependency of the repository whose source
is not among its files. The spec's data model describes it as an ordered
queue of change events "with delayed-insertion and rate-limited-reinsertion
capabilities, deduplicating by value equality", with "a per-identity attempt
counter"; where the spec is silent the operations below follow the library's
queue, its delaying queue and its default controller rate limiter. The fields
are those of the library's queue:
`queue` the pending items in order, `dirty` the set of items that need
processing, `processing` the set of items handed out by `Get` and not yet
`Done`, `shuttingDown` the shutdown flag, `failures` the per-item counter of
the exponential failure rate limiter, `bucketDelay` the delay the token
bucket limiter would currently impose, `now` the clock and `waiting` the
delayed additions ordered by due time (all times in nanoseconds). -/
structure WorkQueue where
  queue : List Item := []
  dirty : List Item := []
  processing : List Item := []
  shuttingDown : Bool := false
  failures : Item → Nat := fun _ => 0
  bucketDelay : Nat := 0
  now : Nat := 0
  waiting : List WaitFor := []

namespace WorkQueue

/-- The method `Add`: marks the item as needing processing. Nothing happens when the
queue is shutting down or the item is already dirty; an item that is being
processed is only marked dirty (it is queued again by `Done`). -/
def Add (q : WorkQueue) (item : Item) : WorkQueue :=
  if q.shuttingDown then q
  else if item ∈ q.dirty then q
  else if item ∈ q.processing then { q with dirty := q.dirty ++ [item] }
  else { q with dirty := q.dirty ++ [item], queue := q.queue ++ [item] }

/-- The method `Len`: the number of pending items. -/
def Len (q : WorkQueue) : Nat := q.queue.length

/-- Outcome of `Get`: the call blocks (nothing pending, not shutting down), or
returns `(nil, true)`, or returns `(obj, false)` and leaves the queue `q`. -/
inductive GetResult where
  | blocks
  | shutdown
  | item (obj : Item) (q : WorkQueue)

/-- The method `Get`: with nothing pending the call waits unless the queue is
shutting down (the library loops `for len(q.queue) == 0 && !q.shuttingDown`),
and then returns `(nil, true)` only when nothing is pending
(`if len(q.queue) == 0`). A pending item is handed out with `shutdown` false,
also while shutting down: the pending items are drained before the shutdown is
reported. The item is put in `processing` and removed from `dirty`. -/
def Get (q : WorkQueue) : GetResult :=
  match q.queue with
  | [] => if q.shuttingDown then .shutdown else .blocks
  | item :: rest =>
    .item item
      { q with queue := rest,
               processing := q.processing ++ [item],
               dirty := q.dirty.filter (fun x => x ≠ item) }

/-- The method `Done`: the item is no longer being processed; when it was marked dirty
in the meantime it is queued again. -/
def Done (q : WorkQueue) (item : Item) : WorkQueue :=
  let processing := q.processing.filter (fun x => x ≠ item)
  if item ∈ q.dirty then { q with processing := processing, queue := q.queue ++ [item] }
  else { q with processing := processing }

/-- The method `ShutDown`: sets the shutdown flag. -/
def ShutDown (q : WorkQueue) : WorkQueue := { q with shuttingDown := true }

/-- Base delay of the exponential failure rate limiter (5ms). -/
def baseDelay : Nat := 5000000

/-- Maximal delay of the exponential failure rate limiter (1000s). -/
def maxDelay : Nat := 1000000000000

/-- The method `NumRequeues` of the rate limiter: the failure count of the item (the
token bucket limiter contributes 0 to the maximum). -/
def NumRequeues (q : WorkQueue) (item : Item) : Nat := q.failures item

/-- The method `When` of the rate limiter: counts one more failure of the item and
returns the larger of the exponential backoff `baseDelay * 2^failures`
(capped at `maxDelay`) and the token bucket delay. -/
def When (q : WorkQueue) (item : Item) : Nat × WorkQueue :=
  let exp := q.failures item
  (max (min (baseDelay * 2 ^ exp) maxDelay) q.bucketDelay,
   { q with failures := fun x => if x = item then exp + 1 else q.failures x })

/-- The method `Forget` of the rate limiter: the failure count of the item is deleted. -/
def Forget (q : WorkQueue) (item : Item) : WorkQueue :=
  { q with failures := fun x => if x = item then 0 else q.failures x }

/-- Insertion of an entry in the waiting list, kept in order of due time. -/
def insertSorted (e : WaitFor) : List WaitFor → List WaitFor
  | [] => [e]
  | x :: xs => if e.readyAt < x.readyAt then e :: x :: xs else x :: insertSorted e xs

/-- The delaying queue's `insert`: an item already waiting keeps one entry,
whose time is only moved when the new one is sooner. -/
def insertWaiting (w : List WaitFor) (e : WaitFor) : List WaitFor :=
  match w.find? (fun x => x.data = e.data) with
  | some ex =>
    if e.readyAt < ex.readyAt then insertSorted e (w.filter (fun x => x.data ≠ e.data)) else w
  | none => insertSorted e w

/-- The method `AddAfter`: nothing when shutting down, an immediate `Add` when the
duration is not positive, otherwise a delayed addition due at `now + duration`. -/
def AddAfter (q : WorkQueue) (item : Item) (duration : Int) : WorkQueue :=
  if q.shuttingDown then q
  else if duration ≤ 0 then q.Add item
  else { q with waiting := insertWaiting q.waiting ⟨item, q.now + duration.toNat⟩ }

/-- The method `AddRateLimited`: `AddAfter(item, rateLimiter.When(item))`. -/
def AddRateLimited (q : WorkQueue) (item : Item) : WorkQueue :=
  let (d, q1) := q.When item
  q1.AddAfter item (d : Int)

/-- The due entries at the front of the waiting list are added to the queue. -/
def deliver (now : Nat) : List WaitFor → WorkQueue → WorkQueue
  | [], q => { q with waiting := [] }
  | e :: es, q =>
    if e.readyAt ≤ now then deliver now es (q.Add e.data)
    else { q with waiting := e :: es }

/-- Time passes: the clock advances by `d` and the delayed additions that are due
are made, in order of due time (the delaying queue's waiting loop). -/
def advance (q : WorkQueue) (d : Nat) : WorkQueue :=
  deliver (q.now + d) q.waiting { q with now := q.now + d }

/-- Time passes until every delayed addition is due. -/
def settle (q : WorkQueue) : WorkQueue :=
  q.advance ((q.waiting.map (fun e => e.readyAt)).foldl max 0 - q.now)

end WorkQueue

/-! ## The processor -/

/-- A `schema.GroupVersionResource`. The three optional kinds are the values
returned by `resource.ContourHttpProxyResource()`, `resource.GatewayResource()`
and `resource.TlsRouteResource()` (package `internal/kube/resource`), taken
here as three distinct constants; any other resource is given by its group,
version and resource name. -/
inductive GroupVersionResource where
  | ContourHttpProxyResource
  | GatewayResource
  | TlsRouteResource
  | other (group version resource : String)
deriving DecidableEq, Repr

/-- Result of the mirror's `GetByKey(key)`, which in Go is the triple
`(item, exists, err)`: `failed err` when `err != nil`, `absent` when
`err == nil` and `exists` is false, `present obj` when `err == nil`, `exists`
is true and `item` is `obj`. -/
inductive Lookup where
  | failed (err : Error)
  | absent
  | present (obj : Obj)
deriving DecidableEq, Repr

/-- Modelled from the spec: the local mirror of one watcher (the store of its
informer, from `k8s.io/client-go/tools/cache`), which the spec lists as the
consumed interface `GetByKey(key) -> (object, exists, error)`,
`List() -> []object`, `HasSynced() -> bool`. -/
structure Store where
  GetByKey : String → Lookup := fun _ => .absent
  List : List Obj := []
  HasSynced : Bool := false

/-- The struct `EventProcessor` together with the values reachable from it:
`errorKey`, `queue` and `watchers` are its fields; `handlers` gives the value
behind each handler reference, `stores` the mirror of each watcher,
`nextRef` the next unused reference, and `events` is the record of what has
happened so far. `routeClient` is the field of that name (`none` for `nil`),
`available r` is what `resource.IsResourceAvailable(c.discoveryClient, r)`
reports, `dynamicResource` gives the `resource` field of each dynamic watcher
and `eventHandlers i` lists, for the informer of watcher `i`, the handlers
`h` whose `newEventHandler(h)` was registered with `AddEventHandler`. -/
structure EventProcessor where
  errorKey : String := "Error"
  queue : WorkQueue := {}
  watchers : List HandlerRef := []
  handlers : HandlerRef → HandlerImpl
  stores : HandlerRef → Store := fun _ => {}
  nextRef : Nat := 0
  events : List Event := []
  routeClient : Option Nat := none
  available : GroupVersionResource → Bool := fun _ => false
  dynamicResource : HandlerRef → Option GroupVersionResource := fun _ => none
  eventHandlers : HandlerRef → List HandlerRef := fun _ => []

namespace EventProcessor

/-- Appends an event to the record. -/
def record (c : EventProcessor) (e : Event) : EventProcessor :=
  { c with events := c.events ++ [e] }

/-- The method `(w *XWatcher) Get(key)` for every watcher type `X`: the pair
`(object, error)`. A failed lookup gives `(nil, err)`, a missing key
`(nil, nil)`, a mirrored object `(obj, nil)`. -/
def Get (c : EventProcessor) (w : HandlerRef) (key : String) : Option Obj × Option Error :=
  match (c.stores w).GetByKey key with
  | .failed err => (none, some err)
  | .absent => (none, none)
  | .present obj => (some obj, none)

/-- The method `Handle(event)` of the handler the event carries. For every watcher type:
`obj, err := w.Get(event.Key)`, the error is returned when there is one,
otherwise the result of `w.handler(event.Key, obj)`. For a `CallbackHandler`:
the result of `c.callback(c.context)`. -/
def Handle (c : EventProcessor) (evt : ResourceChange) : Option Error × EventProcessor :=
  let c := c.record (.handle evt)
  match c.handlers evt.Handler with
  | .watcher _ handler =>
    match c.Get evt.Handler evt.Key with
    | (_, some err) => (some err, c)
    | (obj, none) =>
      (handler c.events evt.Key obj, c.record (.domainCall evt.Handler evt.Key obj))
  | .callback callback context =>
    (callback c.events context, c.record (.callbackCall evt.Handler context))

/-- The method `Describe(event)`: the kind of the watcher followed by the key; for a
callback handler the word `Callback` and the context (the address printed
for the function value is left out). -/
def Describe (c : EventProcessor) (evt : ResourceChange) : String :=
  match c.handlers evt.Handler with
  | .watcher kind _ => kind.label ++ " " ++ evt.Key
  | .callback _ context => "Callback (" ++ context ++ ")"

/-- The method `process`, the heart of the event processing loop. The result
is `none` when `queue.Get()` blocks, otherwise the returned boolean and the
processor afterwards. The deferred `queue.Done(obj)` runs at both returns. -/
def process (c : EventProcessor) : Option (Bool × EventProcessor) :=
  match c.queue.Get with
  | .blocks => none
  | .shutdown => some (false, c)
  | .item obj q =>
    let c := { c with queue := q }
    let (retry, c) :=
      match obj with
      | .change evt =>
        match c.Handle evt with
        | (some err, c) => (true, c.record (.logError c.errorKey (c.Describe evt) err))
        | (none, c) => (false, c)
      | .other _ => (false, c.record (.logInvalid c.errorKey obj))
    if retry && c.queue.NumRequeues obj < 5 then
      let c := { c.record (.addRateLimited obj) with queue := c.queue.AddRateLimited obj }
      some (true, { c.record (.done obj) with queue := c.queue.Done obj })
    else
      let c := { c.record (.forget obj) with queue := c.queue.Forget obj }
      some (true, { c.record (.done obj) with queue := c.queue.Done obj })

/-- The method `Stop`: `c.queue.ShutDown()`. -/
def Stop (c : EventProcessor) : EventProcessor :=
  { c with queue := c.queue.ShutDown }

end EventProcessor

/-- A value an informer passes to an event handler (`interface{}`): an object
with metadata, a `cache.ExplicitKey`, or a value without object metadata
(such as the `cache.DeletedFinalStateUnknown` a delete notification may carry). -/
inductive Notified where
  | object (obj : Obj)
  | explicitKey (key : String)
  | noMeta (tag : Nat)
deriving DecidableEq, Repr

/-- Modelled from the spec: the key derivation `cache.MetaNamespaceKeyFunc`
(the spec's `ComputeKey(object) -> string`): `"<namespace>/<name>"`, or
`"<name>"` when the namespace is empty; an explicit key is returned as it is;
a value without object metadata gives an error. -/
def MetaNamespaceKeyFunc : Notified → Except Error String
  | .explicitKey key => .ok key
  | .object obj => if obj.ns.length > 0 then .ok (obj.ns ++ "/" ++ obj.name) else .ok obj.name
  | .noMeta _ => .error "object has no meta"

/-- The struct `cache.ResourceEventHandlerFuncs`. -/
structure ResourceEventHandlerFuncs where
  AddFunc : Notified → EventProcessor → EventProcessor
  UpdateFunc : Notified → Notified → EventProcessor → EventProcessor
  DeleteFunc : Notified → EventProcessor → EventProcessor

/-- The method `newEventHandler`: the three callbacks compute the key of the
notified object and add `ResourceChange{Handler: handler, Key: key}` to the
queue; a key that cannot be computed is reported to `utilruntime.HandleError`. -/
def EventProcessor.newEventHandler (handler : HandlerRef) : ResourceEventHandlerFuncs :=
  { AddFunc := fun obj c =>
      match MetaNamespaceKeyFunc obj with
      | .error err => c.record (.handleError err)
      | .ok key => { c with queue := c.queue.Add (.change { Handler := handler, Key := key }) }
    UpdateFunc := fun _old new c =>
      match MetaNamespaceKeyFunc new with
      | .error err => c.record (.handleError err)
      | .ok key => { c with queue := c.queue.Add (.change { Handler := handler, Key := key }) }
    DeleteFunc := fun obj c =>
      match MetaNamespaceKeyFunc obj with
      | .error err => c.record (.handleError err)
      | .ok key => { c with queue := c.queue.Add (.change { Handler := handler, Key := key }) } }

/-- A notification delivered to the handlers built by `newEventHandler`. -/
inductive Notification where
  | add (obj : Notified)
  | update (old new : Notified)
  | delete (obj : Notified)
deriving DecidableEq, Repr

/-- Delivery of one notification to the callbacks of `fs`. -/
def ResourceEventHandlerFuncs.deliver (fs : ResourceEventHandlerFuncs) :
    Notification → EventProcessor → EventProcessor
  | .add obj, c => fs.AddFunc obj c
  | .update old new, c => fs.UpdateFunc old new c
  | .delete obj, c => fs.DeleteFunc obj c

/-- Delivery of a sequence of notifications, first to last. -/
def ResourceEventHandlerFuncs.deliverAll (fs : ResourceEventHandlerFuncs) :
    List Notification → EventProcessor → EventProcessor
  | [], c => c
  | n :: ns, c => fs.deliverAll ns (fs.deliver n c)

end Watchers
namespace Watchers

/-- The queue after `Get` has handed out `obj`, the head of the pending items `obj :: rest`. -/
def WorkQueue.handOut (q : WorkQueue) (obj : Item) (rest : List Item) : WorkQueue :=
  { q with queue := rest,
           processing := q.processing ++ [obj],
           dirty := q.dirty.filter (fun x => x ≠ obj) }

namespace EventProcessor

/-- What `Handle` appends to the record after its `handle` entry: the call of
the domain handler with the object found in the mirror (none when the lookup
fails), or the call of the callback. -/
def handleTail (c : EventProcessor) (evt : ResourceChange) : List Event :=
  match c.handlers evt.Handler with
  | .watcher _ _ =>
    match (c.stores evt.Handler).GetByKey evt.Key with
    | .failed _ => []
    | .absent => [.domainCall evt.Handler evt.Key none]
    | .present obj => [.domainCall evt.Handler evt.Key (some obj)]
  | .callback _ context => [.callbackCall evt.Handler context]

/-- Number of calls of `queue.AddRateLimited(obj)` so far. -/
def requeues (c : EventProcessor) (obj : Item) : Nat := c.events.count (.addRateLimited obj)

/-- Number of calls of `evt.Handler.Handle(evt)` so far. -/
def dispatches (c : EventProcessor) (evt : ResourceChange) : Nat := c.events.count (.handle evt)

/-- Number of calls of `queue.Forget(obj)` so far. -/
def forgets (c : EventProcessor) (obj : Item) : Nat := c.events.count (.forget obj)

/-- One call of `process` followed by the passing of time until the delayed
additions it may have scheduled are made. When `process` would block the
processor is left as it is. -/
def retryRound (c : EventProcessor) : EventProcessor :=
  match c.process with
  | some (_, c1) => { c1 with queue := c1.queue.settle }
  | none => c

/-- The handler of `evt` returns an error on every dispatch: whatever has
happened so far and whatever the queue holds, as long as the handler values
and the mirrors are those of `c`. -/
def FailsAlways (c : EventProcessor) (evt : ResourceChange) : Prop :=
  ∀ d : EventProcessor, d.handlers = c.handlers → d.stores = c.stores → (d.Handle evt).1 ≠ none

/-- The item `obj` is the only pending item of a running queue: nothing else is
queued, nothing is being processed and no addition is delayed. -/
def SolePending (c : EventProcessor) (obj : Item) : Prop :=
  c.queue.queue = [obj] ∧ c.queue.dirty = [obj] ∧ c.queue.processing = [] ∧
    c.queue.waiting = [] ∧ c.queue.shuttingDown = false

/-- State of a retried event after `k` failed dispatches that started from `c0`. -/
def RetryInv (c0 c : EventProcessor) (evt : ResourceChange) (k : Nat) : Prop :=
  SolePending c (.change evt) ∧ c.queue.NumRequeues (.change evt) = k ∧
    c.handlers = c0.handlers ∧ c.stores = c0.stores ∧
    c.requeues (.change evt) = c0.requeues (.change evt) + k ∧
    c.dispatches evt = c0.dispatches evt + k ∧
    c.forgets (.change evt) = c0.forgets (.change evt)

end EventProcessor
end Watchers

namespace Watchers

/-- The pending items are free of repetitions and are exactly the dirty items
that are not being processed: the state the queue keeps between its operations. -/
def WorkQueue.WF (q : WorkQueue) : Prop :=
  q.queue.Nodup ∧ ∀ x, x ∈ q.queue ↔ (x ∈ q.dirty ∧ x ∉ q.processing)

/-- The object whose key a notification is about: the new object for an update. -/
def Notification.subject : Notification → Notified
  | .add obj => obj
  | .update _ new => new
  | .delete obj => obj

/-- No pending item, nothing delayed or in processing, and no failure counted
for `obj`, on a running queue. -/
def EventProcessor.Idle (c : EventProcessor) (obj : Item) : Prop :=
  c.queue.queue = [] ∧ c.queue.dirty = [] ∧ c.queue.processing = [] ∧
    c.queue.waiting = [] ∧ c.queue.shuttingDown = false ∧ c.queue.NumRequeues obj = 0

/-! ### Concrete processors used to exercise the statements -/

/-- A domain handler that fails on every call. -/
def exFailing : DomainHandler := fun _ _ _ => some "boom"

/-- A domain handler that succeeds on every call. -/
def exSucceeding : DomainHandler := fun _ _ _ => none

/-- The event of watcher 0 for key `ns1/a`. -/
def exEvt : ResourceChange := { Handler := 0, Key := "ns1/a" }

/-- The object `a` of namespace `ns1`. -/
def exObj : Obj := { ns := "ns1", name := "a", content := 7 }

/-- A processor whose watchers all fail, with `exEvt` as its only pending event. -/
def exFailingProc : EventProcessor :=
  { handlers := fun _ => .watcher .ConfigMap exFailing,
    queue := { queue := [.change exEvt], dirty := [.change exEvt] } }

/-- A processor whose watchers all succeed, with `exEvt` pending after three
counted failures, and the object `exObj` mirrored under its key. -/
def exSucceedingProc : EventProcessor :=
  { handlers := fun _ => .watcher .Secret exSucceeding,
    stores := fun _ => { GetByKey := fun k => if k = "ns1/a" then .present exObj else .absent },
    queue := { queue := [.change exEvt], dirty := [.change exEvt],
               failures := fun _ => 3 } }

/-- A processor with a value that is not a `ResourceChange` at the head of its queue. -/
def exMalformedProc : EventProcessor :=
  { handlers := fun _ => .watcher .Pod exSucceeding,
    queue := { queue := [.other 1, .change exEvt], dirty := [.other 1, .change exEvt],
               failures := fun _ => 2 } }

/-- A processor with nothing pending. -/
def exEmptyProc : EventProcessor :=
  { handlers := fun _ => .watcher .Site exSucceeding }

end Watchers

namespace Watchers

/-! ## Registration of watchers, start-up and deferred callbacks -/

/-- A Go slice value: `none` is the `nil` slice, `some l` a slice with the
elements `l` (which may be empty). -/
abbrev Slice (α : Type) := Option (List α)

/-- The builtin `append(s, a)`: the result is never `nil`. -/
def Slice.append {α : Type} : Slice α → α → Slice α
  | none, a => some [a]
  | some l, a => some (l ++ [a])

/-- The elements of a slice, none for the `nil` slice. -/
def Slice.toList {α : Type} : Slice α → List α
  | none => []
  | some l => l

/-- The key under which the mirror keeps an object: `namespace/name`, or the
name alone when the namespace is empty. -/
def Obj.key (obj : Obj) : String :=
  if obj.ns.length > 0 then obj.ns ++ "/" ++ obj.name else obj.name

/-- Modelled from the spec: the Change Cache "updates local mirror" when an
object is added or updated; the object is then found under its key and is
listed once. -/
def Store.put (s : Store) (obj : Obj) : Store :=
  { s with GetByKey := fun k => if k = obj.key then .present obj else s.GetByKey k,
           List := s.List.filter (fun o => o.key ≠ obj.key) ++ [obj] }

/-- Modelled from the spec: the Change Cache removes a deleted object from the
local mirror; nothing is found under its key afterwards. -/
def Store.remove (s : Store) (key : String) : Store :=
  { s with GetByKey := fun k => if k = key then .absent else s.GetByKey k,
           List := s.List.filter (fun o => o.key ≠ key) }

/-- The method `List()` of every watcher type: `results := []*T{}` followed by
one `append` for each object of the mirror's `List()`. -/
def Watcher.List (c : EventProcessor) (w : HandlerRef) : Slice Obj :=
  (c.stores w).List.foldl (fun results o => results.append o) (some [])

/-- A `cache.InformerSynced`, a `func() bool`: its result depends on the
mirrors as they are when it is called. -/
abbrev InformerSynced := (HandlerRef → Store) → Bool

/-- The method `HasSynced()` of every watcher type: `w.informer.HasSynced`. -/
def Watcher.HasSynced (w : HandlerRef) : InformerSynced :=
  fun stores => (stores w).HasSynced

namespace EventProcessor

/-- The method `HasContourHttpProxy`. -/
def HasContourHttpProxy (c : EventProcessor) : Bool := c.available .ContourHttpProxyResource

/-- The method `HasGateway`. -/
def HasGateway (c : EventProcessor) : Bool := c.available .GatewayResource

/-- The method `HasTlsRoute`. -/
def HasTlsRoute (c : EventProcessor) : Bool := c.available .TlsRouteResource

/-- The method `addWatcher`: `c.watchers = append(c.watchers, watcher)`. -/
def addWatcher (c : EventProcessor) (watcher : HandlerRef) : EventProcessor :=
  { c with watchers := c.watchers ++ [watcher] }

/-- The composite literal `&XWatcher{handler: handler, informer: ...}`: a new
watcher value of the given kind behind a new reference, with a new informer
whose mirror is empty and not synced and which has no event handler yet. The
options, the namespace and the resync period only configure the informer and
are left out. -/
def newWatcher (c : EventProcessor) (kind : WatcherKind) (handler : DomainHandler) :
    HandlerRef × EventProcessor :=
  (c.nextRef,
   { c with nextRef := c.nextRef + 1,
            handlers := fun r => if r = c.nextRef then .watcher kind handler else c.handlers r,
            stores := fun r => if r = c.nextRef then {} else c.stores r,
            eventHandlers := fun r => if r = c.nextRef then [] else c.eventHandlers r })

/-- The call `informer.AddEventHandler(c.newEventHandler(handler))` on the
informer of watcher `informer`. -/
def AddEventHandler (c : EventProcessor) (informer handler : HandlerRef) : EventProcessor :=
  { c with eventHandlers := fun r =>
      if r = informer then c.eventHandlers informer ++ [handler] else c.eventHandlers r }

/-- The body shared by the watcher constructors: the watcher value is built,
its event handler is registered with its informer, the watcher is added to
the processor and returned. -/
def watch (c : EventProcessor) (kind : WatcherKind) (handler : DomainHandler) :
    Option HandlerRef × EventProcessor :=
  let (watcher, c) := c.newWatcher kind handler
  let c := c.AddEventHandler watcher watcher
  let c := c.addWatcher watcher
  (some watcher, c)

/-- The method `WatchConfigMaps`. -/
def WatchConfigMaps (handler : DomainHandler) (c : EventProcessor) :
    Option HandlerRef × EventProcessor := c.watch .ConfigMap handler

/-- The method `WatchSecrets`. -/
def WatchSecrets (handler : DomainHandler) (c : EventProcessor) :
    Option HandlerRef × EventProcessor := c.watch .Secret handler

/-- The method `WatchAllSecrets`. -/
def WatchAllSecrets (handler : DomainHandler) (c : EventProcessor) :
    Option HandlerRef × EventProcessor := c.watch .Secret handler

/-- The method `WatchServices`. -/
def WatchServices (handler : DomainHandler) (c : EventProcessor) :
    Option HandlerRef × EventProcessor := c.watch .Service handler

/-- The method `WatchPods`. -/
def WatchPods (handler : DomainHandler) (c : EventProcessor) :
    Option HandlerRef × EventProcessor := c.watch .Pod handler

/-- The method `WatchDynamic`: as the other constructors, and the watcher
keeps the resource it watches. -/
def WatchDynamic (resource : GroupVersionResource) (handler : DomainHandler)
    (c : EventProcessor) : Option HandlerRef × EventProcessor :=
  let (watcher, c) := c.newWatcher .Dynamic handler
  let c := { c with dynamicResource := fun r =>
                      if r = watcher then some resource else c.dynamicResource r }
  let c := c.AddEventHandler watcher watcher
  let c := c.addWatcher watcher
  (some watcher, c)

/-- The method `WatchContourHttpProxies`. -/
def WatchContourHttpProxies (handler : DomainHandler) (c : EventProcessor) :
    Option HandlerRef × EventProcessor :=
  if !c.HasContourHttpProxy then
    (none, c.record (.logPrintln "Cannot watch HttpProxies; resource not installed"))
  else WatchDynamic .ContourHttpProxyResource handler c

/-- The method `WatchGateways`. -/
def WatchGateways (handler : DomainHandler) (c : EventProcessor) :
    Option HandlerRef × EventProcessor :=
  if !c.HasGateway then
    (none, c.record (.logPrintln "Cannot watch Gateways; resource not installed"))
  else WatchDynamic .GatewayResource handler c

/-- The method `WatchTlsRoutes`. -/
def WatchTlsRoutes (handler : DomainHandler) (c : EventProcessor) :
    Option HandlerRef × EventProcessor :=
  if !c.HasTlsRoute then
    (none, c.record (.logPrintln "Cannot watch TLSRoutes; resource not installed"))
  else WatchDynamic .TlsRouteResource handler c

/-- The method `WatchNamespaces`. -/
def WatchNamespaces (handler : DomainHandler) (c : EventProcessor) :
    Option HandlerRef × EventProcessor := c.watch .Namespace handler

/-- The method `WatchNodes`. -/
def WatchNodes (handler : DomainHandler) (c : EventProcessor) :
    Option HandlerRef × EventProcessor := c.watch .Node handler

/-- The method `WatchSites`. -/
def WatchSites (handler : DomainHandler) (c : EventProcessor) :
    Option HandlerRef × EventProcessor := c.watch .Site handler

/-- The method `WatchListeners`. -/
def WatchListeners (handler : DomainHandler) (c : EventProcessor) :
    Option HandlerRef × EventProcessor := c.watch .Listener handler

/-- The method `WatchConnectors`. -/
def WatchConnectors (handler : DomainHandler) (c : EventProcessor) :
    Option HandlerRef × EventProcessor := c.watch .Connector handler

/-- The method `WatchLinks`. -/
def WatchLinks (handler : DomainHandler) (c : EventProcessor) :
    Option HandlerRef × EventProcessor := c.watch .Link handler

/-- The method `WatchAccessTokens`. -/
def WatchAccessTokens (handler : DomainHandler) (c : EventProcessor) :
    Option HandlerRef × EventProcessor := c.watch .AccessToken handler

/-- The method `WatchAccessGrants`. -/
def WatchAccessGrants (handler : DomainHandler) (c : EventProcessor) :
    Option HandlerRef × EventProcessor := c.watch .AccessGrant handler

/-- The method `WatchSecuredAccesses`. -/
def WatchSecuredAccesses (handler : DomainHandler) (c : EventProcessor) :
    Option HandlerRef × EventProcessor := c.watch .SecuredAccess handler

/-- The method `WatchSecuredAccessesWithOptions`. -/
def WatchSecuredAccessesWithOptions (handler : DomainHandler) (c : EventProcessor) :
    Option HandlerRef × EventProcessor := c.watch .SecuredAccess handler

/-- The method `WatchIngresses`. -/
def WatchIngresses (handler : DomainHandler) (c : EventProcessor) :
    Option HandlerRef × EventProcessor := c.watch .Ingress handler

/-- The method `WatchRoutes`: no watcher is built when the route client is `nil`. -/
def WatchRoutes (handler : DomainHandler) (c : EventProcessor) :
    Option HandlerRef × EventProcessor :=
  if c.routeClient = none then (none, c) else c.watch .Route handler

/-- The method `WatchCertificates`. -/
def WatchCertificates (handler : DomainHandler) (c : EventProcessor) :
    Option HandlerRef × EventProcessor := c.watch .Certificate handler

/-- The method `WatchRouterAccesses`. -/
def WatchRouterAccesses (handler : DomainHandler) (c : EventProcessor) :
    Option HandlerRef × EventProcessor := c.watch .RouterAccess handler

/-- The method `WatchAttachedConnectorBindings`. -/
def WatchAttachedConnectorBindings (handler : DomainHandler) (c : EventProcessor) :
    Option HandlerRef × EventProcessor := c.watch .AttachedConnectorBinding handler

/-- The method `WatchAttachedConnectors`. -/
def WatchAttachedConnectors (handler : DomainHandler) (c : EventProcessor) :
    Option HandlerRef × EventProcessor := c.watch .AttachedConnector handler

/-- The watcher constructors of the package, `WatchDynamic` for a given resource. -/
def constructors (resource : GroupVersionResource) :
    List (DomainHandler → EventProcessor → Option HandlerRef × EventProcessor) :=
  [WatchConfigMaps, WatchSecrets, WatchAllSecrets, WatchServices, WatchPods,
   WatchContourHttpProxies, WatchGateways, WatchTlsRoutes, WatchDynamic resource,
   WatchNamespaces, WatchNodes, WatchSites, WatchListeners, WatchConnectors, WatchLinks,
   WatchAccessTokens, WatchAccessGrants, WatchSecuredAccesses,
   WatchSecuredAccessesWithOptions, WatchIngresses, WatchRoutes, WatchCertificates,
   WatchRouterAccesses, WatchAttachedConnectorBindings, WatchAttachedConnectors]

/-- A processor on which the three optional kinds are available and the
route client is set, with one ConfigMap watcher registered. -/
def exAvailableProc : EventProcessor :=
  (WatchConfigMaps exFailing
    { handlers := fun _ => .watcher .Site exSucceeding,
      routeClient := some 1, available := fun _ => true }).2

/-- The method `StartWatchers`: `watcher.Start(stopCh)` for each registered
watcher, in order. -/
def StartWatchers (c : EventProcessor) : EventProcessor :=
  c.watchers.foldl (fun c watcher => c.record (.start watcher)) c

/-- The method `haveWatchersSynced`: `var combined []cache.InformerSynced`
followed by one `append` of `watcher.HasSynced()` for each registered watcher. -/
def haveWatchersSynced (c : EventProcessor) : Slice InformerSynced :=
  c.watchers.foldl (fun combined watcher => combined.append (Watcher.HasSynced watcher)) none

end EventProcessor

/-- What a wait on the stop channel and the poll timer observes next: the
stop signal, or a poll, with the mirrors as they are at that time. -/
inductive Tick where
  | stop
  | poll (stores : HandlerRef → Store)

/-- Modelled from the spec: the library function `cache.WaitForCacheSync`
(package `k8s.io/client-go/tools/cache`), which per the spec "blocks the
caller until every registered Watcher's mirror reports initial-sync-complete
or the caller's cancellation signal fires, whichever first — returns false
on cancellation, true on full sync". The result is `none` while neither has
happened in what has been observed. -/
def cacheWaitForCacheSync (cacheSyncs : List InformerSynced) : List Tick → Option Bool
  | [] => none
  | .stop :: _ => some false
  | .poll stores :: rest =>
    if cacheSyncs.all (fun syncFunc => syncFunc stores) then some true
    else cacheWaitForCacheSync cacheSyncs rest

/-- Every poll of `pre` found some sync function not yet reporting true. -/
def StillWaiting (cacheSyncs : List InformerSynced) (pre : List Tick) : Prop :=
  ∀ t ∈ pre, ∃ stores, t = .poll stores ∧ cacheSyncs.all (fun syncFunc => syncFunc stores) = false

/-- The method `WaitForCacheSync`:
`cache.WaitForCacheSync(stopCh, c.haveWatchersSynced()...)`. -/
def EventProcessor.WaitForCacheSync (c : EventProcessor) (ticks : List Tick) : Option Bool :=
  cacheWaitForCacheSync c.haveWatchersSynced.toList ticks

end Watchers

namespace Watchers
namespace EventProcessor

/-- The method `CallbackAfter`: a new `CallbackHandler{callback, context}` is
allocated and the event that carries it, with an empty key, is handed to
`queue.AddAfter` with the delay. -/
def CallbackAfter (c : EventProcessor) (delay : Int) (callback : Callback) (context : String) :
    EventProcessor :=
  let handler := c.nextRef
  let c := { c with nextRef := c.nextRef + 1,
                    handlers := fun r =>
                      if r = handler then .callback callback context else c.handlers r }
  { c with queue := c.queue.AddAfter (.change { Handler := handler, Key := "" }) delay }

/-- The loop of `TestProcessAll` with a bound on the number of iterations. -/
def processAll : Nat → EventProcessor → EventProcessor
  | 0, c => c
  | n + 1, c =>
    if c.queue.Len > 0 then
      match c.process with
      | some (_, c1) => processAll n c1
      | none => c
    else c

/-- The method `TestProcessAll`: `for c.queue.Len() > 0 { c.process() }`. Every
call of `process` takes one item from the pending ones and queues none, so
the loop ends after as many iterations as there are pending items. -/
def TestProcessAll (c : EventProcessor) : EventProcessor :=
  processAll c.queue.Len c

/-- Modelled from the spec: an object is added (or updated) remotely; the
Change Cache "updates local mirror and emits a notification", here the add
callback of every event handler registered with the informer. -/
def informerAdd (c : EventProcessor) (informer : HandlerRef) (obj : Obj) : EventProcessor :=
  let c := { c with stores := fun r =>
                      if r = informer then (c.stores informer).put obj else c.stores r }
  (c.eventHandlers informer).foldl
    (fun c h => (newEventHandler h).AddFunc (.object obj) c) c

/-- Modelled from the spec: an object is deleted remotely; the Change Cache
removes it from the local mirror and calls the delete callback of every event
handler registered with the informer. -/
def informerDelete (c : EventProcessor) (informer : HandlerRef) (obj : Obj) : EventProcessor :=
  let c := { c with stores := fun r =>
                      if r = informer then (c.stores informer).remove obj.key else c.stores r }
  (c.eventHandlers informer).foldl
    (fun c h => (newEventHandler h).DeleteFunc (.object obj) c) c

end EventProcessor

/-- What can happen to a processor: a notification reaches the callbacks built
by `newEventHandler handler`, `CallbackAfter` is called, a watcher is
registered, the dispatch loop makes one call of `process`, time passes, or
`Stop` is called. -/
inductive Action where
  | notify (handler : HandlerRef) (n : Notification)
  | callbackAfter (delay : Int) (callback : Callback) (context : String)
  | watch (kind : WatcherKind) (handler : DomainHandler)
  | dispatch
  | elapse (d : Nat)
  | stop

/-- The processor after one action. A call of `process` that would block
leaves the processor as it is. -/
def EventProcessor.act (c : EventProcessor) : Action → EventProcessor
  | .notify handler n => (EventProcessor.newEventHandler handler).deliver n c
  | .callbackAfter delay callback context => c.CallbackAfter delay callback context
  | .watch kind handler => (c.watch kind handler).2
  | .dispatch =>
    match c.process with
    | some (_, c1) => c1
    | none => c
  | .elapse d => { c with queue := c.queue.advance d }
  | .stop => c.Stop

/-- The processor after a sequence of actions, first to last. -/
def EventProcessor.actAll (c : EventProcessor) : List Action → EventProcessor
  | [] => c
  | a :: as => (c.act a).actAll as

/-! ## Namespace filter -/

/-- The pieces of a list of characters between the occurrences of `sep`: one
piece more than there are separators. -/
def splitChars (sep : Char) : List Char → List (List Char)
  | [] => [[]]
  | ch :: rest =>
    if ch = sep then [] :: splitChars sep rest
    else
      match splitChars sep rest with
      | [] => [[ch]]
      | piece :: pieces => (ch :: piece) :: pieces

/-- Modelled from the spec: the library function `cache.SplitMetaNamespaceKey`,
the inverse of the key derivation (`"<namespace>/<name>"` or `"<name>"`): the
key is split at `/`; one part is a name without namespace, two parts are
namespace and name, anything else is an error with empty results. -/
def SplitMetaNamespaceKey (key : String) : String × String × Option Error :=
  match splitChars '/' key.data with
  | [name] => ("", String.mk name, none)
  | [ns, name] => (String.mk ns, String.mk name, none)
  | _ => ("", "", some ("unexpected key format: " ++ key))

/-- A handler `func(string, V) error` whose effects are on a state `σ`. -/
abbrev KeyHandler (σ V : Type) := String → V → σ → Option Error × σ

/-- The function `FilterByNamespace`: the handler itself when `match` is `nil`,
otherwise a handler that calls `handler` when `match` holds of the namespace of
the key and returns `nil` when it does not. -/
def FilterByNamespace {σ V : Type} (matchFn : Option (String → Bool))
    (handler : KeyHandler σ V) : KeyHandler σ V :=
  match matchFn with
  | none => handler
  | some m =>
    fun key value s =>
      let (ns, _, _) := SplitMetaNamespaceKey key
      if m ns then handler key value s else (none, s)

end Watchers

namespace Watchers

/-- Every call of `Handle` entered in the record `m` is for an event that was
among the pending items `pending`. -/
def HandlesOnly (pending : List Item) (m : List Event) : Prop :=
  ∀ evt, Event.handle evt ∈ m → Item.change evt ∈ pending

/-- The item `cb` is pending and marked dirty, and the items in front of it
were among the pending items `pending`. -/
def PendingBehind (pending : List Item) (cb : Item) (c : EventProcessor) : Prop :=
  ∃ pre post, c.queue.queue = pre ++ cb :: post ∧ (∀ y ∈ pre, y ∈ pending) ∧ cb ∈ c.queue.dirty

/-- The handler reference `ref` is allocated and holds the callback handler
`CallbackHandler{callback: fn, context: ctx}`. -/
def HoldsCallback (ref : HandlerRef) (fn : Callback) (ctx : String) (c : EventProcessor) : Prop :=
  c.handlers ref = .callback fn ctx ∧ ref < c.nextRef

/-- State of the record after a call of `CallbackAfter` that left the record
`before` and the pending items `pending`: what has been recorded since either
contains the call of the callback, with only events of `pending` handled
before it, or it handles only events of `pending` and the callback event is
still pending behind items of `pending`. -/
def CallbackOrder (before : List Event) (pending : List Item) (ref : HandlerRef)
    (fn : Callback) (ctx : String) (c : EventProcessor) : Prop :=
  HoldsCallback ref fn ctx c ∧
  ∃ suffix, c.events = before ++ suffix ∧
    ((∃ p m2, suffix = p ++ Event.callbackCall ref ctx :: m2 ∧ HandlesOnly pending p) ∨
     (HandlesOnly pending suffix ∧ PendingBehind pending (.change ⟨ref, ""⟩) c))

end Watchers

namespace Watchers
namespace EventProcessor

/-- The processor after `n` calls `CallbackAfter(0, callback, context)` in a row. -/
def callbackTimes (c : EventProcessor) (callback : Callback) (context : String) :
    Nat → EventProcessor
  | 0 => c
  | n + 1 => (c.CallbackAfter 0 callback context).callbackTimes callback context n

/-- The number of calls (0 or 1) of the callback of handler `r` with the
context `ctx` that the dispatch of `item` makes: 1 when the item is an event
whose handler is `r` and is a callback handler with that context. -/
def callbackHits (c : EventProcessor) (r : HandlerRef) (ctx : String) : Item → Nat
  | .change evt =>
    match c.handlers evt.Handler with
    | .callback _ context => if evt.Handler = r ∧ context = ctx then 1 else 0
    | .watcher _ _ => 0
  | .other _ => 0

/-- Every handler reference held by an item of the queue (pending, dirty or
being processed) has been allocated: it is below the next unused reference. -/
def RefsAllocated (c : EventProcessor) : Prop :=
  ∀ evt, (Item.change evt ∈ c.queue.queue ∨ Item.change evt ∈ c.queue.dirty ∨
      Item.change evt ∈ c.queue.processing) → evt.Handler < c.nextRef

end EventProcessor
end Watchers

/-! ## The command `site create` of the non-kube platform (`site_create.go`) -/

namespace Nonkube

open Watchers (Error Slice)

/-- A `*cobra.Command` as far as the command reads it: `Flag name` is `none`
when `Flag(name)` is `nil`, otherwise the `Value.String()` of the flag. -/
structure CobraCommand where
  Flag : String → Option String

/-- The struct `common.CommandSiteCreateFlags`, of which the command reads
`EnableLinkAccess`. -/
structure CommandSiteCreateFlags where
  EnableLinkAccess : Bool := false

/-- The `v2alpha1.Site` resource built by `Run`. -/
structure Site where
  APIVersion : String
  Kind : String
  Name : String
  Namespace : String
deriving DecidableEq, Repr

/-- A `v2alpha1.RouterAccessRole`. -/
structure RouterAccessRole where
  Name : String
  Port : Nat
deriving DecidableEq, Repr

/-- The `v2alpha1.RouterAccess` resource built by `Run`. -/
structure RouterAccess where
  APIVersion : String
  Kind : String
  Name : String
  Namespace : String
  Roles : List RouterAccessRole
  SubjectAlternativeNames : Slice String
deriving DecidableEq, Repr

/-- The struct `CmdSiteCreate`. The field `namespace` is called `namespace_`;
the two handlers are reached through `Env`. -/
structure CmdSiteCreate where
  CobraCmd : Option CobraCommand := none
  Flags : CommandSiteCreateFlags := {}
  siteName : String := ""
  linkAccessEnabled : Bool := false
  namespace_ : String := ""
  routerAccessName : String := ""
  subjectAlternativeNames : Slice String := none

/-- What the command uses from packages whose code is not in the file: the
names of the two flags (`common.FlagNameContext`, `common.FlagNameKubeconfig`),
the resource name validator (`Evaluate` returns `ok` and an error), the
function `utils.GetSansByDefault`, and the `Add` methods of the site handler
and of the router access handler. -/
structure Env where
  FlagNameContext : String
  FlagNameKubeconfig : String
  Evaluate : String → Bool × Option Error
  GetSansByDefault : Slice String × Option Error
  siteAdd : Site → Option Error
  routerAccessAdd : RouterAccess → Option Error

/-- The function `errors.Join`: `nil` when there is no error, otherwise an
error whose message is the messages separated by newlines. -/
def errorsJoin (errs : List Error) : Option Error :=
  if errs = [] then none else some ("\n".intercalate errs)

/-- The verb `%s` applied to an `error`: its message, or `%!s(<nil>)` for `nil`. -/
def fmtError : Option Error → String
  | some e => e
  | none => "%!s(<nil>)"

/-- The test `cmd.CobraCmd != nil && cmd.CobraCmd.Flag(name) != nil &&
cmd.CobraCmd.Flag(name).Value.String() != ""`. -/
def CmdSiteCreate.flagGiven (cmd : CmdSiteCreate) (name : String) : Bool :=
  match cmd.CobraCmd with
  | none => false
  | some cobraCmd =>
    match cobraCmd.Flag name with
    | none => false
    | some value => value ≠ ""

/-- The method `ValidateInput`: the returned error, the command afterwards
and the lines printed. -/
def CmdSiteCreate.ValidateInput (env : Env) (cmd : CmdSiteCreate) (args : List String) :
    Option Error × CmdSiteCreate × List String :=
  let printed1 :=
    if cmd.flagGiven env.FlagNameContext then
      ["Warning: --context flag is not supported on this platform"]
    else []
  let printed2 :=
    if cmd.flagGiven env.FlagNameKubeconfig then
      ["Warning: --kubeconfig flag is not supported on this platform"]
    else []
  let (validationErrors, cmd) : List Error × CmdSiteCreate :=
    match args with
    | [] => (["site name must not be empty"], cmd)
    | arg0 :: rest =>
      if arg0 = "" then (["site name must not be empty"], cmd)
      else if (arg0 :: rest).length > 1 then
        (["only one argument is allowed for this command"], cmd)
      else
        let (ok, err) := env.Evaluate arg0
        let validationErrors :=
          if !ok then ["site name is not valid: " ++ fmtError err] else []
        (validationErrors, { cmd with siteName := arg0 })
  (errorsJoin validationErrors, cmd, printed1 ++ printed2)

/-- The method `InputToOptions`: the command afterwards and the lines logged. -/
def CmdSiteCreate.InputToOptions (env : Env) (cmd : CmdSiteCreate) :
    CmdSiteCreate × List String :=
  let (cmd, logged) : CmdSiteCreate × List String :=
    if cmd.Flags.EnableLinkAccess then
      let (sanByDefault, err) := env.GetSansByDefault
      let logged := if err ≠ none then ["Error getting SANs by default"] else []
      ({ cmd with linkAccessEnabled := true,
                  routerAccessName := "router-access-" ++ cmd.siteName,
                  subjectAlternativeNames := sanByDefault }, logged)
    else (cmd, [])
  let cmd := if cmd.namespace_ = "" then { cmd with namespace_ := "default" } else cmd
  (cmd, logged)

/-- A call of `Add` on one of the two handlers. -/
inductive AddCall where
  | site (resource : Site)
  | routerAccess (resource : RouterAccess)
deriving DecidableEq, Repr

/-- What a call of `Add` returns. -/
def Env.result (env : Env) : AddCall → Option Error
  | .site resource => env.siteAdd resource
  | .routerAccess resource => env.routerAccessAdd resource

/-- The `siteResource` of `Run`. -/
def CmdSiteCreate.siteResource (cmd : CmdSiteCreate) : Site :=
  { APIVersion := "skupper.io/v2alpha1", Kind := "Site",
    Name := cmd.siteName, Namespace := cmd.namespace_ }

/-- The `routerAccessResource` of `Run`. -/
def CmdSiteCreate.routerAccessResource (cmd : CmdSiteCreate) : RouterAccess :=
  { APIVersion := "skupper.io/v2alpha1", Kind := "RouterAccess",
    Name := cmd.routerAccessName, Namespace := cmd.namespace_,
    Roles := [{ Name := "inter-router", Port := 55671 }, { Name := "edge", Port := 45671 }],
    SubjectAlternativeNames := cmd.subjectAlternativeNames }

/-- The method `Run`: the returned error and the calls of `Add` it made, in order. -/
def CmdSiteCreate.Run (env : Env) (cmd : CmdSiteCreate) : Option Error × List AddCall :=
  let siteResource := cmd.siteResource
  let routerAccessResource := cmd.routerAccessResource
  match env.siteAdd siteResource with
  | some err => (some err, [.site siteResource])
  | none =>
    if cmd.linkAccessEnabled == true then
      match env.routerAccessAdd routerAccessResource with
      | some err => (some err, [.site siteResource, .routerAccess routerAccessResource])
      | none => (none, [.site siteResource, .routerAccess routerAccessResource])
    else (none, [.site siteResource])

/-- A validator that accepts lower case letters, digits and `-`, and
collaborators that succeed, used to exercise the statements. -/
def exEnv : Env :=
  { FlagNameContext := "context", FlagNameKubeconfig := "kubeconfig",
    Evaluate := fun s =>
      if s.data.all (fun ch => ch.isLower || ch.isDigit || ch = '-') then (true, none)
      else (false, some "value does not match this regular expression"),
    GetSansByDefault := (some ["localhost"], none),
    siteAdd := fun _ => none,
    routerAccessAdd := fun _ => some "disk full" }

end Nonkube

/-! ## Properties of the work queue and of the processor -/

namespace Watchers
namespace EventProcessor

theorem record_events (c : EventProcessor) (e : Event) : (c.record e).events = c.events ++ [e] := rfl


theorem Handle_snd (c : EventProcessor) (evt : ResourceChange) :
    (c.Handle evt).2 = { c with events := c.events ++ .handle evt :: handleTail c evt } := by
  unfold Handle handleTail Get record
  cases hh : c.handlers evt.Handler with
  | watcher kind handler =>
    cases hl : (c.stores evt.Handler).GetByKey evt.Key <;> simp [hh, hl]
  | callback cb ctx => simp [hh]

theorem Handle_fst_congr (c d : EventProcessor) (evt : ResourceChange)
    (hh : d.handlers = c.handlers) (hs : d.stores = c.stores) (he : d.events = c.events) :
    (d.Handle evt).1 = (c.Handle evt).1 := by
  unfold Handle Get record
  simp only [hh, hs, he]
  cases c.handlers evt.Handler with
  | watcher kind handler =>
    cases (c.stores evt.Handler).GetByKey evt.Key <;> simp
  | callback cb ctx => simp

end EventProcessor
end Watchers

namespace Watchers

theorem WorkQueue.Get_cons (q : WorkQueue) (obj : Item) (rest : List Item)
    (h : q.queue = obj :: rest) : q.Get = .item obj (q.handOut obj rest) := by
  unfold WorkQueue.Get WorkQueue.handOut
  simp [h]

namespace EventProcessor

theorem Handle_fst_queue (c : EventProcessor) (q : WorkQueue) (evt : ResourceChange) :
    ({ c with queue := q }.Handle evt).1 = (c.Handle evt).1 :=
  Handle_fst_congr c _ evt rfl rfl rfl

theorem Describe_congr (c d : EventProcessor) (evt : ResourceChange)
    (hh : d.handlers = c.handlers) : d.Describe evt = c.Describe evt := by
  unfold Describe; rw [hh]

theorem process_ok (c : EventProcessor) (evt : ResourceChange) (rest : List Item)
    (h : c.queue.queue = .change evt :: rest) (hok : (c.Handle evt).1 = none) :
    c.process = some (true,
      { c with
        queue := ((c.queue.handOut (.change evt) rest).Forget (.change evt)).Done (.change evt),
        events := c.events ++ .handle evt :: handleTail c evt
                    ++ [.forget (.change evt), .done (.change evt)] }) := by
  have h1 := Handle_fst_queue c (c.queue.handOut (.change evt) rest) evt
  have h2 := Handle_snd { c with queue := c.queue.handOut (.change evt) rest } evt
  unfold process
  rw [WorkQueue.Get_cons _ _ _ h]
  simp only []
  rw [hok] at h1
  generalize hr : ({ c with queue := c.queue.handOut (.change evt) rest }.Handle evt) = r at h1 h2
  obtain ⟨e, c1⟩ := r
  simp only at h1 h2
  subst h1 h2
  simp [record, handleTail]

end EventProcessor
end Watchers

namespace Watchers
namespace EventProcessor

theorem process_retry (c : EventProcessor) (evt : ResourceChange) (rest : List Item) (err : Error)
    (h : c.queue.queue = .change evt :: rest) (herr : (c.Handle evt).1 = some err)
    (hn : c.queue.failures (.change evt) < 5) :
    c.process = some (true,
      { c with
        queue := ((c.queue.handOut (.change evt) rest).AddRateLimited (.change evt)).Done
                    (.change evt),
        events := c.events ++ .handle evt :: handleTail c evt
                    ++ [.logError c.errorKey (c.Describe evt) err,
                        .addRateLimited (.change evt), .done (.change evt)] }) := by
  have h1 := Handle_fst_queue c (c.queue.handOut (.change evt) rest) evt
  have h2 := Handle_snd { c with queue := c.queue.handOut (.change evt) rest } evt
  unfold process
  rw [WorkQueue.Get_cons _ _ _ h]
  simp only []
  rw [herr] at h1
  generalize hr : ({ c with queue := c.queue.handOut (.change evt) rest }.Handle evt) = r at h1 h2
  obtain ⟨e, c1⟩ := r
  simp only at h1 h2
  subst h1 h2
  have hn' : (c.queue.handOut (.change evt) rest).NumRequeues (.change evt) < 5 := hn
  simp [record, handleTail, hn', Describe]

theorem process_drop (c : EventProcessor) (evt : ResourceChange) (rest : List Item) (err : Error)
    (h : c.queue.queue = .change evt :: rest) (herr : (c.Handle evt).1 = some err)
    (hn : ¬ c.queue.failures (.change evt) < 5) :
    c.process = some (true,
      { c with
        queue := ((c.queue.handOut (.change evt) rest).Forget (.change evt)).Done (.change evt),
        events := c.events ++ .handle evt :: handleTail c evt
                    ++ [.logError c.errorKey (c.Describe evt) err,
                        .forget (.change evt), .done (.change evt)] }) := by
  have h1 := Handle_fst_queue c (c.queue.handOut (.change evt) rest) evt
  have h2 := Handle_snd { c with queue := c.queue.handOut (.change evt) rest } evt
  unfold process
  rw [WorkQueue.Get_cons _ _ _ h]
  simp only []
  rw [herr] at h1
  generalize hr : ({ c with queue := c.queue.handOut (.change evt) rest }.Handle evt) = r at h1 h2
  obtain ⟨e, c1⟩ := r
  simp only at h1 h2
  subst h1 h2
  have hn' : ¬ (c.queue.handOut (.change evt) rest).NumRequeues (.change evt) < 5 := hn
  simp [record, handleTail, hn', Describe]

theorem process_other (c : EventProcessor) (tag : Nat) (rest : List Item)
    (h : c.queue.queue = .other tag :: rest) :
    c.process = some (true,
      { c with
        queue := ((c.queue.handOut (.other tag) rest).Forget (.other tag)).Done (.other tag),
        events := c.events ++ [.logInvalid c.errorKey (.other tag),
                        .forget (.other tag), .done (.other tag)] }) := by
  unfold process
  rw [WorkQueue.Get_cons _ _ _ h]
  simp [record]

end EventProcessor

namespace WorkQueue

theorem not_mem_dirty_handOut (q : WorkQueue) (obj : Item) (rest : List Item) :
    obj ∉ (q.handOut obj rest).dirty := by
  simp [handOut]

theorem When_pos (q : WorkQueue) (item : Item) : 0 < (q.When item).1 := by
  unfold When
  have : 0 < baseDelay * 2 ^ q.failures item := by
    unfold baseDelay; positivity
  have h2 : 0 < maxDelay := by unfold maxDelay; norm_num
  simp only [lt_max_iff, lt_min_iff]
  left; exact ⟨this, h2⟩

end WorkQueue
end Watchers

namespace Watchers
namespace WorkQueue

theorem retry_then_settle (q : WorkQueue) (obj : Item)
    (hq : q.queue = []) (hd : q.dirty = []) (hp : q.processing = [obj])
    (hw : q.waiting = []) (hs : q.shuttingDown = false) :
    let q' := ((q.AddRateLimited obj).Done obj).settle
    q'.queue = [obj] ∧ q'.dirty = [obj] ∧ q'.processing = [] ∧ q'.waiting = [] ∧
      q'.shuttingDown = false ∧ q'.failures obj = q.failures obj + 1 := by
  have hpos := When_pos q obj
  generalize hd' : (q.When obj).1 = d at hpos
  have hne : ¬ ((d : Int) ≤ 0) := by omega
  have hAR : q.AddRateLimited obj =
      { q with failures := fun x => if x = obj then q.failures obj + 1 else q.failures x,
               waiting := [⟨obj, q.now + d⟩] } := by
    unfold AddRateLimited AddAfter
    have : q.When obj = (d, (q.When obj).2) := by rw [← hd']
    rw [this]
    simp [When, hs, hne, hw, insertWaiting, insertSorted]
  rw [hAR]
  simp [Done, settle, advance, deliver, Add, hq, hd, hp, hs]

end WorkQueue
end Watchers

namespace Watchers
namespace EventProcessor

theorem count_handleTail (c : EventProcessor) (evt : ResourceChange) (e : Event)
    (h1 : ∀ w k o, e ≠ .domainCall w k o) (h2 : ∀ h x, e ≠ .callbackCall h x) :
    (handleTail c evt).count e = 0 := by
  unfold handleTail
  cases c.handlers evt.Handler with
  | watcher kind handler =>
    cases (c.stores evt.Handler).GetByKey evt.Key with
    | failed err => simp
    | absent => exact List.count_eq_zero.mpr (by simpa using h1 _ _ _)
    | present obj => exact List.count_eq_zero.mpr (by simpa using h1 _ _ _)
  | callback cb ctx => exact List.count_eq_zero.mpr (by simpa using h2 _ _)

theorem retryRound_step (c0 c : EventProcessor) (evt : ResourceChange) (k : Nat)
    (hfail : FailsAlways c0 evt) (hinv : RetryInv c0 c evt k) (hk : k < 5) :
    RetryInv c0 (retryRound c) evt (k + 1) ∧ c.process.map Prod.fst = some true := by
  obtain ⟨⟨hq, hd, hp, hw, hs⟩, hn, hh, hst, hr, hdi, hf⟩ := hinv
  have hne := hfail c hh hst
  obtain ⟨err, herr⟩ := Option.ne_none_iff_exists'.mp hne
  have hlt : c.queue.failures (.change evt) < 5 := by
    have : c.queue.failures (.change evt) = k := hn
    omega
  have hproc := process_retry c evt [] err hq herr hlt
  have hsettle := WorkQueue.retry_then_settle (c.queue.handOut (.change evt) []) (.change evt)
    rfl (by simp [WorkQueue.handOut, hd]) (by simp [WorkQueue.handOut, hp]) hw hs
  simp only at hsettle
  obtain ⟨s1, s2, s3, s4, s5, s6⟩ := hsettle
  refine ⟨?_, by rw [hproc]; rfl⟩
  unfold retryRound
  rw [hproc]
  refine ⟨⟨s1, s2, s3, s4, s5⟩, ?_, hh, hst, ?_, ?_, ?_⟩
  · show WorkQueue.failures _ _ = k + 1
    rw [s6]
    show c.queue.failures _ + 1 = k + 1
    rw [show c.queue.failures (.change evt) = k from hn]
  · have := count_handleTail c evt (.addRateLimited (.change evt)) (by simp) (by simp)
    simp only [requeues] at hr ⊢
    simp [List.count_append, List.count_cons, this, hr]
    omega
  · have := count_handleTail c evt (.handle evt) (by simp) (by simp)
    simp only [dispatches] at hdi ⊢
    simp [List.count_append, List.count_cons, this, hdi]
    omega
  · have := count_handleTail c evt (.forget (.change evt)) (by simp) (by simp)
    simp only [forgets] at hf ⊢
    simp [List.count_append, List.count_cons, this, hf]

end EventProcessor
end Watchers

namespace Watchers
namespace WorkQueue

theorem drop_then_settle (q : WorkQueue) (obj : Item)
    (hq : q.queue = []) (hd : q.dirty = []) (hp : q.processing = [obj])
    (hw : q.waiting = []) (hs : q.shuttingDown = false) :
    let q' := ((q.Forget obj).Done obj).settle
    q'.queue = [] ∧ q'.dirty = [] ∧ q'.processing = [] ∧ q'.waiting = [] ∧
      q'.shuttingDown = false ∧ q'.failures obj = 0 := by
  simp [Forget, Done, settle, advance, deliver, hq, hd, hp, hs, hw]

end WorkQueue

namespace EventProcessor

theorem process_none_of_idle (c : EventProcessor) (hq : c.queue.queue = [])
    (hs : c.queue.shuttingDown = false) : c.process = none := by
  unfold process WorkQueue.Get
  simp [hq, hs]

theorem retryRound_of_idle (c : EventProcessor) (hq : c.queue.queue = [])
    (hs : c.queue.shuttingDown = false) : retryRound c = c := by
  unfold retryRound
  rw [process_none_of_idle c hq hs]

theorem retryRound_drop (c0 c : EventProcessor) (evt : ResourceChange)
    (hfail : FailsAlways c0 evt) (hinv : RetryInv c0 c evt 5) :
    c.process.map Prod.fst = some true ∧ Idle (retryRound c) (.change evt) ∧
      (retryRound c).handlers = c0.handlers ∧ (retryRound c).stores = c0.stores ∧
      (retryRound c).requeues (.change evt) = c0.requeues (.change evt) + 5 ∧
      (retryRound c).dispatches evt = c0.dispatches evt + 6 ∧
      (retryRound c).forgets (.change evt) = c0.forgets (.change evt) + 1 := by
  obtain ⟨⟨hq, hd, hp, hw, hs⟩, hn, hh, hst, hr, hdi, hf⟩ := hinv
  have hne := hfail c hh hst
  obtain ⟨err, herr⟩ := Option.ne_none_iff_exists'.mp hne
  have hlt : ¬ c.queue.failures (.change evt) < 5 := by
    have : c.queue.failures (.change evt) = 5 := hn
    omega
  have hproc := process_drop c evt [] err hq herr hlt
  have hsettle := WorkQueue.drop_then_settle (c.queue.handOut (.change evt) []) (.change evt)
    rfl (by simp [WorkQueue.handOut, hd]) (by simp [WorkQueue.handOut, hp]) hw hs
  simp only at hsettle
  obtain ⟨s1, s2, s3, s4, s5, s6⟩ := hsettle
  refine ⟨by rw [hproc]; rfl, ?_⟩
  unfold retryRound
  rw [hproc]
  refine ⟨⟨s1, s2, s3, s4, s5, s6⟩, hh, hst, ?_, ?_, ?_⟩
  · have := count_handleTail c evt (.addRateLimited (.change evt)) (by simp) (by simp)
    simp only [requeues] at hr ⊢
    simp [List.count_append, List.count_cons, this, hr]
  · have := count_handleTail c evt (.handle evt) (by simp) (by simp)
    simp only [dispatches] at hdi ⊢
    simp [List.count_append, List.count_cons, this, hdi]
  · have := count_handleTail c evt (.forget (.change evt)) (by simp) (by simp)
    simp only [forgets] at hf ⊢
    simp [List.count_append, List.count_cons, this, hf]

theorem retryInv_start (c : EventProcessor) (evt : ResourceChange)
    (hsole : SolePending c (.change evt)) (h0 : c.queue.NumRequeues (.change evt) = 0) :
    RetryInv c c evt 0 :=
  ⟨hsole, h0, rfl, rfl, rfl, rfl, rfl⟩

theorem retryRound_iterate (c : EventProcessor) (evt : ResourceChange)
    (hfail : FailsAlways c evt) (hsole : SolePending c (.change evt))
    (h0 : c.queue.NumRequeues (.change evt) = 0) :
    ∀ k, k ≤ 5 → RetryInv c (retryRound^[k] c) evt k := by
  intro k
  induction k with
  | zero => intro _; exact retryInv_start c evt hsole h0
  | succ n ih =>
    intro hk
    rw [Function.iterate_succ_apply']
    exact (retryRound_step c _ evt n hfail (ih (by omega)) (by omega)).1

theorem retryRound_iterate_after (c : EventProcessor) (evt : ResourceChange)
    (hidle : Idle (retryRound^[6] c) (.change evt)) :
    ∀ n, 6 ≤ n → retryRound^[n] c = retryRound^[6] c := by
  intro n hn
  obtain ⟨m, rfl⟩ := Nat.exists_eq_add_of_le hn
  induction m with
  | zero => rfl
  | succ m ih =>
    rw [show 6 + (m + 1) = (6 + m) + 1 from rfl, Function.iterate_succ_apply', ih (by omega)]
    exact retryRound_of_idle _ hidle.1 hidle.2.2.2.2.1

/-- Claim C1. An event whose handler fails on every dispatch and whose retry
count starts at 0 is re-inserted (rate limited) by each of the first five
calls of `process` that dispatch it and dropped by the sixth: after `k ≤ 5`
rounds it is pending again with `k` re-insertions and retry count `k`, every
one of these calls returns true, the sixth call forgets the event and leaves
it neither pending nor delayed, and no later round re-inserts it (`process`
then finds nothing to dispatch). -/
theorem process_retries_five_times_then_drops (c : EventProcessor) (evt : ResourceChange)
    (hfail : FailsAlways c evt) (hsole : SolePending c (.change evt))
    (h0 : c.queue.NumRequeues (.change evt) = 0) :
    (∀ k, k ≤ 5 →
      (retryRound^[k] c).queue.queue = [.change evt] ∧
      (retryRound^[k] c).queue.NumRequeues (.change evt) = k ∧
      (retryRound^[k] c).requeues (.change evt) = c.requeues (.change evt) + k ∧
      (retryRound^[k] c).dispatches evt = c.dispatches evt + k ∧
      (retryRound^[k] c).forgets (.change evt) = c.forgets (.change evt) ∧
      (retryRound^[k] c).process.map Prod.fst = some true) ∧
    (∀ n, 6 ≤ n →
      (retryRound^[n] c).queue.queue = [] ∧ (retryRound^[n] c).queue.waiting = [] ∧
      (retryRound^[n] c).requeues (.change evt) = c.requeues (.change evt) + 5 ∧
      (retryRound^[n] c).dispatches evt = c.dispatches evt + 6 ∧
      (retryRound^[n] c).forgets (.change evt) = c.forgets (.change evt) + 1 ∧
      (retryRound^[n] c).process = none) := by
  have hit := retryRound_iterate c evt hfail hsole h0
  have h6 := retryRound_drop c _ evt hfail (hit 5 (le_refl 5))
  rw [← Function.iterate_succ_apply' retryRound 5 c] at h6
  constructor
  · intro k hk
    have hinv := hit k hk
    refine ⟨hinv.1.1, hinv.2.1, hinv.2.2.2.2.1, hinv.2.2.2.2.2.1, hinv.2.2.2.2.2.2, ?_⟩
    rcases Nat.lt_or_ge k 5 with hlt | hge
    · exact (retryRound_step c _ evt k hfail hinv hlt).2
    · have : k = 5 := by omega
      subst this
      exact h6.1
  · intro n hn
    rw [retryRound_iterate_after c evt h6.2.1 n hn]
    obtain ⟨_, hidle, _, _, hr, hd, hf⟩ := h6
    exact ⟨hidle.1, hidle.2.2.2.1, hr, hd, hf,
      process_none_of_idle _ hidle.1 hidle.2.2.2.2.1⟩

theorem exFailingProc_failsAlways : FailsAlways exFailingProc exEvt := by
  intro d hh hs
  unfold Handle Get record
  simp only [hh, hs, exFailingProc]
  cases ({} : Store).GetByKey exEvt.Key <;> simp [exFailing]

theorem exFailingProc_solePending : SolePending exFailingProc (.change exEvt) :=
  ⟨rfl, rfl, rfl, rfl, rfl⟩

/-- The statement of C1 at `exFailingProc`: five re-insertions and six
dispatches in all, however many rounds follow. -/
theorem process_retries_five_times_then_drops_witness :
    FailsAlways exFailingProc exEvt ∧ SolePending exFailingProc (.change exEvt) ∧
      exFailingProc.queue.NumRequeues (.change exEvt) = 0 ∧
      (retryRound^[9] exFailingProc).requeues (.change exEvt) = 5 ∧
      (retryRound^[9] exFailingProc).dispatches exEvt = 6 :=
  ⟨exFailingProc_failsAlways, exFailingProc_solePending, rfl,
    ((process_retries_five_times_then_drops exFailingProc exEvt exFailingProc_failsAlways
      exFailingProc_solePending rfl).2 9 (by decide)).2.2.1,
    ((process_retries_five_times_then_drops exFailingProc exEvt exFailingProc_failsAlways
      exFailingProc_solePending rfl).2 9 (by decide)).2.2.2.1⟩

end EventProcessor
end Watchers

namespace Watchers
namespace WorkQueue

theorem mem_insertSorted (e : WaitFor) (l : List WaitFor) : e ∈ insertSorted e l := by
  induction l with
  | nil => simp [insertSorted]
  | cons x xs ih =>
    unfold insertSorted
    split
    · simp
    · exact List.mem_cons_of_mem _ ih

theorem exists_mem_insertWaiting (w : List WaitFor) (e : WaitFor) :
    ∃ x ∈ insertWaiting w e, x.data = e.data := by
  unfold insertWaiting
  split
  · next ex hex =>
    split
    · exact ⟨e, mem_insertSorted _ _, rfl⟩
    · exact ⟨ex, List.mem_of_find?_eq_some hex, by simpa using List.find?_some hex⟩
  · exact ⟨e, mem_insertSorted _ _, rfl⟩

theorem AddRateLimited_eq (q : WorkQueue) (obj : Item) :
    q.AddRateLimited obj =
      if q.shuttingDown then
        { q with failures := fun x => if x = obj then q.failures obj + 1 else q.failures x }
      else
        { q with failures := fun x => if x = obj then q.failures obj + 1 else q.failures x,
                 waiting := insertWaiting q.waiting ⟨obj, q.now + (q.When obj).1⟩ } := by
  have hpos := When_pos q obj
  have hne : ¬ (((q.When obj).1 : Int) ≤ 0) := by omega
  unfold AddRateLimited AddAfter
  have : q.When obj = ((q.When obj).1, (q.When obj).2) := rfl
  rw [this]
  simp only []
  rw [if_neg hne, Int.toNat_natCast]
  cases hs : q.shuttingDown <;> simp [When, hs]

theorem AddRateLimited_queue (q : WorkQueue) (obj : Item) :
    (q.AddRateLimited obj).queue = q.queue := by
  rw [AddRateLimited_eq]; split <;> rfl

theorem AddRateLimited_dirty (q : WorkQueue) (obj : Item) :
    (q.AddRateLimited obj).dirty = q.dirty := by
  rw [AddRateLimited_eq]; split <;> rfl

theorem AddRateLimited_failures (q : WorkQueue) (obj x : Item) :
    (q.AddRateLimited obj).failures x = if x = obj then q.failures obj + 1 else q.failures x := by
  rw [AddRateLimited_eq]; split <;> rfl

theorem AddRateLimited_waiting (q : WorkQueue) (obj : Item) (hs : q.shuttingDown = false) :
    ∃ w ∈ (q.AddRateLimited obj).waiting, w.data = obj := by
  rw [AddRateLimited_eq, hs]
  exact exists_mem_insertWaiting _ _

theorem Done_of_not_dirty (q : WorkQueue) (obj : Item) (h : obj ∉ q.dirty) :
    q.Done obj = { q with processing := q.processing.filter (fun x => x ≠ obj) } := by
  unfold Done
  simp [h]

end WorkQueue

namespace EventProcessor

/-- Claim C2. On a handler error `process` looks at the retry counter of the
event: below the ceiling of 5 it counts one more retry and re-inserts the
event through `AddRateLimited` (on a running queue the event is then among
the delayed additions); otherwise it drops the event, which is not
re-inserted, and its retry counter is reset to zero. -/
theorem process_error_retries_below_ceiling (c : EventProcessor) (evt : ResourceChange)
    (rest : List Item) (err : Error)
    (h : c.queue.queue = .change evt :: rest) (herr : (c.Handle evt).1 = some err) :
    ∃ c', c.process = some (true, c') ∧
      (c.queue.NumRequeues (.change evt) < 5 →
        c'.queue.NumRequeues (.change evt) = c.queue.NumRequeues (.change evt) + 1 ∧
        c'.queue =
          ((c.queue.handOut (.change evt) rest).AddRateLimited (.change evt)).Done (.change evt) ∧
        c'.requeues (.change evt) = c.requeues (.change evt) + 1 ∧
        c'.forgets (.change evt) = c.forgets (.change evt) ∧
        (c.queue.shuttingDown = false → ∃ w ∈ c'.queue.waiting, w.data = .change evt)) ∧
      (¬ c.queue.NumRequeues (.change evt) < 5 →
        c'.queue.NumRequeues (.change evt) = 0 ∧
        c'.queue.queue = rest ∧ c'.queue.waiting = c.queue.waiting ∧
        .change evt ∉ c'.queue.dirty ∧
        c'.requeues (.change evt) = c.requeues (.change evt) ∧
        c'.forgets (.change evt) = c.forgets (.change evt) + 1) := by
  have hnd := WorkQueue.not_mem_dirty_handOut c.queue (.change evt) rest
  by_cases hn : c.queue.failures (.change evt) < 5
  · refine ⟨_, process_retry c evt rest err h herr hn, fun _ => ⟨?_, rfl, ?_, ?_, ?_⟩,
      fun hc => absurd hn hc⟩
    · have hnd' : Item.change evt ∉
          ((c.queue.handOut (.change evt) rest).AddRateLimited (.change evt)).dirty := by
        rw [WorkQueue.AddRateLimited_dirty]; exact hnd
      show WorkQueue.failures _ _ = _
      rw [WorkQueue.Done_of_not_dirty _ _ hnd']
      show WorkQueue.failures (WorkQueue.AddRateLimited _ _) _ = _
      rw [WorkQueue.AddRateLimited_failures]
      simp [WorkQueue.handOut, WorkQueue.NumRequeues]
    · have := count_handleTail c evt (.addRateLimited (.change evt)) (by simp) (by simp)
      simp [requeues, List.count_append, List.count_cons, this]
    · have := count_handleTail c evt (.forget (.change evt)) (by simp) (by simp)
      simp [forgets, List.count_append, List.count_cons, this]
    · intro hs
      have hnd' : Item.change evt ∉
          ((c.queue.handOut (.change evt) rest).AddRateLimited (.change evt)).dirty := by
        rw [WorkQueue.AddRateLimited_dirty]; exact hnd
      show ∃ w ∈ WorkQueue.waiting (WorkQueue.Done _ _), _
      rw [WorkQueue.Done_of_not_dirty _ _ hnd']
      exact WorkQueue.AddRateLimited_waiting (c.queue.handOut (.change evt) rest) _ hs
  · refine ⟨_, process_drop c evt rest err h herr hn, fun hc => absurd hc hn,
      fun _ => ⟨?_, ?_, ?_, ?_, ?_, ?_⟩⟩
    · simp [WorkQueue.Done, WorkQueue.Forget, WorkQueue.handOut, WorkQueue.NumRequeues]
    · simp [WorkQueue.Done, WorkQueue.Forget, WorkQueue.handOut]
    · simp [WorkQueue.Done, WorkQueue.Forget, WorkQueue.handOut]
    · simp [WorkQueue.Done, WorkQueue.Forget, WorkQueue.handOut]
    · have := count_handleTail c evt (.addRateLimited (.change evt)) (by simp) (by simp)
      simp [requeues, List.count_append, List.count_cons, this]
    · have := count_handleTail c evt (.forget (.change evt)) (by simp) (by simp)
      simp [forgets, List.count_append, List.count_cons, this]

end EventProcessor
end Watchers

namespace Watchers
namespace EventProcessor

/-- The statement of C2 at `exFailingProc`: the first failure counts one retry. -/
theorem process_error_retries_below_ceiling_witness :
    exFailingProc.queue.queue = [.change exEvt] ∧
      (exFailingProc.Handle exEvt).1 = some "boom" ∧
      ∃ c', exFailingProc.process = some (true, c') ∧
        c'.queue.NumRequeues (.change exEvt) = 1 ∧
        ∃ w ∈ c'.queue.waiting, w.data = .change exEvt := by
  obtain ⟨c', hp, hlt, _⟩ :=
    process_error_retries_below_ceiling exFailingProc exEvt [] "boom" rfl rfl
  have h := hlt (by decide)
  exact ⟨rfl, rfl, c', hp, h.1, h.2.2.2.2 rfl⟩

theorem solePending_add_of_idle (c : EventProcessor) (obj : Item) (h : Idle c obj) :
    SolePending { c with queue := c.queue.Add obj } obj ∧
      ({ c with queue := c.queue.Add obj } : EventProcessor).queue.NumRequeues obj = 0 := by
  obtain ⟨hq, hd, hp, hw, hs, hn⟩ := h
  refine ⟨⟨?_, ?_, ?_, ?_, ?_⟩, ?_⟩
  all_goals simp [WorkQueue.Add, hq, hd, hp, hw, hs, WorkQueue.NumRequeues]
  exact hn

/-- Claim C3. Once an always failing event has used up its retries and has been
dropped by `process`, its retry counter is 0; when the same event (same
handler, same key) is enqueued afterwards it is pending with a counter of 0
and is again re-inserted five times before it is dropped. -/
theorem dropped_event_starts_afresh (c : EventProcessor) (evt : ResourceChange)
    (hfail : FailsAlways c evt) (hsole : SolePending c (.change evt))
    (h0 : c.queue.NumRequeues (.change evt) = 0) :
    (retryRound^[6] c).queue.NumRequeues (.change evt) = 0 ∧
    (retryRound^[6] c).forgets (.change evt) = c.forgets (.change evt) + 1 ∧
    ∀ d : EventProcessor,
      d = { retryRound^[6] c with queue := (retryRound^[6] c).queue.Add (.change evt) } →
      d.queue.queue = [.change evt] ∧ d.queue.NumRequeues (.change evt) = 0 ∧
      (∀ k, k ≤ 5 →
        (retryRound^[k] d).queue.queue = [.change evt] ∧
        (retryRound^[k] d).queue.NumRequeues (.change evt) = k ∧
        (retryRound^[k] d).requeues (.change evt) = c.requeues (.change evt) + 5 + k) ∧
      (retryRound^[6] d).queue.queue = [] ∧
      (retryRound^[6] d).requeues (.change evt) = c.requeues (.change evt) + 10 ∧
      (retryRound^[6] d).forgets (.change evt) = c.forgets (.change evt) + 2 := by
  have hit := retryRound_iterate c evt hfail hsole h0
  have h6 := retryRound_drop c _ evt hfail (hit 5 (le_refl 5))
  rw [← Function.iterate_succ_apply' retryRound 5 c] at h6
  obtain ⟨_, hidle, hh, hst, hr, _, hf⟩ := h6
  refine ⟨hidle.2.2.2.2.2, hf, ?_⟩
  intro d hd
  have hadd := solePending_add_of_idle _ _ hidle
  rw [← hd] at hadd
  have hdh : d.handlers = c.handlers := by rw [hd]; exact hh
  have hds : d.stores = c.stores := by rw [hd]; exact hst
  have hde : d.events = (retryRound^[6] c).events := by rw [hd]
  have hfail' : FailsAlways d evt := fun x hx hxs =>
    hfail x (hx.trans hdh) (hxs.trans hds)
  have hit' := retryRound_iterate d evt hfail' hadd.1 hadd.2
  have h6' := retryRound_drop d _ evt hfail' (hit' 5 (le_refl 5))
  rw [← Function.iterate_succ_apply' retryRound 5 d] at h6'
  have hdr : d.requeues (.change evt) = c.requeues (.change evt) + 5 := by
    unfold requeues at hr ⊢; rw [hde]; exact hr
  have hdf : d.forgets (.change evt) = c.forgets (.change evt) + 1 := by
    unfold forgets at hf ⊢; rw [hde]; exact hf
  refine ⟨hadd.1.1, hadd.2, ?_, h6'.2.1.1, ?_, ?_⟩
  · intro k hk
    have hinv := hit' k hk
    exact ⟨hinv.1.1, hinv.2.1, by rw [hinv.2.2.2.2.1, hdr]⟩
  · rw [h6'.2.2.2.2.1, hdr]
  · rw [h6'.2.2.2.2.2.2, hdf]

/-- The statement of C3 at `exFailingProc`: ten re-insertions in all after the
event has been enqueued a second time and dropped again. -/
theorem dropped_event_starts_afresh_witness :
    FailsAlways exFailingProc exEvt ∧ SolePending exFailingProc (.change exEvt) ∧
      exFailingProc.queue.NumRequeues (.change exEvt) = 0 ∧
      (retryRound^[6] exFailingProc).queue.NumRequeues (.change exEvt) = 0 ∧
      (retryRound^[6] { retryRound^[6] exFailingProc with
          queue := (retryRound^[6] exFailingProc).queue.Add (.change exEvt) }).requeues
        (.change exEvt) = 10 :=
  ⟨exFailingProc_failsAlways, exFailingProc_solePending, rfl,
    (dropped_event_starts_afresh exFailingProc exEvt exFailingProc_failsAlways
      exFailingProc_solePending rfl).1,
    ((dropped_event_starts_afresh exFailingProc exEvt exFailingProc_failsAlways
      exFailingProc_solePending rfl).2.2 _ rfl).2.2.2.2.1⟩

/-- Claim C4. When the handler of the dequeued event returns no error, `process`
forgets the event (its retry count is 0 afterwards, whatever it was) and does
not re-insert it: it is neither pending nor marked dirty, the delayed
additions are unchanged and `AddRateLimited` is not called. -/
theorem process_success_clears_retries (c : EventProcessor) (evt : ResourceChange)
    (rest : List Item)
    (h : c.queue.queue = .change evt :: rest) (hok : (c.Handle evt).1 = none) :
    ∃ c', c.process = some (true, c') ∧
      c'.queue.NumRequeues (.change evt) = 0 ∧
      c'.queue.queue = rest ∧ c'.queue.waiting = c.queue.waiting ∧
      .change evt ∉ c'.queue.dirty ∧
      c'.requeues (.change evt) = c.requeues (.change evt) ∧
      c'.forgets (.change evt) = c.forgets (.change evt) + 1 := by
  refine ⟨_, process_ok c evt rest h hok, ?_, ?_, ?_, ?_, ?_, ?_⟩
  · simp [WorkQueue.Done, WorkQueue.Forget, WorkQueue.handOut, WorkQueue.NumRequeues]
  · simp [WorkQueue.Done, WorkQueue.Forget, WorkQueue.handOut]
  · simp [WorkQueue.Done, WorkQueue.Forget, WorkQueue.handOut]
  · simp [WorkQueue.Done, WorkQueue.Forget, WorkQueue.handOut]
  · have := count_handleTail c evt (.addRateLimited (.change evt)) (by simp) (by simp)
    simp [requeues, List.count_append, List.count_cons, this]
  · have := count_handleTail c evt (.forget (.change evt)) (by simp) (by simp)
    simp [forgets, List.count_append, List.count_cons, this]

/-- The statement of C4 at `exSucceedingProc`, where three failures had been counted. -/
theorem process_success_clears_retries_witness :
    exSucceedingProc.queue.queue = [.change exEvt] ∧
      (exSucceedingProc.Handle exEvt).1 = none ∧
      exSucceedingProc.queue.NumRequeues (.change exEvt) = 3 ∧
      ∃ c', exSucceedingProc.process = some (true, c') ∧
        c'.queue.NumRequeues (.change exEvt) = 0 ∧ c'.queue.queue = [] ∧
        c'.queue.waiting = [] := by
  obtain ⟨c', hp, h1, h2, h3, _⟩ :=
    process_success_clears_retries exSucceedingProc exEvt [] rfl rfl
  exact ⟨rfl, rfl, rfl, c', hp, h1, h2, h3⟩

end EventProcessor
end Watchers

namespace Watchers
namespace EventProcessor

theorem process_of_pending (c : EventProcessor) (obj : Item) (rest : List Item)
    (h : c.queue.queue = obj :: rest) :
    ∃ c', c.process = some (true, c') ∧ c'.queue.queue = rest ∧
      c'.queue.shuttingDown = c.queue.shuttingDown ∧
      (∀ x, x ≠ obj → c'.queue.failures x = c.queue.failures x) ∧
      (∀ x, x ≠ obj → (x ∈ c'.queue.dirty ↔ x ∈ c.queue.dirty)) := by
  have hnd := WorkQueue.not_mem_dirty_handOut c.queue obj rest
  have hforget : ∀ q : WorkQueue, q = ((c.queue.handOut obj rest).Forget obj).Done obj →
      q.queue = rest ∧ q.shuttingDown = c.queue.shuttingDown ∧
      (∀ x, x ≠ obj → q.failures x = c.queue.failures x) ∧
      (∀ x, x ≠ obj → (x ∈ q.dirty ↔ x ∈ c.queue.dirty)) := by
    intro q hq
    subst hq
    refine ⟨?_, ?_, ?_, ?_⟩
    · simp [WorkQueue.Done, WorkQueue.Forget, WorkQueue.handOut]
    · simp [WorkQueue.Done, WorkQueue.Forget, WorkQueue.handOut]
    · intro x hx
      simp [WorkQueue.Done, WorkQueue.Forget, WorkQueue.handOut, hx]
    · intro x hx
      simp [WorkQueue.Done, WorkQueue.Forget, WorkQueue.handOut, hx]
  cases obj with
  | other tag => exact ⟨_, process_other c tag rest h, hforget _ rfl⟩
  | change evt =>
    cases herr : (c.Handle evt).1 with
    | none => exact ⟨_, process_ok c evt rest h herr, hforget _ rfl⟩
    | some err =>
      by_cases hn : c.queue.failures (.change evt) < 5
      · have hnd' : Item.change evt ∉
            ((c.queue.handOut (.change evt) rest).AddRateLimited (.change evt)).dirty := by
          rw [WorkQueue.AddRateLimited_dirty]; exact hnd
        refine ⟨_, process_retry c evt rest err h herr hn, ?_, ?_, ?_, ?_⟩
        · show WorkQueue.queue (WorkQueue.Done _ _) = rest
          rw [WorkQueue.Done_of_not_dirty _ _ hnd']
          show WorkQueue.queue (WorkQueue.AddRateLimited _ _) = rest
          rw [WorkQueue.AddRateLimited_queue]; rfl
        · show WorkQueue.shuttingDown (WorkQueue.Done _ _) = _
          rw [WorkQueue.Done_of_not_dirty _ _ hnd', WorkQueue.AddRateLimited_eq]
          cases hs : c.queue.shuttingDown <;> simp [WorkQueue.handOut, hs]
        · intro x hx
          show WorkQueue.failures (WorkQueue.Done _ _) x = _
          rw [WorkQueue.Done_of_not_dirty _ _ hnd']
          show WorkQueue.failures (WorkQueue.AddRateLimited _ _) x = _
          rw [WorkQueue.AddRateLimited_failures, if_neg hx]; rfl
        · intro x hx
          show x ∈ WorkQueue.dirty (WorkQueue.Done _ _) ↔ _
          rw [WorkQueue.Done_of_not_dirty _ _ hnd']
          show x ∈ WorkQueue.dirty (WorkQueue.AddRateLimited _ _) ↔ _
          rw [WorkQueue.AddRateLimited_dirty]
          simp [WorkQueue.handOut, hx]
      · exact ⟨_, process_drop c evt rest err h herr hn, hforget _ rfl⟩

end EventProcessor
end Watchers

namespace Watchers
namespace EventProcessor

/-- Counterexample to C5 as stated: `exSucceedingProc` still holds the pending
event `exEvt` when `Stop` is called; the next call of `process` returns true
and has entered the handler of that event and called its domain handler. -/
theorem stop_with_pending_event_still_dispatches :
    (exSucceedingProc.Stop.process).map (fun r => (r.1, r.2.events)) =
      some (true, [.handle exEvt, .domainCall 0 "ns1/a" (some exObj),
                   .forget (.change exEvt), .done (.change exEvt)]) := by
  rfl

/-- Claim C5, amended. After `Stop`, a call of `process` that finds no pending
event returns false and invokes no handler: the processor is left exactly as
`Stop` left it. An item that is still pending at the time of `Stop` is
handed out by the next call of `process`, which returns true. When that item
is an event, `process` dispatches it: the record grows by what
`evt.Handler.Handle(evt)` records (its `handle` entry and the call of the
domain handler or of the callback), followed by `Forget` and `Done` when the
handler succeeds, and by the logged error, `AddRateLimited` (below the
ceiling) or `Forget` (at the ceiling) and `Done` when it fails; the handler
has been entered once more than before, and no delayed addition is scheduled
on the stopped queue. A pending value that is not an event is logged as
invalid and forgotten, as on a running queue. -/
theorem process_after_stop (c : EventProcessor) :
    (c.queue.queue = [] → c.Stop.process = some (false, c.Stop)) ∧
    (∀ obj rest, c.queue.queue = obj :: rest →
      ∃ c', c.Stop.process = some (true, c') ∧ c'.queue.queue = rest ∧
        c'.queue.shuttingDown = true ∧ c'.queue.waiting = c.queue.waiting) ∧
    (∀ evt rest, c.queue.queue = .change evt :: rest →
      ∃ c' after, c.Stop.process = some (true, c') ∧
        (c.Handle evt).2.events = c.events ++ .handle evt :: handleTail c evt ∧
        c'.events = (c.Handle evt).2.events ++ after ∧
        c'.dispatches evt = c.dispatches evt + 1 ∧
        ((c.Handle evt).1 = none → after = [.forget (.change evt), .done (.change evt)]) ∧
        (∀ err, (c.Handle evt).1 = some err → c.queue.NumRequeues (.change evt) < 5 →
          after = [.logError c.errorKey (c.Describe evt) err,
                   .addRateLimited (.change evt), .done (.change evt)]) ∧
        (∀ err, (c.Handle evt).1 = some err → ¬ c.queue.NumRequeues (.change evt) < 5 →
          after = [.logError c.errorKey (c.Describe evt) err,
                   .forget (.change evt), .done (.change evt)])) ∧
    (∀ tag rest, c.queue.queue = .other tag :: rest →
      ∃ c', c.Stop.process = some (true, c') ∧
        c'.events = c.events ++ [.logInvalid c.errorKey (.other tag),
                                 .forget (.other tag), .done (.other tag)]) := by
  have hfst : ∀ evt, (c.Stop.Handle evt).1 = (c.Handle evt).1 := fun evt =>
    Handle_fst_queue c _ evt
  have hcount : ∀ (evt : ResourceChange) (after : List Event),
      after.count (.handle evt) = 0 →
      (c.events ++ .handle evt :: handleTail c evt ++ after).count (.handle evt) =
        c.events.count (.handle evt) + 1 := by
    intro evt after ha
    have ht : (handleTail c evt).count (.handle evt) = 0 :=
      count_handleTail c evt _ (by intros; simp) (by intros; simp)
    simp [List.count_append, List.count_cons, ht, ha]
  refine ⟨?_, ?_, ?_, ?_⟩
  · intro h
    unfold process WorkQueue.Get Stop WorkQueue.ShutDown
    simp [h]
  · intro obj rest h
    have hs : c.Stop.queue.queue = obj :: rest := h
    have hnd := WorkQueue.not_mem_dirty_handOut c.Stop.queue obj rest
    have hforget : ∀ q : WorkQueue, q = ((c.Stop.queue.handOut obj rest).Forget obj).Done obj →
        q.queue = rest ∧ q.shuttingDown = true ∧ q.waiting = c.queue.waiting := by
      intro q hq
      subst hq
      simp [WorkQueue.Done, WorkQueue.Forget, WorkQueue.handOut, Stop, WorkQueue.ShutDown]
    cases obj with
    | other tag => exact ⟨_, process_other c.Stop tag rest hs, hforget _ rfl⟩
    | change evt =>
      cases herr : (c.Stop.Handle evt).1 with
      | none => exact ⟨_, process_ok c.Stop evt rest hs herr, hforget _ rfl⟩
      | some err =>
        by_cases hn : c.Stop.queue.failures (.change evt) < 5
        · have hnd' : Item.change evt ∉
              ((c.Stop.queue.handOut (.change evt) rest).AddRateLimited (.change evt)).dirty := by
            rw [WorkQueue.AddRateLimited_dirty]; exact hnd
          refine ⟨_, process_retry c.Stop evt rest err hs herr hn, ?_⟩
          show WorkQueue.queue (WorkQueue.Done _ _) = rest ∧
            WorkQueue.shuttingDown (WorkQueue.Done _ _) = true ∧
            WorkQueue.waiting (WorkQueue.Done _ _) = c.queue.waiting
          rw [WorkQueue.Done_of_not_dirty _ _ hnd', WorkQueue.AddRateLimited_eq]
          simp [WorkQueue.handOut, Stop, WorkQueue.ShutDown]
        · exact ⟨_, process_drop c.Stop evt rest err hs herr hn, hforget _ rfl⟩
  · intro evt rest h
    have hs : c.Stop.queue.queue = .change evt :: rest := h
    have hsnd := Handle_snd c evt
    have hev : (c.Handle evt).2.events = c.events ++ .handle evt :: handleTail c evt := by
      rw [hsnd]
    cases herr : (c.Handle evt).1 with
    | none =>
      refine ⟨_, [.forget (.change evt), .done (.change evt)],
        process_ok c.Stop evt rest hs (by rw [hfst, herr]), hev, ?_, ?_, fun _ => rfl,
        fun err he => (by cases he), fun err he => (by cases he)⟩
      · rw [hev]; simp [Stop, handleTail]
      · exact hcount evt _ (by simp)
    | some err =>
      by_cases hn : c.queue.failures (.change evt) < 5
      · refine ⟨_, [.logError c.errorKey (c.Describe evt) err,
            .addRateLimited (.change evt), .done (.change evt)],
          process_retry c.Stop evt rest err hs (by rw [hfst, herr]) hn, hev, ?_, ?_,
          (fun he => by cases he), (fun e he _ => by cases he; rfl),
          fun e _ hn' => absurd hn hn'⟩
        · rw [hev]; simp [Stop, handleTail, Describe]
        · exact hcount evt _ (by simp)
      · refine ⟨_, [.logError c.errorKey (c.Describe evt) err,
            .forget (.change evt), .done (.change evt)],
          process_drop c.Stop evt rest err hs (by rw [hfst, herr]) hn, hev, ?_, ?_,
          (fun he => by cases he), (fun e _ hn' => absurd hn' hn),
          (fun e he _ => by cases he; rfl)⟩
        · rw [hev]; simp [Stop, handleTail, Describe]
        · exact hcount evt _ (by simp)
  · intro tag rest h
    exact ⟨_, process_other c.Stop tag rest h, rfl⟩

/-- The statement of the amended C5 at `exEmptyProc` (nothing pending), at
`exMalformedProc` (two items pending, the first not an event) and at
`exSucceedingProc` and `exFailingProc`, stopped with the event `exEvt`
pending: the handler of `exEvt` is entered and the domain handler of watcher 0
is called with the key and what the mirror holds under it. -/
theorem process_after_stop_witness :
    exEmptyProc.queue.queue = [] ∧ exEmptyProc.Stop.process = some (false, exEmptyProc.Stop) ∧
      (∃ c', exMalformedProc.Stop.process = some (true, c') ∧
        c'.queue.queue = [.change exEvt] ∧ c'.queue.shuttingDown = true ∧
        c'.queue.waiting = []) ∧
      (∃ c', exSucceedingProc.Stop.process = some (true, c') ∧
        c'.events = [.handle exEvt, .domainCall 0 "ns1/a" (some exObj),
                     .forget (.change exEvt), .done (.change exEvt)] ∧
        c'.dispatches exEvt = 1) ∧
      (∃ c', exFailingProc.Stop.process = some (true, c') ∧
        c'.events = [.handle exEvt, .domainCall 0 "ns1/a" none,
                     .logError "Error" "ConfigMap ns1/a" "boom",
                     .addRateLimited (.change exEvt), .done (.change exEvt)] ∧
        c'.dispatches exEvt = 1) := by
  refine ⟨rfl, (process_after_stop exEmptyProc).1 rfl,
    (process_after_stop exMalformedProc).2.1 (.other 1) [.change exEvt] rfl, ?_, ?_⟩
  · obtain ⟨c', after, hp, hh, he, hd, hok, _, _⟩ :=
      (process_after_stop exSucceedingProc).2.2.1 exEvt [] rfl
    refine ⟨c', hp, ?_, hd⟩
    rw [he, hok rfl]; rfl
  · obtain ⟨c', after, hp, hh, he, hd, _, hretry, _⟩ :=
      (process_after_stop exFailingProc).2.2.1 exEvt [] rfl
    refine ⟨c', hp, ?_, hd⟩
    rw [he, hretry "boom" rfl (by decide)]; rfl

end EventProcessor
end Watchers

namespace Watchers
namespace EventProcessor

/-- Claim C6. Whenever `process` dequeues an item it returns true, whether the
handler succeeds or fails or the item is not a `ResourceChange` (this holds
in particular when the queue is not shut down). The other pending items stay
queued in their order, and their dirty marks and retry counters are
untouched, so a handler error neither ends the loop `for c.process() {}` nor
changes what else is pending. -/
theorem process_returns_true_for_dequeued_item (c : EventProcessor) (obj : Item)
    (rest : List Item) (h : c.queue.queue = obj :: rest) :
    ∃ c', c.process = some (true, c') ∧ c'.queue.queue = rest ∧
      (∀ x, x ≠ obj → c'.queue.NumRequeues x = c.queue.NumRequeues x) ∧
      (∀ x, x ≠ obj → (x ∈ c'.queue.dirty ↔ x ∈ c.queue.dirty)) := by
  obtain ⟨c', hp, hq, _, hf, hd⟩ := process_of_pending c obj rest h
  exact ⟨c', hp, hq, hf, hd⟩

/-- The statement of C6 at `exFailingProc` with a second event queued behind
the failing one: the call returns true and the second event is what remains. -/
theorem process_returns_true_for_dequeued_item_witness :
    ∃ c', ({ exFailingProc with
              queue := { queue := [.change exEvt, .change ⟨1, "ns2/b"⟩],
                         dirty := [.change exEvt, .change ⟨1, "ns2/b"⟩] } } :
            EventProcessor).process = some (true, c') ∧
      c'.queue.queue = [.change ⟨1, "ns2/b"⟩] := by
  obtain ⟨c', hp, hq, _⟩ := process_returns_true_for_dequeued_item
    { exFailingProc with
        queue := { queue := [.change exEvt, .change ⟨1, "ns2/b"⟩],
                   dirty := [.change exEvt, .change ⟨1, "ns2/b"⟩] } }
    (.change exEvt) [.change ⟨1, "ns2/b"⟩] rfl
  exact ⟨c', hp, hq⟩

/-- Claim C7. When `process` dequeues an item that is not a `ResourceChange` it
logs the invalid object, forgets it and marks it done, and returns true: no
handler is invoked, `AddRateLimited` is not called, and whatever the retry
count of the item was it is neither pending, nor dirty, nor added to the
delayed additions afterwards, and its retry count is 0. -/
theorem process_drops_malformed_item (c : EventProcessor) (tag : Nat) (rest : List Item)
    (h : c.queue.queue = .other tag :: rest) :
    ∃ c', c.process = some (true, c') ∧
      c'.events = c.events ++
        [.logInvalid c.errorKey (.other tag), .forget (.other tag), .done (.other tag)] ∧
      c'.queue.queue = rest ∧ c'.queue.waiting = c.queue.waiting ∧
      .other tag ∉ c'.queue.dirty ∧ c'.queue.NumRequeues (.other tag) = 0 := by
  refine ⟨_, process_other c tag rest h, rfl, ?_, ?_, ?_, ?_⟩ <;>
    simp [WorkQueue.Done, WorkQueue.Forget, WorkQueue.handOut, WorkQueue.NumRequeues]

/-- The statement of C7 at `exMalformedProc`, whose malformed item had a retry count of 2. -/
theorem process_drops_malformed_item_witness :
    exMalformedProc.queue.queue = [.other 1, .change exEvt] ∧
      exMalformedProc.queue.NumRequeues (.other 1) = 2 ∧
      ∃ c', exMalformedProc.process = some (true, c') ∧
        c'.events = [.logInvalid "Error" (.other 1), .forget (.other 1), .done (.other 1)] ∧
        c'.queue.queue = [.change exEvt] ∧ c'.queue.NumRequeues (.other 1) = 0 := by
  obtain ⟨c', hp, he, hq, _, _, hn⟩ :=
    process_drops_malformed_item exMalformedProc 1 [.change exEvt] rfl
  exact ⟨rfl, rfl, c', hp, he, hq, hn⟩

end EventProcessor
end Watchers

namespace Watchers
namespace WorkQueue

theorem WF_empty : ({} : WorkQueue).WF := by
  simp [WF]

theorem Add_pending (q : WorkQueue) (item : Item) (hwf : q.WF)
    (hs : q.shuttingDown = false) (hp : item ∉ q.processing) :
    (q.Add item).WF ∧ (q.Add item).shuttingDown = false ∧
      (q.Add item).processing = q.processing ∧ (q.Add item).queue.count item = 1 := by
  obtain ⟨hnd, hiff⟩ := hwf
  by_cases hd : item ∈ q.dirty
  · have hq : q.Add item = q := by simp [Add, hs, hd]
    rw [hq]
    exact ⟨⟨hnd, hiff⟩, hs, rfl, List.count_eq_one_of_mem hnd ((hiff item).mpr ⟨hd, hp⟩)⟩
  · have hnq : item ∉ q.queue := fun h => hd ((hiff item).mp h).1
    have hq : q.Add item =
        { q with dirty := q.dirty ++ [item], queue := q.queue ++ [item] } := by
      simp [Add, hs, hd, hp]
    rw [hq]
    refine ⟨⟨?_, ?_⟩, hs, rfl, ?_⟩
    · exact List.Nodup.append hnd (List.nodup_singleton item) (by simpa using hnq)
    · intro x
      simp only [List.mem_append, List.mem_singleton]
      constructor
      · rintro (h | h)
        · exact ⟨Or.inl ((hiff x).mp h).1, ((hiff x).mp h).2⟩
        · exact ⟨Or.inr h, h ▸ hp⟩
      · rintro ⟨h | h, hxp⟩
        · exact Or.inl ((hiff x).mpr ⟨h, hxp⟩)
        · exact Or.inr h
    · simp [List.count_append, List.count_eq_zero_of_not_mem hnq]

end WorkQueue

namespace EventProcessor

theorem deliver_eq_Add (handler : HandlerRef) (key : String) (n : Notification)
    (c : EventProcessor) (hk : MetaNamespaceKeyFunc n.subject = .ok key) :
    (newEventHandler handler).deliver n c =
      { c with queue := c.queue.Add (.change { Handler := handler, Key := key }) } := by
  cases n <;>
    simp only [Notification.subject] at hk <;>
    simp [ResourceEventHandlerFuncs.deliver, newEventHandler, hk]

theorem deliverAll_pending (handler : HandlerRef) (key : String) (ns : List Notification) :
    ∀ c : EventProcessor, (∀ n ∈ ns, MetaNamespaceKeyFunc n.subject = .ok key) →
      c.queue.WF → c.queue.shuttingDown = false →
      Item.change { Handler := handler, Key := key } ∉ c.queue.processing →
      (ns ≠ [] ∨ c.queue.queue.count (.change { Handler := handler, Key := key }) = 1) →
      ((newEventHandler handler).deliverAll ns c).queue.queue.count
        (.change { Handler := handler, Key := key }) = 1 := by
  induction ns with
  | nil =>
    intro c _ _ _ _ h
    rcases h with h | h
    · exact absurd rfl h
    · exact h
  | cons n ns ih =>
    intro c hk hwf hs hp _
    have hadd := WorkQueue.Add_pending c.queue (.change { Handler := handler, Key := key })
      hwf hs hp
    unfold ResourceEventHandlerFuncs.deliverAll
    rw [deliver_eq_Add handler key n c (hk n (List.mem_cons_self _ _))]
    exact ih _ (fun m hm => hk m (List.mem_cons_of_mem _ hm)) hadd.1 hadd.2.1
      (by rw [hadd.2.2.1]; exact hp) (Or.inr hadd.2.2.2)

/-- Claim C8. Coalescing: for every sequence of add, update and delete
notifications delivered to the handlers built by `newEventHandler` for one
watcher and one key, with no dispatch in between (the queue is running, in
the state it keeps between its operations, and the event is not being
processed), the queue holds exactly one pending `ResourceChange` for that
handler and key after each notification of the sequence. -/
theorem notifications_coalesce (handler : HandlerRef) (key : String)
    (ns : List Notification) (c : EventProcessor)
    (hk : ∀ n ∈ ns, MetaNamespaceKeyFunc n.subject = .ok key)
    (hwf : c.queue.WF) (hs : c.queue.shuttingDown = false)
    (hp : Item.change { Handler := handler, Key := key } ∉ c.queue.processing) :
    ∀ m, 0 < m → m ≤ ns.length →
      ((newEventHandler handler).deliverAll (ns.take m) c).queue.queue.count
        (.change { Handler := handler, Key := key }) = 1 := by
  intro m hm hle
  refine deliverAll_pending handler key (ns.take m) c
    (fun n hn => hk n (List.mem_of_mem_take hn)) hwf hs hp (Or.inl ?_)
  intro h
  have hlen : (ns.take m).length = 0 := by rw [h]; rfl
  rw [List.length_take] at hlen
  omega

/-- The statement of C8 at an add, an update and a delete of the object
`ns1/a` delivered to a processor with nothing pending: one pending event
after the first, after the second and after the third notification. -/
theorem notifications_coalesce_witness :
    ((newEventHandler 0).deliverAll
        ([.add (.object exObj), .update (.noMeta 0) (.object exObj),
          .delete (.object exObj)].take 1) exEmptyProc).queue.queue.count
        (.change { Handler := 0, Key := "ns1/a" }) = 1 ∧
    ((newEventHandler 0).deliverAll
        ([.add (.object exObj), .update (.noMeta 0) (.object exObj),
          .delete (.object exObj)].take 2) exEmptyProc).queue.queue.count
        (.change { Handler := 0, Key := "ns1/a" }) = 1 ∧
    ((newEventHandler 0).deliverAll
        ([.add (.object exObj), .update (.noMeta 0) (.object exObj),
          .delete (.object exObj)].take 3) exEmptyProc).queue.queue.count
        (.change { Handler := 0, Key := "ns1/a" }) = 1 := by
  have h := notifications_coalesce 0 "ns1/a"
    [.add (.object exObj), .update (.noMeta 0) (.object exObj), .delete (.object exObj)]
    exEmptyProc (by intro n hn; simp at hn; rcases hn with rfl | rfl | rfl <;> rfl)
    WorkQueue.WF_empty rfl (by simp [exEmptyProc])
  exact ⟨h 1 (by decide) (by decide), h 2 (by decide) (by decide),
    h 3 (by decide) (by decide)⟩

end EventProcessor
end Watchers

namespace Watchers
namespace EventProcessor

/-- Claim C9. For every notified object whose key can be computed, each of the
add, update and delete callbacks built by `newEventHandler handler` adds
exactly `ResourceChange{Handler: handler, Key: key}` to the queue of the
processor and changes nothing else, where `key` is the key of the notified
object: `namespace/name` (the name alone without a namespace), and for an
update the key of the new object whatever the old one is. On a running queue
where that event is neither pending nor being processed, the event becomes
the last pending item. -/
theorem newEventHandler_enqueues_key (handler : HandlerRef) (obj : Notified) (key : String)
    (c : EventProcessor) (hk : MetaNamespaceKeyFunc obj = .ok key) :
    (newEventHandler handler).AddFunc obj c =
        { c with queue := c.queue.Add (.change { Handler := handler, Key := key }) } ∧
    (∀ old, (newEventHandler handler).UpdateFunc old obj c =
        { c with queue := c.queue.Add (.change { Handler := handler, Key := key }) }) ∧
    (newEventHandler handler).DeleteFunc obj c =
        { c with queue := c.queue.Add (.change { Handler := handler, Key := key }) } ∧
    (∀ o, obj = .object o → key = if o.ns.length > 0 then o.ns ++ "/" ++ o.name else o.name) ∧
    (c.queue.shuttingDown = false →
      Item.change { Handler := handler, Key := key } ∉ c.queue.dirty →
      Item.change { Handler := handler, Key := key } ∉ c.queue.processing →
      (c.queue.Add (.change { Handler := handler, Key := key })).queue =
        c.queue.queue ++ [.change { Handler := handler, Key := key }]) := by
  refine ⟨?_, ?_, ?_, ?_, ?_⟩
  · simp [newEventHandler, hk]
  · intro old; simp [newEventHandler, hk]
  · simp [newEventHandler, hk]
  · intro o ho
    subst ho
    simp only [MetaNamespaceKeyFunc] at hk
    split at hk
    · next h => rw [if_pos h]; exact (Except.ok.inj hk).symm
    · next h => rw [if_neg h]; exact (Except.ok.inj hk).symm
  · intro hs hd hp
    simp [WorkQueue.Add, hs, hd, hp]

/-- The statement of C9 at the object `a` of namespace `ns1`, notified to the
callbacks of watcher 4 on a processor with nothing pending: the event with
key `ns1/a` is the pending item afterwards, also for an update whose old
object has no key. -/
theorem newEventHandler_enqueues_key_witness :
    MetaNamespaceKeyFunc (.object exObj) = .ok "ns1/a" ∧
      ((newEventHandler 4).AddFunc (.object exObj) exEmptyProc).queue.queue =
        [.change { Handler := 4, Key := "ns1/a" }] ∧
      ((newEventHandler 4).UpdateFunc (.noMeta 0) (.object exObj) exEmptyProc).queue.queue =
        [.change { Handler := 4, Key := "ns1/a" }] ∧
      ((newEventHandler 4).DeleteFunc (.object exObj) exEmptyProc).queue.queue =
        [.change { Handler := 4, Key := "ns1/a" }] := by
  have h := newEventHandler_enqueues_key 4 (.object exObj) "ns1/a" exEmptyProc rfl
  refine ⟨rfl, ?_, ?_, ?_⟩
  · rw [h.1]; rfl
  · rw [h.2.1 (.noMeta 0)]; rfl
  · rw [h.2.2.1]; rfl

/-- Claim C10. For every watcher type and every event, when the lookup in the
mirror does not fail, `Handle(event)` calls the domain handler exactly once,
with `event.Key` and the object the mirror holds for that key at the time of
the call (`nil` when it holds none), and returns exactly what the handler
returns; a missing object is handed to the handler and is not made an error. -/
theorem watcher_handle_passes_current_object (c : EventProcessor) (evt : ResourceChange)
    (kind : WatcherKind) (handler : DomainHandler)
    (hh : c.handlers evt.Handler = .watcher kind handler) :
    (∀ obj, (c.stores evt.Handler).GetByKey evt.Key = .present obj →
      c.Handle evt =
        (handler (c.events ++ [.handle evt]) evt.Key (some obj),
         { c with events := c.events ++
            [.handle evt, .domainCall evt.Handler evt.Key (some obj)] })) ∧
    ((c.stores evt.Handler).GetByKey evt.Key = .absent →
      c.Handle evt =
        (handler (c.events ++ [.handle evt]) evt.Key none,
         { c with events := c.events ++
            [.handle evt, .domainCall evt.Handler evt.Key none] })) := by
  constructor
  · intro obj hl
    simp [Handle, Get, record, hh, hl]
  · intro hl
    simp [Handle, Get, record, hh, hl]

/-- The statement of C10 at `exSucceedingProc`, a Secret watcher whose mirror
holds `exObj` under `ns1/a` and nothing under `ns1/b`. -/
theorem watcher_handle_passes_current_object_witness :
    (exSucceedingProc.Handle exEvt).2.events =
        [.handle exEvt, .domainCall 0 "ns1/a" (some exObj)] ∧
      (exSucceedingProc.Handle exEvt).1 = exSucceeding [.handle exEvt] "ns1/a" (some exObj) ∧
      (exSucceedingProc.Handle { Handler := 0, Key := "ns1/b" }).2.events =
        [.handle { Handler := 0, Key := "ns1/b" }, .domainCall 0 "ns1/b" none] := by
  have h1 := (watcher_handle_passes_current_object exSucceedingProc exEvt .Secret
    exSucceeding rfl).1 exObj rfl
  have h2 := (watcher_handle_passes_current_object exSucceedingProc
    { Handler := 0, Key := "ns1/b" } .Secret exSucceeding rfl).2 rfl
  refine ⟨?_, ?_, ?_⟩
  · rw [h1]; rfl
  · rw [h1]; rfl
  · rw [h2]; rfl

end EventProcessor
end Watchers

namespace Watchers
namespace WorkQueue

theorem AddRateLimited_processing (q : WorkQueue) (obj : Item) :
    (q.AddRateLimited obj).processing = q.processing := by
  rw [AddRateLimited_eq]; split <;> rfl

theorem WF_of_fields (q q' : WorkQueue) (obj : Item) (rest : List Item) (hwf : q.WF)
    (h : q.queue = obj :: rest) (hq : q'.queue = rest)
    (hd : q'.dirty = q.dirty.filter (fun x => x ≠ obj))
    (hp : q'.processing = (q.processing ++ [obj]).filter (fun x => x ≠ obj)) : q'.WF := by
  obtain ⟨hnd, hiff⟩ := hwf
  rw [h] at hnd
  have hnotin : obj ∉ rest := (List.nodup_cons.mp hnd).1
  refine ⟨by rw [hq]; exact (List.nodup_cons.mp hnd).2, ?_⟩
  intro x
  rw [hq, hd, hp]
  by_cases hx : x = obj
  · subst hx
    simp [hnotin]
  · have := hiff x
    rw [h] at this
    simp only [List.mem_cons, hx, false_or] at this
    simp [hx, this]

end WorkQueue

namespace EventProcessor

theorem process_queue_cases (c : EventProcessor) (obj : Item) (rest : List Item)
    (h : c.queue.queue = obj :: rest) :
    ∃ c', c.process = some (true, c') ∧
      (c'.queue = ((c.queue.handOut obj rest).Forget obj).Done obj ∨
       c'.queue = ((c.queue.handOut obj rest).AddRateLimited obj).Done obj) := by
  cases obj with
  | other tag => exact ⟨_, process_other c tag rest h, Or.inl rfl⟩
  | change evt =>
    cases herr : (c.Handle evt).1 with
    | none => exact ⟨_, process_ok c evt rest h herr, Or.inl rfl⟩
    | some err =>
      by_cases hn : c.queue.failures (.change evt) < 5
      · exact ⟨_, process_retry c evt rest err h herr hn, Or.inr rfl⟩
      · exact ⟨_, process_drop c evt rest err h herr hn, Or.inl rfl⟩

/-- A call of `process` keeps the queue in the state `WorkQueue.WF` describes,
and the item it has handed out is not left in `processing`. -/
theorem process_preserves_WF (c c' : EventProcessor) (b : Bool) (hwf : c.queue.WF)
    (hp : c.process = some (b, c')) :
    c'.queue.WF ∧ ∀ obj rest, c.queue.queue = obj :: rest → obj ∉ c'.queue.processing := by
  cases hq : c.queue.queue with
  | nil =>
    have : c' = c := by
      unfold process WorkQueue.Get at hp
      rw [hq] at hp
      cases hs : c.queue.shuttingDown <;> simp [hs] at hp
      exact hp.2.symm
    subst this
    exact ⟨hwf, fun _ _ h => by simp at h⟩
  | cons obj rest =>
    obtain ⟨d, hd, hcases⟩ := process_queue_cases c obj rest hq
    rw [hd] at hp
    have hdc : d = c' := (Prod.mk.inj (Option.some.inj hp)).2
    subst hdc
    have hnd := WorkQueue.not_mem_dirty_handOut c.queue obj rest
    have key : d.queue.queue = rest ∧
        d.queue.dirty = c.queue.dirty.filter (fun x => x ≠ obj) ∧
        d.queue.processing = (c.queue.processing ++ [obj]).filter (fun x => x ≠ obj) := by
      rcases hcases with hc | hc
      · rw [hc]
        simp [WorkQueue.Done, WorkQueue.Forget, WorkQueue.handOut]
      · have hnd' : obj ∉ ((c.queue.handOut obj rest).AddRateLimited obj).dirty := by
          rw [WorkQueue.AddRateLimited_dirty]; exact hnd
        rw [hc, WorkQueue.Done_of_not_dirty _ _ hnd']
        refine ⟨?_, ?_, ?_⟩
        · show WorkQueue.queue (WorkQueue.AddRateLimited _ _) = rest
          rw [WorkQueue.AddRateLimited_queue]; rfl
        · show WorkQueue.dirty (WorkQueue.AddRateLimited _ _) = _
          rw [WorkQueue.AddRateLimited_dirty]; rfl
        · show List.filter _ (WorkQueue.processing (WorkQueue.AddRateLimited _ _)) = _
          rw [WorkQueue.AddRateLimited_processing]; rfl
    refine ⟨WorkQueue.WF_of_fields c.queue d.queue obj rest hwf hq key.1 key.2.1 key.2.2, ?_⟩
    intro o r hor
    have : o = obj := (List.cons.inj hor).1.symm
    subst this
    rw [key.2.2]
    simp

end EventProcessor
end Watchers

namespace Watchers
namespace EventProcessor

/-- Claim C11. For every watcher and every key the mirror does not hold, `Get`
returns a nil object together with a nil error; this is the case for the
empty mirror of a watcher that has just been built and for a key that has
been removed from the mirror. When the mirror holds the key, `Get` returns
the object it holds with a nil error. -/
theorem watcher_get_absent_or_present (c : EventProcessor) (w : HandlerRef) (key : String) :
    ((c.stores w).GetByKey key = .absent → c.Get w key = (none, none)) ∧
    (∀ obj, (c.stores w).GetByKey key = .present obj → c.Get w key = (some obj, none)) ∧
    (∀ kind handler, ((c.newWatcher kind handler).2).Get (c.newWatcher kind handler).1 key
        = (none, none)) ∧
    (∀ s : Store, ({ c with stores := fun r => if r = w then s.remove key else c.stores r } :
        EventProcessor).Get w key = (none, none)) ∧
    (∀ (s : Store) (obj : Obj),
      ({ c with stores := fun r => if r = w then s.put obj else c.stores r } :
        EventProcessor).Get w obj.key = (some obj, none)) := by
  refine ⟨?_, ?_, ?_, ?_, ?_⟩
  · intro h; simp [Get, h]
  · intro obj h; simp [Get, h]
  · intro kind handler; simp [Get, newWatcher]
  · intro s; simp [Get, Store.remove]
  · intro s obj; simp [Get, Store.put]

/-- The statement of C11 at `exSucceedingProc`, whose mirror holds `exObj`
under `ns1/a` and nothing under `ns1/b`. -/
theorem watcher_get_absent_or_present_witness :
    exSucceedingProc.Get 0 "ns1/b" = (none, none) ∧
      exSucceedingProc.Get 0 "ns1/a" = (some exObj, none) :=
  ⟨(watcher_get_absent_or_present exSucceedingProc 0 "ns1/b").1 rfl,
   (watcher_get_absent_or_present exSucceedingProc 0 "ns1/a").2.1 exObj rfl⟩

/-- Claim C12. For every watcher, when the mirror's `GetByKey` fails with error
`e`, `Get` returns `(nil, e)`: the failure is handed on unchanged, and the
result differs from the one for a key the mirror does not hold, whose error
is nil. -/
theorem watcher_get_propagates_lookup_error (c : EventProcessor) (w : HandlerRef)
    (key : String) (e : Error) (h : (c.stores w).GetByKey key = .failed e) :
    c.Get w key = (none, some e) ∧ (c.Get w key).2 ≠ none ∧
      ∀ (d : EventProcessor) (v : HandlerRef) (k : String),
        (d.stores v).GetByKey k = .absent → (d.Get v k).2 = none ∧ d.Get v k ≠ c.Get w key := by
  have hg : c.Get w key = (none, some e) := by simp [Get, h]
  refine ⟨hg, by rw [hg]; simp, ?_⟩
  intro d v k hk
  have hd : d.Get v k = (none, none) := by simp [Get, hk]
  rw [hd, hg]
  simp

/-- The statement of C12 at a processor whose mirrors fail every lookup with the
error `unavailable`. -/
theorem watcher_get_propagates_lookup_error_witness :
    ({ exEmptyProc with stores := fun _ => { GetByKey := fun _ => .failed "unavailable" } } :
        EventProcessor).Get 3 "ns1/a" = (none, some "unavailable") :=
  (watcher_get_propagates_lookup_error
    { exEmptyProc with stores := fun _ => { GetByKey := fun _ => .failed "unavailable" } }
    3 "ns1/a" "unavailable" rfl).1

end EventProcessor

theorem Slice.foldl_append {α : Type} (l acc : List α) :
    l.foldl (fun (results : Slice α) o => results.append o) (some acc) = some (acc ++ l) := by
  induction l generalizing acc with
  | nil => simp
  | cons x xs ih =>
    rw [List.foldl_cons]
    show List.foldl _ (some (acc ++ [x])) xs = _
    rw [ih]
    simp

namespace EventProcessor

/-- Claim C19. For every watcher, `List()` returns exactly the objects the
mirror currently holds: the same elements in the mirror's order, hence the
same number of them, in a slice that is never nil, so that it is an empty
non-nil list when the mirror is empty. -/
theorem watcher_list_is_mirror_list (c : EventProcessor) (w : HandlerRef) :
    Watcher.List c w = some (c.stores w).List ∧
      (Watcher.List c w).toList = (c.stores w).List ∧
      (Watcher.List c w).toList.length = (c.stores w).List.length ∧
      Watcher.List c w ≠ none ∧
      ((c.stores w).List = [] → Watcher.List c w = some []) := by
  have h : Watcher.List c w = some (c.stores w).List := by
    unfold Watcher.List
    rw [Slice.foldl_append]
    simp
  refine ⟨h, ?_, ?_, ?_, ?_⟩
  · rw [h]; rfl
  · rw [h]; rfl
  · rw [h]; simp
  · intro he; rw [h, he]

end EventProcessor
end Watchers

namespace Watchers

theorem Slice.toList_foldl_append {α β : Type} (f : β → α) (l : List β) (init : Slice α) :
    (l.foldl (fun (combined : Slice α) b => combined.append (f b)) init).toList =
      init.toList ++ l.map f := by
  induction l generalizing init with
  | nil => simp
  | cons x xs ih =>
    rw [List.foldl_cons, ih]
    cases init <;> simp [Slice.append, Slice.toList]

namespace EventProcessor

theorem haveWatchersSynced_toList (c : EventProcessor) :
    c.haveWatchersSynced.toList = c.watchers.map Watcher.HasSynced := by
  unfold haveWatchersSynced
  rw [Slice.toList_foldl_append]
  rfl

theorem foldl_record_start (ws : List HandlerRef) (c : EventProcessor) :
    ws.foldl (fun c watcher => c.record (.start watcher)) c =
      { c with events := c.events ++ ws.map Event.start } := by
  induction ws generalizing c with
  | nil => simp
  | cons w ws ih =>
    rw [List.foldl_cons, ih]
    simp [record]

theorem StartWatchers_events (c : EventProcessor) :
    c.StartWatchers.events = c.events ++ c.watchers.map Event.start := by
  unfold StartWatchers
  rw [foldl_record_start]

theorem watch_spec (c : EventProcessor) (kind : WatcherKind) (handler : DomainHandler) :
    (c.watch kind handler).1 = some c.nextRef ∧
      (c.watch kind handler).2.watchers = c.watchers ++ [c.nextRef] ∧
      (c.watch kind handler).2.handlers c.nextRef = .watcher kind handler ∧
      (c.watch kind handler).2.eventHandlers c.nextRef = [c.nextRef] ∧
      (c.watch kind handler).2.queue = c.queue ∧
      (c.watch kind handler).2.events = c.events := by
  simp [watch, newWatcher, AddEventHandler, addWatcher]

theorem WatchDynamic_spec (c : EventProcessor) (resource : GroupVersionResource)
    (handler : DomainHandler) :
    (WatchDynamic resource handler c).1 = some c.nextRef ∧
      (WatchDynamic resource handler c).2.watchers = c.watchers ++ [c.nextRef] ∧
      (WatchDynamic resource handler c).2.handlers c.nextRef = .watcher .Dynamic handler ∧
      (WatchDynamic resource handler c).2.eventHandlers c.nextRef = [c.nextRef] ∧
      (WatchDynamic resource handler c).2.queue = c.queue ∧
      (WatchDynamic resource handler c).2.events = c.events := by
  simp [WatchDynamic, newWatcher, AddEventHandler, addWatcher]

/-- Claim C14. When the availability probe reports an optional kind as not
available, `WatchGateways`, and likewise `WatchContourHttpProxies` and
`WatchTlsRoutes`, logs a line and returns a nil watcher; `WatchRoutes` returns
a nil watcher when the route client is nil. In each case the list of
registered watchers, the handler values, the informers' event handlers and
the next unused reference are those of before: the kind is not registered. -/
theorem optional_kind_not_registered (handler : DomainHandler) (c : EventProcessor) :
    (c.HasGateway = false →
      WatchGateways handler c =
        (none, c.record (.logPrintln "Cannot watch Gateways; resource not installed"))) ∧
    (c.HasContourHttpProxy = false →
      WatchContourHttpProxies handler c =
        (none, c.record (.logPrintln "Cannot watch HttpProxies; resource not installed"))) ∧
    (c.HasTlsRoute = false →
      WatchTlsRoutes handler c =
        (none, c.record (.logPrintln "Cannot watch TLSRoutes; resource not installed"))) ∧
    (c.routeClient = none → WatchRoutes handler c = (none, c)) ∧
    (∀ msg, (c.record (.logPrintln msg)).watchers = c.watchers ∧
      (c.record (.logPrintln msg)).handlers = c.handlers ∧
      (c.record (.logPrintln msg)).eventHandlers = c.eventHandlers ∧
      (c.record (.logPrintln msg)).nextRef = c.nextRef ∧
      (c.record (.logPrintln msg)).queue = c.queue) := by
  refine ⟨?_, ?_, ?_, ?_, ?_⟩
  · intro h; simp [WatchGateways, h]
  · intro h; simp [WatchContourHttpProxies, h]
  · intro h; simp [WatchTlsRoutes, h]
  · intro h; simp [WatchRoutes, h]
  · intro msg; simp [record]

/-- The statement of C14 at `exEmptyProc` with one watcher registered: no
optional kind is available there and the route client is nil, and the list of
watchers is the same after each of the four calls. -/
theorem optional_kind_not_registered_witness :
    (WatchGateways exSucceeding (exEmptyProc.watch .Site exSucceeding).2).1 = none ∧
      (WatchGateways exSucceeding (exEmptyProc.watch .Site exSucceeding).2).2.watchers = [0] ∧
      (WatchContourHttpProxies exSucceeding (exEmptyProc.watch .Site exSucceeding).2).2.watchers
        = [0] ∧
      (WatchTlsRoutes exSucceeding (exEmptyProc.watch .Site exSucceeding).2).2.watchers = [0] ∧
      WatchRoutes exSucceeding (exEmptyProc.watch .Site exSucceeding).2 =
        (none, (exEmptyProc.watch .Site exSucceeding).2) := by
  have h := optional_kind_not_registered exSucceeding (exEmptyProc.watch .Site exSucceeding).2
  refine ⟨?_, ?_, ?_, ?_, h.2.2.2.1 rfl⟩
  · rw [h.1 rfl]
  · rw [h.1 rfl]; rfl
  · rw [h.2.1 rfl]; rfl
  · rw [h.2.2.1 rfl]; rfl

theorem constructors_cases (resource : GroupVersionResource)
    (f : DomainHandler → EventProcessor → Option HandlerRef × EventProcessor)
    (hf : f ∈ constructors resource) (handler : DomainHandler) (c : EventProcessor) :
    (∃ kind, f handler c = c.watch kind handler) ∨
      (∃ r, f handler c = WatchDynamic r handler c) ∨
      (f handler c).1 = none := by
  simp only [constructors, List.mem_cons, List.mem_singleton, List.not_mem_nil, or_false] at hf
  rcases hf with h | h | h | h | h | h | h | h | h | h | h | h | h | h | h | h | h | h | h | h |
    h | h | h | h | h <;> subst h
  all_goals first
    | exact Or.inl ⟨_, rfl⟩
    | exact Or.inr (Or.inl ⟨_, rfl⟩)
    | skip
  · unfold WatchContourHttpProxies
    split
    · exact Or.inr (Or.inr rfl)
    · exact Or.inr (Or.inl ⟨_, rfl⟩)
  · unfold WatchGateways
    split
    · exact Or.inr (Or.inr rfl)
    · exact Or.inr (Or.inl ⟨_, rfl⟩)
  · unfold WatchTlsRoutes
    split
    · exact Or.inr (Or.inr rfl)
    · exact Or.inr (Or.inl ⟨_, rfl⟩)
  · unfold WatchRoutes
    split
    · exact Or.inr (Or.inr rfl)
    · exact Or.inl ⟨_, rfl⟩

theorem watch_frame (c : EventProcessor) (kind : WatcherKind) (handler : DomainHandler)
    (r : HandlerRef) (hr : r ≠ c.nextRef) :
    (c.watch kind handler).2.handlers r = c.handlers r ∧
      (c.watch kind handler).2.eventHandlers r = c.eventHandlers r ∧
      (c.watch kind handler).2.stores r = c.stores r := by
  simp [watch, newWatcher, AddEventHandler, addWatcher, hr]

theorem WatchDynamic_frame (c : EventProcessor) (resource : GroupVersionResource)
    (handler : DomainHandler) (r : HandlerRef) (hr : r ≠ c.nextRef) :
    (WatchDynamic resource handler c).2.handlers r = c.handlers r ∧
      (WatchDynamic resource handler c).2.eventHandlers r = c.eventHandlers r ∧
      (WatchDynamic resource handler c).2.stores r = c.stores r := by
  simp [WatchDynamic, newWatcher, AddEventHandler, addWatcher, hr]

/-- Claim C15. Every watcher constructor of the package that is not turned
off returns a watcher: the twenty-one constructors without a test always do,
`WatchContourHttpProxies`, `WatchGateways` and `WatchTlsRoutes` do when their
kind is available and `WatchRoutes` does when the route client is not nil;
the watcher returned is a new one. Whenever one of the twenty-five
constructors returns a watcher, it has appended exactly that watcher at the
end of the processor's list of watchers and left the watchers registered
before in place and in order; the watcher carries the given domain handler,
its informer has the watcher's event handler as its only one, the other
handler values, informers and mirrors and the queue are untouched.
`StartWatchers` then starts the new watcher after the others, and the sync
functions `WaitForCacheSync` waits on are those of before followed by the
`HasSynced` of the new watcher. -/
theorem constructor_appends_watcher (resource : GroupVersionResource)
    (handler : DomainHandler) (c : EventProcessor) :
    (∀ f ∈ [WatchConfigMaps, WatchSecrets, WatchAllSecrets, WatchServices, WatchPods,
        WatchDynamic resource, WatchNamespaces, WatchNodes, WatchSites, WatchListeners,
        WatchConnectors, WatchLinks, WatchAccessTokens, WatchAccessGrants,
        WatchSecuredAccesses, WatchSecuredAccessesWithOptions, WatchIngresses,
        WatchCertificates, WatchRouterAccesses, WatchAttachedConnectorBindings,
        WatchAttachedConnectors], (f handler c).1 = some c.nextRef) ∧
    (c.HasContourHttpProxy = true →
      (WatchContourHttpProxies handler c).1 = some c.nextRef) ∧
    (c.HasGateway = true → (WatchGateways handler c).1 = some c.nextRef) ∧
    (c.HasTlsRoute = true → (WatchTlsRoutes handler c).1 = some c.nextRef) ∧
    (c.routeClient ≠ none → (WatchRoutes handler c).1 = some c.nextRef) ∧
    (∀ f ∈ constructors resource, ∀ w, (f handler c).1 = some w →
      w = c.nextRef ∧
      (f handler c).2.watchers = c.watchers ++ [w] ∧
      (∃ kind, (f handler c).2.handlers w = .watcher kind handler) ∧
      (f handler c).2.eventHandlers w = [w] ∧
      (∀ r, r ≠ w → (f handler c).2.handlers r = c.handlers r ∧
        (f handler c).2.eventHandlers r = c.eventHandlers r ∧
        (f handler c).2.stores r = c.stores r) ∧
      (f handler c).2.queue = c.queue ∧
      (f handler c).2.StartWatchers.events =
        c.events ++ c.watchers.map Event.start ++ [.start w] ∧
      (f handler c).2.haveWatchersSynced.toList =
        c.haveWatchersSynced.toList ++ [Watcher.HasSynced w]) := by
  refine ⟨?_, ?_, ?_, ?_, ?_, ?_⟩
  · intro f hf
    simp only [List.mem_cons, List.mem_singleton, List.not_mem_nil, or_false] at hf
    rcases hf with h | h | h | h | h | h | h | h | h | h | h | h | h | h | h | h | h | h | h |
      h | h <;> subst h
    all_goals first
      | exact (watch_spec c _ handler).1
      | exact (WatchDynamic_spec c _ handler).1
  · intro h
    unfold WatchContourHttpProxies
    rw [h]
    exact (WatchDynamic_spec c _ handler).1
  · intro h
    unfold WatchGateways
    rw [h]
    exact (WatchDynamic_spec c _ handler).1
  · intro h
    unfold WatchTlsRoutes
    rw [h]
    exact (WatchDynamic_spec c _ handler).1
  · intro h
    unfold WatchRoutes
    rw [if_neg h]
    exact (watch_spec c _ handler).1
  · intro f hf w hw
    have key : w = c.nextRef ∧ (f handler c).2.watchers = c.watchers ++ [w] ∧
        (∃ kind, (f handler c).2.handlers w = .watcher kind handler) ∧
        (f handler c).2.eventHandlers w = [w] ∧
        (∀ r, r ≠ w → (f handler c).2.handlers r = c.handlers r ∧
          (f handler c).2.eventHandlers r = c.eventHandlers r ∧
          (f handler c).2.stores r = c.stores r) ∧
        (f handler c).2.queue = c.queue ∧
        (f handler c).2.events = c.events := by
      rcases constructors_cases resource f hf handler c with ⟨kind, h⟩ | ⟨r, h⟩ | h
      · rw [h] at hw ⊢
        obtain ⟨h1, h2, h3, h4, h5, h6⟩ := watch_spec c kind handler
        have : w = c.nextRef := by rw [h1] at hw; exact (Option.some.inj hw).symm
        subst this
        exact ⟨rfl, h2, ⟨kind, h3⟩, h4, fun r hr => watch_frame c kind handler r hr, h5, h6⟩
      · rw [h] at hw ⊢
        obtain ⟨h1, h2, h3, h4, h5, h6⟩ := WatchDynamic_spec c r handler
        have : w = c.nextRef := by rw [h1] at hw; exact (Option.some.inj hw).symm
        subst this
        exact ⟨rfl, h2, ⟨_, h3⟩, h4, fun x hx => WatchDynamic_frame c r handler x hx, h5, h6⟩
      · rw [h] at hw; exact absurd hw (by simp)
    obtain ⟨h0, h1, h2, h3, h4, h5, h6⟩ := key
    refine ⟨h0, h1, h2, h3, h4, h5, ?_, ?_⟩
    · rw [StartWatchers_events, h1, h6]; simp
    · rw [haveWatchersSynced_toList, haveWatchersSynced_toList, h1]; simp

/-- The statement of C15 at `WatchSites` and `WatchDynamic` called on a
processor where a ConfigMap watcher is registered, and at `WatchGateways` and
`WatchRoutes` called on `exAvailableProc`: each returns the new watcher 1,
which comes after watcher 0 in the list of watchers. -/
theorem constructor_appends_watcher_witness :
    (WatchSites exSucceeding (WatchConfigMaps exFailing exEmptyProc).2).1 = some 1 ∧
      (WatchSites exSucceeding (WatchConfigMaps exFailing exEmptyProc).2).2.watchers = [0, 1] ∧
      (WatchSites exSucceeding (WatchConfigMaps exFailing exEmptyProc).2).2.StartWatchers.events
        = [.start 0, .start 1] ∧
      (WatchDynamic (.other "" "v1" "widgets") exSucceeding
        (WatchConfigMaps exFailing exEmptyProc).2).1 = some 1 ∧
      (WatchDynamic (.other "" "v1" "widgets") exSucceeding
        (WatchConfigMaps exFailing exEmptyProc).2).2.watchers = [0, 1] ∧
      (WatchGateways exSucceeding exAvailableProc).1 = some 1 ∧
      (WatchGateways exSucceeding exAvailableProc).2.watchers = [0, 1] ∧
      (WatchGateways exSucceeding exAvailableProc).2.eventHandlers 1 = [1] ∧
      (WatchRoutes exSucceeding exAvailableProc).1 = some 1 ∧
      (WatchRoutes exSucceeding exAvailableProc).2.watchers = [0, 1] := by
  have h := constructor_appends_watcher (.other "" "v1" "widgets") exSucceeding
    (WatchConfigMaps exFailing exEmptyProc).2
  have g := constructor_appends_watcher (.other "" "v1" "widgets") exSucceeding exAvailableProc
  have hs := h.1 WatchSites (by simp)
  have hd := h.1 (WatchDynamic (.other "" "v1" "widgets")) (by simp)
  have hg := g.2.2.1 rfl
  have hr := g.2.2.2.2.1 (by show (some 1 : Option Nat) ≠ none; simp)
  refine ⟨hs, ?_, ?_, hd, ?_, hg, ?_, ?_, hr, ?_⟩
  · exact (h.2.2.2.2.2 WatchSites (by simp [constructors]) 1 hs).2.1
  · exact (h.2.2.2.2.2 WatchSites (by simp [constructors]) 1 hs).2.2.2.2.2.2.1
  · exact (h.2.2.2.2.2 _ (by simp [constructors]) 1 hd).2.1
  · exact (g.2.2.2.2.2 WatchGateways (by simp [constructors]) 1 hg).2.1
  · exact (g.2.2.2.2.2 WatchGateways (by simp [constructors]) 1 hg).2.2.2.1
  · exact (g.2.2.2.2.2 WatchRoutes (by simp [constructors]) 1 hr).2.1

end EventProcessor
end Watchers

namespace Watchers

theorem cacheWaitForCacheSync_true_iff (cacheSyncs : List InformerSynced) (ticks : List Tick) :
    cacheWaitForCacheSync cacheSyncs ticks = some true ↔
      ∃ pre stores post, ticks = pre ++ .poll stores :: post ∧
        StillWaiting cacheSyncs pre ∧
        cacheSyncs.all (fun syncFunc => syncFunc stores) = true := by
  induction ticks with
  | nil =>
    simp [cacheWaitForCacheSync]
  | cons t ts ih =>
    cases t with
    | stop =>
      simp only [cacheWaitForCacheSync]
      constructor
      · intro h; simp at h
      · rintro ⟨pre, stores, post, heq, hpre, _⟩
        cases pre with
        | nil => simp at heq
        | cons p pre' =>
          have hp : p = .stop := by
            have := (List.cons.inj heq).1; exact this.symm
          obtain ⟨s, hs, _⟩ := hpre p (List.mem_cons_self _ _)
          rw [hp] at hs; cases hs
    | poll s =>
      simp only [cacheWaitForCacheSync]
      by_cases hall : cacheSyncs.all (fun syncFunc => syncFunc s) = true
      · rw [if_pos hall]
        constructor
        · intro _
          exact ⟨[], s, ts, rfl, fun t ht => by simp at ht, hall⟩
        · intro _; rfl
      · rw [if_neg hall, ih]
        constructor
        · rintro ⟨pre, stores, post, heq, hpre, hs⟩
          refine ⟨.poll s :: pre, stores, post, by rw [heq]; rfl, ?_, hs⟩
          intro t ht
          rcases List.mem_cons.mp ht with h | h
          · exact ⟨s, h, by simpa using hall⟩
          · exact hpre t h
        · rintro ⟨pre, stores, post, heq, hpre, hs⟩
          cases pre with
          | nil =>
            have : s = stores := by
              have := (List.cons.inj heq).1
              exact Tick.poll.inj this
            subst this
            exact absurd hs hall
          | cons p pre' =>
            exact ⟨pre', stores, post, (List.cons.inj heq).2,
              fun t ht => hpre t (List.mem_cons_of_mem _ ht), hs⟩

theorem cacheWaitForCacheSync_false_iff (cacheSyncs : List InformerSynced) (ticks : List Tick) :
    cacheWaitForCacheSync cacheSyncs ticks = some false ↔
      ∃ pre post, ticks = pre ++ .stop :: post ∧ StillWaiting cacheSyncs pre := by
  induction ticks with
  | nil =>
    simp [cacheWaitForCacheSync]
  | cons t ts ih =>
    cases t with
    | stop =>
      simp only [cacheWaitForCacheSync]
      constructor
      · intro _
        exact ⟨[], ts, rfl, fun t ht => by simp at ht⟩
      · intro _; trivial
    | poll s =>
      simp only [cacheWaitForCacheSync]
      by_cases hall : cacheSyncs.all (fun syncFunc => syncFunc s) = true
      · rw [if_pos hall]
        constructor
        · intro h; simp at h
        · rintro ⟨pre, post, heq, hpre⟩
          cases pre with
          | nil => simp at heq
          | cons p pre' =>
            have hp : p = .poll s := ((List.cons.inj heq).1).symm
            obtain ⟨s', hs', hf⟩ := hpre p (List.mem_cons_self _ _)
            rw [hp] at hs'
            have : s = s' := Tick.poll.inj hs'
            subst this
            rw [hall] at hf; cases hf
      · rw [if_neg hall, ih]
        constructor
        · rintro ⟨pre, post, heq, hpre⟩
          refine ⟨.poll s :: pre, post, by rw [heq]; rfl, ?_⟩
          intro t ht
          rcases List.mem_cons.mp ht with h | h
          · exact ⟨s, h, by simpa using hall⟩
          · exact hpre t h
        · rintro ⟨pre, post, heq, hpre⟩
          cases pre with
          | nil => simp at heq
          | cons p pre' =>
            exact ⟨pre', post, (List.cons.inj heq).2,
              fun t ht => hpre t (List.mem_cons_of_mem _ ht)⟩

namespace EventProcessor

theorem all_haveWatchersSynced (c : EventProcessor) (stores : HandlerRef → Store) :
    c.haveWatchersSynced.toList.all (fun syncFunc => syncFunc stores) = true ↔
      ∀ w ∈ c.watchers, (stores w).HasSynced = true := by
  rw [haveWatchersSynced_toList]
  simp [List.all_eq_true, Watcher.HasSynced]

/-- Claim C16. The sync functions `WaitForCacheSync` waits on are the
`HasSynced` functions of the registered watchers, one for each, in the order
of registration. `WaitForCacheSync` returns true exactly when a poll finds
the mirror of every registered watcher synced and neither the stop signal
nor such a poll came before, and it returns false exactly when the stop
signal comes before any such poll. -/
theorem waitForCacheSync_result (c : EventProcessor) (ticks : List Tick) :
    c.haveWatchersSynced.toList = c.watchers.map Watcher.HasSynced ∧
    c.haveWatchersSynced.toList.length = c.watchers.length ∧
    (c.WaitForCacheSync ticks = some true ↔
      ∃ pre stores post, ticks = pre ++ .poll stores :: post ∧
        (∀ w ∈ c.watchers, (stores w).HasSynced = true) ∧
        ∀ t ∈ pre, ∃ s, t = .poll s ∧ ¬ ∀ w ∈ c.watchers, (s w).HasSynced = true) ∧
    (c.WaitForCacheSync ticks = some false ↔
      ∃ pre post, ticks = pre ++ .stop :: post ∧
        ∀ t ∈ pre, ∃ s, t = .poll s ∧ ¬ ∀ w ∈ c.watchers, (s w).HasSynced = true) := by
  have hwait : ∀ pre : List Tick, StillWaiting c.haveWatchersSynced.toList pre ↔
      ∀ t ∈ pre, ∃ s, t = .poll s ∧ ¬ ∀ w ∈ c.watchers, (s w).HasSynced = true := by
    intro pre
    unfold StillWaiting
    constructor
    · intro h t ht
      obtain ⟨s, hs, hf⟩ := h t ht
      refine ⟨s, hs, fun hall => ?_⟩
      rw [(all_haveWatchersSynced c s).mpr hall] at hf
      cases hf
    · intro h t ht
      obtain ⟨s, hs, hf⟩ := h t ht
      refine ⟨s, hs, ?_⟩
      cases hb : c.haveWatchersSynced.toList.all (fun syncFunc => syncFunc s) with
      | false => rfl
      | true => exact absurd ((all_haveWatchersSynced c s).mp hb) hf
  refine ⟨haveWatchersSynced_toList c, by rw [haveWatchersSynced_toList]; simp, ?_, ?_⟩
  · unfold WaitForCacheSync
    rw [cacheWaitForCacheSync_true_iff]
    constructor
    · rintro ⟨pre, stores, post, heq, hpre, hs⟩
      exact ⟨pre, stores, post, heq, (all_haveWatchersSynced c stores).mp hs, (hwait pre).mp hpre⟩
    · rintro ⟨pre, stores, post, heq, hs, hpre⟩
      exact ⟨pre, stores, post, heq, (hwait pre).mpr hpre, (all_haveWatchersSynced c stores).mpr hs⟩
  · unfold WaitForCacheSync
    rw [cacheWaitForCacheSync_false_iff]
    constructor
    · rintro ⟨pre, post, heq, hpre⟩
      exact ⟨pre, post, heq, (hwait pre).mp hpre⟩
    · rintro ⟨pre, post, heq, hpre⟩
      exact ⟨pre, post, heq, (hwait pre).mpr hpre⟩

/-- The statement of C16 at a processor with the two watchers 0 and 1: a poll
that finds only watcher 0 synced, then a poll that finds both synced gives
true; the same first poll followed by the stop signal gives false. -/
theorem waitForCacheSync_result_witness :
    ((WatchSites exSucceeding (WatchConfigMaps exFailing exEmptyProc).2).2.WaitForCacheSync
        [.poll (fun w => { HasSynced := decide (w = 0) }),
         .poll (fun _ => { HasSynced := true }), .stop] = some true) ∧
      ((WatchSites exSucceeding (WatchConfigMaps exFailing exEmptyProc).2).2.WaitForCacheSync
        [.poll (fun w => { HasSynced := decide (w = 0) }), .stop,
         .poll (fun _ => { HasSynced := true })] = some false) := by
  have h1 := (waitForCacheSync_result
    (WatchSites exSucceeding (WatchConfigMaps exFailing exEmptyProc).2).2
    [.poll (fun w => { HasSynced := decide (w = 0) }),
     .poll (fun _ => { HasSynced := true }), .stop]).2.2.1
  have h2 := (waitForCacheSync_result
    (WatchSites exSucceeding (WatchConfigMaps exFailing exEmptyProc).2).2
    [.poll (fun w => { HasSynced := decide (w = 0) }), .stop,
     .poll (fun _ => { HasSynced := true })]).2.2.2
  have hw : (WatchSites exSucceeding (WatchConfigMaps exFailing exEmptyProc).2).2.watchers
      = [0, 1] := rfl
  refine ⟨h1.mpr ⟨[.poll (fun w => { HasSynced := decide (w = 0) })],
      fun _ => { HasSynced := true }, [.stop], rfl, fun _ _ => rfl, ?_⟩,
    h2.mpr ⟨[.poll (fun w => { HasSynced := decide (w = 0) })],
      [.poll (fun _ => { HasSynced := true })], rfl, ?_⟩⟩
  all_goals
    intro t ht
    rw [List.mem_singleton] at ht
    refine ⟨_, ht, fun hall => ?_⟩
    have := hall 1 (by rw [hw]; simp)
    simp at this

end EventProcessor
end Watchers

namespace Watchers

theorem splitChars_no_sep (sep : Char) (l : List Char) (h : sep ∉ l) :
    splitChars sep l = [l] := by
  induction l with
  | nil => rfl
  | cons ch rest ih =>
    have hne : ch ≠ sep := fun he => h (by rw [he]; exact List.mem_cons_self _ _)
    have hrest : sep ∉ rest := fun hm => h (List.mem_cons_of_mem _ hm)
    simp [splitChars, hne, ih hrest]

theorem splitChars_append_sep (sep : Char) (a b : List Char) (h : sep ∉ a) :
    splitChars sep (a ++ sep :: b) = a :: splitChars sep b := by
  induction a with
  | nil => simp [splitChars]
  | cons ch rest ih =>
    have hne : ch ≠ sep := fun he => h (by rw [he]; exact List.mem_cons_self _ _)
    have hrest : sep ∉ rest := fun hm => h (List.mem_cons_of_mem _ hm)
    simp [splitChars, hne, ih hrest]

theorem SplitMetaNamespaceKey_namespaced (ns name : String)
    (hns : '/' ∉ ns.data) (hname : '/' ∉ name.data) :
    SplitMetaNamespaceKey (ns ++ "/" ++ name) = (ns, name, none) := by
  have hd : (ns ++ "/" ++ name).data = ns.data ++ '/' :: name.data := by
    simp [String.data_append]
  unfold SplitMetaNamespaceKey
  rw [hd, splitChars_append_sep _ _ _ hns, splitChars_no_sep _ _ hname]

/-- Claim C18. For every predicate `match` that is not nil, every handler, key
and value, the handler built by `FilterByNamespace` gives what `handler` gives
on the key and value when `match` holds of the namespace part of the key, and
otherwise returns nil and leaves everything as it is, whatever the handler
would have done: the handler is not called. The namespace part of a key
`namespace/name` is `namespace`. -/
theorem filterByNamespace_applies_match {σ V : Type} (m : String → Bool)
    (handler : KeyHandler σ V) (key : String) (value : V) (s : σ) :
    (m (SplitMetaNamespaceKey key).1 = true →
      FilterByNamespace (some m) handler key value s = handler key value s) ∧
    (m (SplitMetaNamespaceKey key).1 = false →
      FilterByNamespace (some m) handler key value s = (none, s)) ∧
    (∀ ns name : String, '/' ∉ ns.data → '/' ∉ name.data →
      key = ns ++ "/" ++ name → (SplitMetaNamespaceKey key).1 = ns) := by
  refine ⟨?_, ?_, ?_⟩
  · intro h
    simp only [FilterByNamespace]
    rw [if_pos h]
  · intro h
    simp only [FilterByNamespace]
    rw [if_neg (by rw [h]; simp)]
  · intro ns name hns hname hk
    rw [hk, SplitMetaNamespaceKey_namespaced ns name hns hname]

/-- The statement of C18 for a handler that fails and records the keys it is
called with, filtered by the namespace `ns1`: called for `ns1/a`, not called
for `ns2/a`. -/
theorem filterByNamespace_applies_match_witness :
    FilterByNamespace (some (fun ns => ns == "ns1"))
        (fun key (_ : Nat) (calls : List String) => (some "boom", calls ++ [key]))
        "ns1/a" 5 [] = (some "boom", ["ns1/a"]) ∧
      FilterByNamespace (some (fun ns => ns == "ns1"))
        (fun key (_ : Nat) (calls : List String) => (some "boom", calls ++ [key]))
        "ns2/a" 5 [] = (none, []) := by
  have h1 := (filterByNamespace_applies_match (fun ns => ns == "ns1")
    (fun key (_ : Nat) (calls : List String) => (some "boom", calls ++ [key]))
    "ns1/a" 5 []).1 (by decide)
  have h2 := (filterByNamespace_applies_match (fun ns => ns == "ns1")
    (fun key (_ : Nat) (calls : List String) => (some "boom", calls ++ [key]))
    "ns2/a" 5 []).2.1 (by decide)
  exact ⟨h1, h2⟩

end Watchers

namespace Watchers
namespace EventProcessor

theorem TestProcessAll_single_ok (c : EventProcessor) (evt : ResourceChange)
    (hq : c.queue.queue = [.change evt]) (hok : (c.Handle evt).1 = none) :
    c.TestProcessAll =
      { c with
        queue := ((c.queue.handOut (.change evt) []).Forget (.change evt)).Done (.change evt),
        events := c.events ++ .handle evt :: handleTail c evt
                    ++ [.forget (.change evt), .done (.change evt)] } := by
  have hp := process_ok c evt [] hq hok
  have hlen : c.queue.Len = 1 := by simp [WorkQueue.Len, hq]
  unfold TestProcessAll
  rw [hlen]
  simp only [processAll]
  rw [hlen, hp]
  simp

theorem dispatch_after_enqueue (c : EventProcessor) (evt : ResourceChange)
    (hq : c.queue.queue = []) (hd : c.queue.dirty = []) (hp : c.queue.processing = [])
    (hs : c.queue.shuttingDown = false) (hok : (c.Handle evt).1 = none) :
    ∀ d : EventProcessor,
      d = ({ c with queue := c.queue.Add (.change evt) } : EventProcessor).TestProcessAll →
      d.events = c.events ++ .handle evt :: handleTail c evt
                    ++ [.forget (.change evt), .done (.change evt)] ∧
      d.queue.queue = [] ∧ d.queue.dirty = [] ∧ d.queue.processing = [] ∧
      d.queue.shuttingDown = false ∧ d.queue.waiting = c.queue.waiting ∧
      d.handlers = c.handlers ∧ d.stores = c.stores ∧ d.eventHandlers = c.eventHandlers ∧
      d.nextRef = c.nextRef := by
  intro d hdef
  have hadd : (c.queue.Add (.change evt)).queue = [.change evt] := by
    simp [WorkQueue.Add, hq, hd, hp, hs]
  have hok' : (({ c with queue := c.queue.Add (.change evt) } : EventProcessor).Handle evt).1
      = none := by
    rw [Handle_fst_queue]; exact hok
  rw [TestProcessAll_single_ok _ evt hadd hok'] at hdef
  subst hdef
  refine ⟨rfl, ?_, ?_, ?_, ?_, ?_, rfl, rfl, rfl, rfl⟩ <;>
    simp [WorkQueue.Done, WorkQueue.Forget, WorkQueue.handOut, WorkQueue.Add, hq, hd, hp, hs]

theorem watch_stores (c : EventProcessor) (kind : WatcherKind) (handler : DomainHandler) :
    (c.watch kind handler).2.stores c.nextRef = {} ∧
      (c.watch kind handler).2.nextRef = c.nextRef + 1 := by
  simp [watch, newWatcher, AddEventHandler, addWatcher]

/-- Claim C13. With one watcher registered on a processor with nothing pending
and a handler `H` that succeeds: an add notification for the object `a` of
namespace `ns1` followed by the processing of the queue calls `H` exactly
once, with `ns1/a` and that object; a delete notification for the same object
followed by the processing of the queue calls `H` exactly once, with `ns1/a`
and nil; afterwards nothing is pending, `process` has nothing to dispatch
and processing the queue again changes nothing, so `H` is not called again. -/
theorem add_then_delete_scenario (c0 : EventProcessor) (kind : WatcherKind)
    (H : DomainHandler) (obj : Obj)
    (hq : c0.queue.queue = []) (hd : c0.queue.dirty = []) (hp : c0.queue.processing = [])
    (hs : c0.queue.shuttingDown = false)
    (hH : ∀ es key o, H es key o = none) (hns : obj.ns = "ns1") (hname : obj.name = "a") :
    ∀ c2 c3 : EventProcessor,
      c2 = (((c0.watch kind H).2).informerAdd c0.nextRef obj).TestProcessAll →
      c3 = (c2.informerDelete c0.nextRef obj).TestProcessAll →
      c2.events = c0.events ++
        [.handle ⟨c0.nextRef, "ns1/a"⟩, .domainCall c0.nextRef "ns1/a" (some obj),
         .forget (.change ⟨c0.nextRef, "ns1/a"⟩), .done (.change ⟨c0.nextRef, "ns1/a"⟩)] ∧
      c3.events = c2.events ++
        [.handle ⟨c0.nextRef, "ns1/a"⟩, .domainCall c0.nextRef "ns1/a" none,
         .forget (.change ⟨c0.nextRef, "ns1/a"⟩), .done (.change ⟨c0.nextRef, "ns1/a"⟩)] ∧
      c3.queue.queue = [] ∧ c3.process = none ∧ c3.TestProcessAll = c3 := by
  intro c2 c3 h2 h3
  obtain ⟨ns, name, content⟩ := obj
  simp only at hns hname
  subst hns hname
  obtain ⟨_, _, hh, heh, hqq, hev⟩ := watch_spec c0 kind H
  have hkeyfn : MetaNamespaceKeyFunc (.object ⟨"ns1", "a", content⟩) = .ok "ns1/a" := rfl
  have hkey : (⟨"ns1", "a", content⟩ : Obj).key = "ns1/a" := rfl
  -- the add notification reaches the callbacks of the new watcher
  have hadd : ((c0.watch kind H).2).informerAdd c0.nextRef ⟨"ns1", "a", content⟩ =
      ({ ({ (c0.watch kind H).2 with
              stores := fun r => if r = c0.nextRef
                then ((c0.watch kind H).2.stores c0.nextRef).put ⟨"ns1", "a", content⟩
                else (c0.watch kind H).2.stores r } : EventProcessor) with
          queue := ({ (c0.watch kind H).2 with
              stores := fun r => if r = c0.nextRef
                then ((c0.watch kind H).2.stores c0.nextRef).put ⟨"ns1", "a", content⟩
                else (c0.watch kind H).2.stores r } : EventProcessor).queue.Add
            (.change ⟨c0.nextRef, "ns1/a"⟩) } : EventProcessor) := by
    simp only [informerAdd, heh, List.foldl_cons, List.foldl_nil, newEventHandler]
    rw [hkeyfn]
  rw [hadd] at h2
  have hA := dispatch_after_enqueue
    ({ (c0.watch kind H).2 with
        stores := fun r => if r = c0.nextRef
          then ((c0.watch kind H).2.stores c0.nextRef).put ⟨"ns1", "a", content⟩
          else (c0.watch kind H).2.stores r } : EventProcessor)
    ⟨c0.nextRef, "ns1/a"⟩
    (by show (c0.watch kind H).2.queue.queue = []; rw [hqq]; exact hq)
    (by show (c0.watch kind H).2.queue.dirty = []; rw [hqq]; exact hd)
    (by show (c0.watch kind H).2.queue.processing = []; rw [hqq]; exact hp)
    (by show (c0.watch kind H).2.queue.shuttingDown = false; rw [hqq]; exact hs)
    (by simp [Handle, Get, record, hh, Store.put, hkey, hH]) c2 h2
  obtain ⟨e2, q2, d2, p2, s2, _, hh2, hst2, heh2, _⟩ := hA
  have hev2 : c2.events = c0.events ++
      [.handle ⟨c0.nextRef, "ns1/a"⟩,
       .domainCall c0.nextRef "ns1/a" (some ⟨"ns1", "a", content⟩),
       .forget (.change ⟨c0.nextRef, "ns1/a"⟩), .done (.change ⟨c0.nextRef, "ns1/a"⟩)] := by
    rw [e2]
    simp [handleTail, hh, Store.put, hkey, hev]
  -- the delete notification
  have hdel : c2.informerDelete c0.nextRef ⟨"ns1", "a", content⟩ =
      ({ ({ c2 with
              stores := fun r => if r = c0.nextRef
                then (c2.stores c0.nextRef).remove "ns1/a" else c2.stores r } :
            EventProcessor) with
          queue := ({ c2 with
              stores := fun r => if r = c0.nextRef
                then (c2.stores c0.nextRef).remove "ns1/a" else c2.stores r } :
            EventProcessor).queue.Add (.change ⟨c0.nextRef, "ns1/a"⟩) } : EventProcessor) := by
    have hehc2 : c2.eventHandlers c0.nextRef = [c0.nextRef] := by
      rw [heh2]; exact heh
    simp only [informerDelete, hehc2, List.foldl_cons, List.foldl_nil, newEventHandler, hkey]
    rw [hkeyfn]
  rw [hdel] at h3
  have hhc2 : c2.handlers c0.nextRef = .watcher kind H := by rw [hh2]; exact hh
  have hB := dispatch_after_enqueue
    ({ c2 with
        stores := fun r => if r = c0.nextRef
          then (c2.stores c0.nextRef).remove "ns1/a" else c2.stores r } : EventProcessor)
    ⟨c0.nextRef, "ns1/a"⟩ q2 d2 p2 s2
    (by simp [Handle, Get, record, hhc2, Store.remove, hH]) c3 h3
  obtain ⟨e3, q3, _, _, s3, _⟩ := hB
  have hev3 : c3.events = c2.events ++
      [.handle ⟨c0.nextRef, "ns1/a"⟩, .domainCall c0.nextRef "ns1/a" none,
       .forget (.change ⟨c0.nextRef, "ns1/a"⟩), .done (.change ⟨c0.nextRef, "ns1/a"⟩)] := by
    rw [e3]
    simp [handleTail, hhc2, Store.remove]
  refine ⟨hev2, hev3, q3, process_none_of_idle c3 q3 s3, ?_⟩
  unfold TestProcessAll
  have : c3.queue.Len = 0 := by simp [WorkQueue.Len, q3]
  rw [this]
  rfl

/-- The statement of C13 at `exEmptyProc` with a Site watcher whose handler
succeeds and the object `exObj`: the record of the whole scenario. -/
theorem add_then_delete_scenario_witness :
    ((((exEmptyProc.watch .Site exSucceeding).2).informerAdd 0 exObj).TestProcessAll.informerDelete
        0 exObj).TestProcessAll.events =
      [.handle ⟨0, "ns1/a"⟩, .domainCall 0 "ns1/a" (some exObj),
       .forget (.change ⟨0, "ns1/a"⟩), .done (.change ⟨0, "ns1/a"⟩),
       .handle ⟨0, "ns1/a"⟩, .domainCall 0 "ns1/a" none,
       .forget (.change ⟨0, "ns1/a"⟩), .done (.change ⟨0, "ns1/a"⟩)] := by
  have h := add_then_delete_scenario exEmptyProc .Site exSucceeding exObj rfl rfl rfl rfl
    (fun _ _ _ => rfl) rfl rfl _ _ rfl rfl
  refine h.2.1.trans ?_
  rw [h.1]
  rfl

end EventProcessor
end Watchers

namespace Watchers
namespace WorkQueue

theorem Add_cases (q : WorkQueue) (x : Item) :
    (q.Add x = q) ∨ (q.Add x = { q with dirty := q.dirty ++ [x] }) ∨
      (q.Add x = { q with dirty := q.dirty ++ [x], queue := q.queue ++ [x] }) := by
  unfold Add
  split
  · exact Or.inl rfl
  · split
    · exact Or.inl rfl
    · split
      · exact Or.inr (Or.inl rfl)
      · exact Or.inr (Or.inr rfl)

theorem Add_keeps_behind (q : WorkQueue) (x cb : Item) (pre post : List Item)
    (hq : q.queue = pre ++ cb :: post) (hd : cb ∈ q.dirty) :
    ∃ post', (q.Add x).queue = pre ++ cb :: post' ∧ cb ∈ (q.Add x).dirty := by
  rcases Add_cases q x with h | h | h <;> rw [h]
  · exact ⟨post, hq, hd⟩
  · exact ⟨post, hq, List.mem_append_left _ hd⟩
  · exact ⟨post ++ [x], by simp [hq], List.mem_append_left _ hd⟩

theorem deliver_keeps_behind (now : Nat) (cb : Item) (pre : List Item) (w : List WaitFor) :
    ∀ (q : WorkQueue) (post : List Item), q.queue = pre ++ cb :: post → cb ∈ q.dirty →
      ∃ post', (deliver now w q).queue = pre ++ cb :: post' ∧ cb ∈ (deliver now w q).dirty := by
  induction w with
  | nil => intro q post hq hd; exact ⟨post, hq, hd⟩
  | cons e es ih =>
    intro q post hq hd
    unfold deliver
    split
    · obtain ⟨post', h1, h2⟩ := Add_keeps_behind q e.data cb pre post hq hd
      exact ih _ post' h1 h2
    · exact ⟨post, hq, hd⟩

theorem AddAfter_keeps_behind (q : WorkQueue) (x cb : Item) (delay : Int)
    (pre post : List Item) (hq : q.queue = pre ++ cb :: post) (hd : cb ∈ q.dirty) :
    ∃ post', (q.AddAfter x delay).queue = pre ++ cb :: post' ∧
      cb ∈ (q.AddAfter x delay).dirty := by
  unfold AddAfter
  split
  · exact ⟨post, hq, hd⟩
  · split
    · exact Add_keeps_behind q x cb pre post hq hd
    · exact ⟨post, hq, hd⟩

end WorkQueue

namespace EventProcessor

theorem deliver_cases (handler : HandlerRef) (n : Notification) (c : EventProcessor) :
    (∃ err, (newEventHandler handler).deliver n c = c.record (.handleError err)) ∨
      (∃ item, (newEventHandler handler).deliver n c = { c with queue := c.queue.Add item }) := by
  cases n with
  | add obj =>
    simp only [ResourceEventHandlerFuncs.deliver, newEventHandler]
    cases MetaNamespaceKeyFunc obj with
    | error err => exact Or.inl ⟨err, rfl⟩
    | ok key => exact Or.inr ⟨_, rfl⟩
  | update old new =>
    simp only [ResourceEventHandlerFuncs.deliver, newEventHandler]
    cases MetaNamespaceKeyFunc new with
    | error err => exact Or.inl ⟨err, rfl⟩
    | ok key => exact Or.inr ⟨_, rfl⟩
  | delete obj =>
    simp only [ResourceEventHandlerFuncs.deliver, newEventHandler]
    cases MetaNamespaceKeyFunc obj with
    | error err => exact Or.inl ⟨err, rfl⟩
    | ok key => exact Or.inr ⟨_, rfl⟩

theorem not_handle_mem_handleTail (c : EventProcessor) (evt evt' : ResourceChange) :
    Event.handle evt' ∉ handleTail c evt := by
  unfold handleTail
  cases c.handlers evt.Handler with
  | watcher kind handler =>
    cases (c.stores evt.Handler).GetByKey evt.Key <;> simp
  | callback cb ctx => simp

/-- What one call of `process` that finds the item `obj` in front does to the
record, the pending items, the dirty marks and the handler values. -/
theorem process_step (c : EventProcessor) (obj : Item) (rest : List Item)
    (h : c.queue.queue = obj :: rest) :
    ∃ c' more, c.process = some (true, c') ∧ c'.events = c.events ++ more ∧
      c'.queue.queue = rest ∧ c'.handlers = c.handlers ∧ c'.nextRef = c.nextRef ∧
      (∀ x, x ≠ obj → (x ∈ c'.queue.dirty ↔ x ∈ c.queue.dirty)) ∧
      (∀ evt, Event.handle evt ∈ more → obj = .change evt) ∧
      (∀ evt, obj = .change evt →
        ∃ tail, more = .handle evt :: handleTail c evt ++ tail) := by
  obtain ⟨c', hp, hq, _, _, hd⟩ := process_of_pending c obj rest h
  cases obj with
  | other tag =>
    have hp' := process_other c tag rest h
    rw [hp] at hp'
    have hc : c' = _ := (Prod.mk.inj (Option.some.inj hp')).2
    refine ⟨c', _, hp, by rw [hc], hq, by rw [hc], by rw [hc], hd, ?_, ?_⟩
    · intro evt he; simp at he
    · intro evt he; cases he
  | change evt =>
    have hshape : ∃ tail, (∀ e, Event.handle e ∉ tail) ∧
        c'.events = c.events ++ (.handle evt :: handleTail c evt ++ tail) ∧
        c'.handlers = c.handlers ∧ c'.nextRef = c.nextRef := by
      cases herr : (c.Handle evt).1 with
      | none =>
        have hp' := process_ok c evt rest h herr
        rw [hp] at hp'
        have hc : c' = _ := (Prod.mk.inj (Option.some.inj hp')).2
        exact ⟨[.forget (.change evt), .done (.change evt)], by simp,
          by rw [hc]; simp, by rw [hc], by rw [hc]⟩
      | some err =>
        by_cases hn : c.queue.failures (.change evt) < 5
        · have hp' := process_retry c evt rest err h herr hn
          rw [hp] at hp'
          have hc : c' = _ := (Prod.mk.inj (Option.some.inj hp')).2
          exact ⟨[.logError c.errorKey (c.Describe evt) err, .addRateLimited (.change evt),
            .done (.change evt)], by simp, by rw [hc]; simp, by rw [hc], by rw [hc]⟩
        · have hp' := process_drop c evt rest err h herr hn
          rw [hp] at hp'
          have hc : c' = _ := (Prod.mk.inj (Option.some.inj hp')).2
          exact ⟨[.logError c.errorKey (c.Describe evt) err, .forget (.change evt),
            .done (.change evt)], by simp, by rw [hc]; simp, by rw [hc], by rw [hc]⟩
    obtain ⟨tail, htail, hev, hh, hn⟩ := hshape
    refine ⟨c', _, hp, hev, hq, hh, hn, hd, ?_, ?_⟩
    · intro e he
      simp only [List.mem_cons, List.mem_append, List.cons_append] at he
      rcases he with he | he | he
      · rw [Event.handle.inj he]
      · exact absurd he (not_handle_mem_handleTail c evt e)
      · exact absurd he (htail e)
    · intro e he
      rw [← Item.change.inj he]
      exact ⟨tail, rfl⟩

end EventProcessor
end Watchers

namespace Watchers
namespace EventProcessor

theorem act_grows (c : EventProcessor) (a : Action) :
    ∃ more, (c.act a).events = c.events ++ more := by
  cases a with
  | notify handler n =>
    rcases deliver_cases handler n c with ⟨err, h⟩ | ⟨item, h⟩
    · exact ⟨[.handleError err], by simp only [act]; rw [h]; rfl⟩
    · exact ⟨[], by simp only [act]; rw [h]; simp⟩
  | callbackAfter delay callback context => exact ⟨[], by simp [act, CallbackAfter]⟩
  | watch kind handler => exact ⟨[], by simp [act, (watch_spec c kind handler).2.2.2.2.2]⟩
  | dispatch =>
    simp only [act]
    cases hq : c.queue.queue with
    | nil =>
      cases hs : c.queue.shuttingDown
      · rw [process_none_of_idle c hq hs]; exact ⟨[], by simp⟩
      · have : c.process = some (false, c) := by
          unfold process WorkQueue.Get; simp [hq, hs]
        rw [this]; exact ⟨[], by simp⟩
    | cons obj rest =>
      obtain ⟨c', more, hp, hev, _⟩ := process_step c obj rest hq
      rw [hp]; exact ⟨more, hev⟩
  | elapse d => exact ⟨[], by simp [act]⟩
  | stop => exact ⟨[], by simp [act, Stop]⟩

theorem act_holds (ref : HandlerRef) (fn : Callback) (ctx : String) (c : EventProcessor)
    (a : Action) (h : HoldsCallback ref fn ctx c) : HoldsCallback ref fn ctx (c.act a) := by
  obtain ⟨hh, hlt⟩ := h
  have hne : ref ≠ c.nextRef := Nat.ne_of_lt hlt
  cases a with
  | notify handler n =>
    rcases deliver_cases handler n c with ⟨err, h⟩ | ⟨item, h⟩ <;>
      (simp only [act]; rw [h]; exact ⟨hh, hlt⟩)
  | callbackAfter delay callback context =>
    refine ⟨?_, ?_⟩
    · simp [act, CallbackAfter, hne, hh]
    · exact Nat.lt_succ_of_lt hlt
  | watch kind handler =>
    refine ⟨?_, ?_⟩
    · simp [act, watch, newWatcher, AddEventHandler, addWatcher, hne, hh]
    · exact Nat.lt_succ_of_lt hlt
  | dispatch =>
    simp only [act]
    cases hq : c.queue.queue with
    | nil =>
      cases hs : c.queue.shuttingDown
      · rw [process_none_of_idle c hq hs]; exact ⟨hh, hlt⟩
      · have : c.process = some (false, c) := by
          unfold process WorkQueue.Get; simp [hq, hs]
        rw [this]; exact ⟨hh, hlt⟩
    | cons obj rest =>
      obtain ⟨c', more, hp, _, _, hh', hn', _⟩ := process_step c obj rest hq
      rw [hp]
      exact ⟨by rw [hh']; exact hh, by rw [hn']; exact hlt⟩
  | elapse d => exact ⟨hh, hlt⟩
  | stop => exact ⟨hh, hlt⟩

theorem act_pending (pending : List Item) (ref : HandlerRef) (fn : Callback) (ctx : String)
    (c : EventProcessor) (a : Action) (hc : HoldsCallback ref fn ctx c)
    (hb : PendingBehind pending (.change ⟨ref, ""⟩) c)
    (hcb : Item.change ⟨ref, ""⟩ ∈ pending) :
    ∃ more, (c.act a).events = c.events ++ more ∧
      ((HandlesOnly pending more ∧ PendingBehind pending (.change ⟨ref, ""⟩) (c.act a)) ∨
       (∃ m1 m2, more = m1 ++ Event.callbackCall ref ctx :: m2 ∧ HandlesOnly pending m1)) := by
  obtain ⟨pre, post, hq, hpre, hd⟩ := hb
  have hnil : HandlesOnly pending [] := fun evt he => by simp at he
  cases a with
  | notify handler n =>
    rcases deliver_cases handler n c with ⟨err, h⟩ | ⟨item, h⟩
    · refine ⟨[.handleError err], by simp only [act]; rw [h]; rfl, Or.inl ⟨?_, ?_⟩⟩
      · intro evt he; simp at he
      · simp only [act]; rw [h]; exact ⟨pre, post, hq, hpre, hd⟩
    · refine ⟨[], by simp only [act]; rw [h]; simp, Or.inl ⟨hnil, ?_⟩⟩
      obtain ⟨post', h1, h2⟩ := WorkQueue.Add_keeps_behind c.queue item _ pre post hq hd
      simp only [act]; rw [h]
      exact ⟨pre, post', h1, hpre, h2⟩
  | callbackAfter delay callback context =>
    refine ⟨[], by simp [act, CallbackAfter], Or.inl ⟨hnil, ?_⟩⟩
    obtain ⟨post', h1, h2⟩ := WorkQueue.AddAfter_keeps_behind c.queue
      (.change ⟨c.nextRef, ""⟩) _ delay pre post hq hd
    exact ⟨pre, post', h1, hpre, h2⟩
  | watch kind handler =>
    refine ⟨[], by simp [act, (watch_spec c kind handler).2.2.2.2.2], Or.inl ⟨hnil, ?_⟩⟩
    have hqq := (watch_spec c kind handler).2.2.2.2.1
    refine ⟨pre, post, ?_, hpre, ?_⟩
    · simp only [act]; rw [hqq]; exact hq
    · simp only [act]; rw [hqq]; exact hd
  | dispatch =>
    simp only [act]
    cases hpre' : pre with
    | nil =>
      rw [hpre'] at hq
      obtain ⟨c', more, hp, hev, _, _, _, _, _, hshape⟩ :=
        process_step c (.change ⟨ref, ""⟩) post hq
      obtain ⟨tail, htail⟩ := hshape ⟨ref, ""⟩ rfl
      rw [hp]
      refine ⟨more, hev, Or.inr ⟨[.handle ⟨ref, ""⟩], tail, ?_, ?_⟩⟩
      · rw [htail]; simp [handleTail, hc.1]
      · intro evt he
        simp only [List.mem_singleton] at he
        rw [Event.handle.inj he]; exact hcb
    | cons y pre' =>
      rw [hpre'] at hq hpre
      obtain ⟨c', more, hp, hev, hq', _, _, hd', hhandle, hshape⟩ :=
        process_step c y (pre' ++ .change ⟨ref, ""⟩ :: post) hq
      rw [hp]
      by_cases hy : y = .change ⟨ref, ""⟩
      · obtain ⟨tail, htail⟩ := hshape ⟨ref, ""⟩ hy
        refine ⟨more, hev, Or.inr ⟨[.handle ⟨ref, ""⟩], tail, ?_, ?_⟩⟩
        · rw [htail]; simp [handleTail, hc.1]
        · intro evt he
          simp only [List.mem_singleton] at he
          rw [Event.handle.inj he]; exact hcb
      · refine ⟨more, hev, Or.inl ⟨?_, pre', post, hq', ?_, ?_⟩⟩
        · intro evt he
          rw [← hhandle evt he]
          exact hpre y (List.mem_cons_self _ _)
        · intro z hz; exact hpre z (List.mem_cons_of_mem _ hz)
        · exact (hd' _ (fun h => hy h.symm)).mpr hd
  | elapse d =>
    refine ⟨[], by simp [act], Or.inl ⟨hnil, ?_⟩⟩
    obtain ⟨post', h1, h2⟩ := WorkQueue.deliver_keeps_behind (c.queue.now + d) _ pre
      c.queue.waiting { c.queue with now := c.queue.now + d } post hq hd
    exact ⟨pre, post', h1, hpre, h2⟩
  | stop =>
    exact ⟨[], by simp [act, Stop], Or.inl ⟨hnil, pre, post, hq, hpre, hd⟩⟩

theorem act_order (before : List Event) (pending : List Item) (ref : HandlerRef)
    (fn : Callback) (ctx : String) (c : EventProcessor) (a : Action)
    (hcb : Item.change ⟨ref, ""⟩ ∈ pending)
    (h : CallbackOrder before pending ref fn ctx c) :
    CallbackOrder before pending ref fn ctx (c.act a) := by
  obtain ⟨hc, suffix, hev, hphase⟩ := h
  refine ⟨act_holds ref fn ctx c a hc, ?_⟩
  rcases hphase with ⟨p, m2, hs, hp⟩ | ⟨hs, hb⟩
  · obtain ⟨more, hm⟩ := act_grows c a
    exact ⟨suffix ++ more, by rw [hm, hev, List.append_assoc],
      Or.inl ⟨p, m2 ++ more, by rw [hs]; simp, hp⟩⟩
  · obtain ⟨more, hm, hcase⟩ := act_pending pending ref fn ctx c a hc hb hcb
    refine ⟨suffix ++ more, by rw [hm, hev, List.append_assoc], ?_⟩
    rcases hcase with ⟨hmore, hb'⟩ | ⟨m1, m2, hmore, hm1⟩
    · refine Or.inr ⟨?_, hb'⟩
      intro evt he
      rcases List.mem_append.mp he with h | h
      · exact hs evt h
      · exact hmore evt h
    · refine Or.inl ⟨suffix ++ m1, m2, by rw [hmore]; simp, ?_⟩
      intro evt he
      rcases List.mem_append.mp he with h | h
      · exact hs evt h
      · exact hm1 evt h

theorem actAll_order (before : List Event) (pending : List Item) (ref : HandlerRef)
    (fn : Callback) (ctx : String) (hcb : Item.change ⟨ref, ""⟩ ∈ pending)
    (actions : List Action) :
    ∀ c : EventProcessor, CallbackOrder before pending ref fn ctx c →
      CallbackOrder before pending ref fn ctx (c.actAll actions) := by
  induction actions with
  | nil => intro c h; exact h
  | cons a as ih =>
    intro c h
    exact ih _ (act_order before pending ref fn ctx c a hcb h)

theorem handled_after_of_prefix (pending : List Item) (target : Event)
    (htarget : ∀ evt, target ≠ .handle evt) (p m2 : List Event)
    (hp : HandlesOnly pending p) :
    ∀ s1 s2 evt, p ++ target :: m2 = s1 ++ Event.handle evt :: s2 →
      Item.change evt ∉ pending → target ∈ s1 := by
  intro s1 s2 evt heq hlate
  rcases List.append_eq_append_iff.mp heq with ⟨a', h1, h2⟩ | ⟨c', h1, h2⟩
  · cases a' with
    | nil =>
      simp only [List.nil_append] at h2
      exact absurd (List.cons.inj h2).1 (htarget evt)
    | cons t a'' =>
      have : target = t := (List.cons.inj h2).1
      rw [h1, this]
      simp
  · cases c' with
    | nil =>
      simp only [List.nil_append] at h2
      exact absurd (List.cons.inj h2).1.symm (htarget evt)
    | cons t c'' =>
      have ht : Event.handle evt = t := (List.cons.inj h2).1
      have : Event.handle evt ∈ p := by rw [h1, ht]; simp
      exact absurd (hp evt this) hlate

end EventProcessor
end Watchers

namespace Watchers
namespace EventProcessor

theorem processAll_grows (n : Nat) :
    ∀ c : EventProcessor, ∃ more, (processAll n c).events = c.events ++ more := by
  induction n with
  | zero => intro c; exact ⟨[], by simp [processAll]⟩
  | succ n ih =>
    intro c
    cases hq : c.queue.queue with
    | nil =>
      refine ⟨[], ?_⟩
      have : ¬ c.queue.Len > 0 := by simp [WorkQueue.Len, hq]
      simp [processAll, this]
    | cons obj rest =>
      obtain ⟨c', more, hp, hev, _⟩ := process_step c obj rest hq
      obtain ⟨more', hm⟩ := ih c'
      have : c.queue.Len > 0 := by simp [WorkQueue.Len, hq]
      refine ⟨more ++ more', ?_⟩
      simp only [processAll, this, if_true, hp]
      rw [hm, hev, List.append_assoc]

theorem processAll_reaches (ref : HandlerRef) (fn : Callback) (ctx : String)
    (post : List Item) (pre : List Item) :
    ∀ (c : EventProcessor) (n : Nat), c.queue.queue = pre ++ .change ⟨ref, ""⟩ :: post →
      c.handlers ref = .callback fn ctx → pre.length < n →
      ∃ more, (processAll n c).events = c.events ++ more ∧
        Event.callbackCall ref ctx ∈ more := by
  induction pre with
  | nil =>
    intro c n hq hh hn
    obtain ⟨m, rfl⟩ : ∃ m, n = m + 1 := ⟨n - 1, by simp at hn; omega⟩
    simp only [List.nil_append] at hq
    obtain ⟨c', more, hp, hev, _, _, _, _, _, hshape⟩ :=
      process_step c (.change ⟨ref, ""⟩) post hq
    obtain ⟨tail, htail⟩ := hshape ⟨ref, ""⟩ rfl
    obtain ⟨more', hm⟩ := processAll_grows m c'
    have hlen : c.queue.Len > 0 := by simp [WorkQueue.Len, hq]
    refine ⟨more ++ more', ?_, ?_⟩
    · simp only [processAll, hlen, if_true, hp]
      rw [hm, hev, List.append_assoc]
    · rw [htail]
      simp [handleTail, hh]
  | cons y pre' ih =>
    intro c n hq hh hn
    obtain ⟨m, rfl⟩ : ∃ m, n = m + 1 := ⟨n - 1, by simp at hn; omega⟩
    simp only [List.cons_append] at hq
    obtain ⟨c', more, hp, hev, hq', hh', _⟩ := process_step c y _ hq
    obtain ⟨more', hm, hmem⟩ := ih c' m hq' (by rw [hh']; exact hh)
      (by simp at hn; omega)
    have hlen : c.queue.Len > 0 := by simp [WorkQueue.Len, hq]
    refine ⟨more ++ more', ?_, List.mem_append_right _ hmem⟩
    simp only [processAll, hlen, if_true, hp]
    rw [hm, hev, List.append_assoc]

theorem CallbackAfter_zero (c : EventProcessor) (fn : Callback) (ctx : String)
    (hs : c.queue.shuttingDown = false)
    (hd : Item.change ⟨c.nextRef, ""⟩ ∉ c.queue.dirty)
    (hp : Item.change ⟨c.nextRef, ""⟩ ∉ c.queue.processing) :
    (c.CallbackAfter 0 fn ctx).queue.queue = c.queue.queue ++ [.change ⟨c.nextRef, ""⟩] ∧
      (c.CallbackAfter 0 fn ctx).queue.dirty = c.queue.dirty ++ [.change ⟨c.nextRef, ""⟩] ∧
      (c.CallbackAfter 0 fn ctx).handlers c.nextRef = .callback fn ctx ∧
      (c.CallbackAfter 0 fn ctx).nextRef = c.nextRef + 1 ∧
      (c.CallbackAfter 0 fn ctx).events = c.events := by
  simp [CallbackAfter, WorkQueue.AddAfter, WorkQueue.Add, hs, hd, hp]

/-- Claim C17. A call `CallbackAfter(0, fn, ctx)` on a running processor puts
the callback event behind the items that are pending at that time; processing
the queue then calls `fn` with `ctx`. Whatever happens afterwards
(notifications, further callbacks, registrations, calls of `process`, the
passing of time, `Stop`), the handler of an event that was not pending at the
time of the call, and so was enqueued after it, is only entered after `fn`
has been called with `ctx`: the queue is served in the order of enqueuing. -/
theorem zero_delay_callback_runs_before_later_events (c : EventProcessor) (fn : Callback)
    (ctx : String) (hs : c.queue.shuttingDown = false)
    (hd : Item.change ⟨c.nextRef, ""⟩ ∉ c.queue.dirty)
    (hp : Item.change ⟨c.nextRef, ""⟩ ∉ c.queue.processing) :
    ∀ c1 : EventProcessor, c1 = c.CallbackAfter 0 fn ctx →
      c1.queue.queue = c.queue.queue ++ [.change ⟨c.nextRef, ""⟩] ∧
      (∃ more, c1.TestProcessAll.events = c1.events ++ more ∧
        Event.callbackCall c.nextRef ctx ∈ more) ∧
      ∀ actions : List Action,
        (c1.actAll actions).handlers c.nextRef = .callback fn ctx ∧
        ∃ suffix, (c1.actAll actions).events = c1.events ++ suffix ∧
          ∀ s1 s2 evt, suffix = s1 ++ Event.handle evt :: s2 →
            Item.change evt ∉ c1.queue.queue → Event.callbackCall c.nextRef ctx ∈ s1 := by
  intro c1 hc1
  obtain ⟨hq, hdirty, hh, hn, _⟩ := CallbackAfter_zero c fn ctx hs hd hp
  rw [← hc1] at hq hdirty hh hn
  have hcb : Item.change ⟨c.nextRef, ""⟩ ∈ c1.queue.queue := by rw [hq]; simp
  refine ⟨hq, ?_, ?_⟩
  · unfold TestProcessAll
    exact processAll_reaches c.nextRef fn ctx [] c.queue.queue c1 _ hq hh
      (by simp [WorkQueue.Len, hq])
  · intro actions
    have hstart : CallbackOrder c1.events c1.queue.queue c.nextRef fn ctx c1 := by
      refine ⟨⟨hh, by rw [hn]; exact Nat.lt_succ_self _⟩, [], by simp, Or.inr ⟨?_, ?_⟩⟩
      · intro evt he; simp at he
      · exact ⟨c.queue.queue, [], hq, fun y hy => by rw [hq]; simp [hy],
          by rw [hdirty]; simp⟩
    obtain ⟨hhold, suffix, hev, hphase⟩ :=
      actAll_order c1.events c1.queue.queue c.nextRef fn ctx hcb actions c1 hstart
    refine ⟨hhold.1, suffix, hev, ?_⟩
    rcases hphase with ⟨p, m2, hsuf, hp'⟩ | ⟨hall, _⟩
    · rw [hsuf]
      exact handled_after_of_prefix c1.queue.queue _ (by simp) p m2 hp'
    · intro s1 s2 evt heq hlate
      exact absurd (hall evt (by rw [heq]; simp)) hlate

/-- The statement of C17 at `exSucceedingProc`, where `exEvt` is pending: after
`CallbackAfter(0, fn, "ctx")` an add notification for another object arrives
and `process` is called three times; the record shows the pending event, then
the callback, then the event of the later notification. -/
theorem zero_delay_callback_runs_before_later_events_witness :
    (({ exSucceedingProc with nextRef := 1 } : EventProcessor).CallbackAfter 0
        (fun _ _ => none) "ctx").queue.queue = [.change exEvt, .change ⟨1, ""⟩] ∧
      ((({ exSucceedingProc with nextRef := 1 } : EventProcessor).CallbackAfter 0
          (fun _ _ => none) "ctx").actAll
        [.notify 0 (.add (.object ⟨"ns2", "b", 1⟩)), .dispatch, .dispatch,
         .dispatch]).events.filter
          (fun e => e = .callbackCall 1 "ctx" ∨ e = .handle ⟨0, "ns2/b"⟩ ∨ e = .handle exEvt)
        = [.handle exEvt, .callbackCall 1 "ctx", .handle ⟨0, "ns2/b"⟩] := by
  have h := zero_delay_callback_runs_before_later_events
    ({ exSucceedingProc with nextRef := 1 } : EventProcessor) (fun _ _ => none) "ctx" rfl
    (by decide) (by decide) _ rfl
  exact ⟨h.1, by rfl⟩

end EventProcessor
end Watchers

namespace Watchers
namespace EventProcessor

theorem processAll_empties (n : Nat) :
    ∀ c : EventProcessor, c.queue.Len ≤ n → (processAll n c).queue.Len = 0 := by
  induction n with
  | zero => intro c h; simpa [processAll] using h
  | succ n ih =>
    intro c h
    cases hq : c.queue.queue with
    | nil =>
      have h0 : c.queue.Len = 0 := by simp [WorkQueue.Len, hq]
      simp [processAll, h0]
    | cons obj rest =>
      obtain ⟨c', more, hp, _, hq', _⟩ := process_step c obj rest hq
      have hlen : c.queue.Len > 0 := by simp [WorkQueue.Len, hq]
      simp only [processAll, hlen, if_true, hp]
      apply ih
      simp only [WorkQueue.Len, hq, List.length_cons] at h
      simp only [WorkQueue.Len, hq']
      omega

/-- The loop of `TestProcessAll` ends with nothing pending: the bound on its
iterations is never what stops it. -/
theorem TestProcessAll_empties (c : EventProcessor) : c.TestProcessAll.queue.Len = 0 :=
  processAll_empties _ c (le_refl _)

end EventProcessor
end Watchers

namespace Watchers
namespace EventProcessor

/-- The statement of C19 at a watcher that has just been registered (empty
mirror, empty list that is not nil) and after the object `exObj` was added. -/
theorem watcher_list_is_mirror_list_witness :
    Watcher.List (exEmptyProc.watch .Site exSucceeding).2 0 = some [] ∧
      Watcher.List ((exEmptyProc.watch .Site exSucceeding).2.informerAdd 0 exObj) 0
        = some [exObj] :=
  ⟨(watcher_list_is_mirror_list (exEmptyProc.watch .Site exSucceeding).2 0).2.2.2.2 rfl,
   (watcher_list_is_mirror_list
      ((exEmptyProc.watch .Site exSucceeding).2.informerAdd 0 exObj) 0).1⟩

end EventProcessor
end Watchers

namespace Watchers
namespace EventProcessor

/-- Claim C21. A call `CallbackAfter(delay, callback, context)` allocates a
`CallbackHandler` that carries exactly that callback and context and hands
the `ResourceChange` with that handler and an empty key to `queue.AddAfter`
with the delay (on a running queue: queued at once when the delay is not
positive, among the delayed additions otherwise); no other handler value
changes. For every event, `Handle` of such a handler calls the callback
exactly once, with the context and not with the event, and returns what the
callback returns. -/
theorem callbackAfter_enqueues_callback_handler (c : EventProcessor) (delay : Int)
    (callback : Callback) (context : String) :
    (c.CallbackAfter delay callback context).handlers c.nextRef = .callback callback context ∧
    (c.CallbackAfter delay callback context).queue =
      c.queue.AddAfter (.change { Handler := c.nextRef, Key := "" }) delay ∧
    (∀ r, r ≠ c.nextRef → (c.CallbackAfter delay callback context).handlers r = c.handlers r) ∧
    (c.queue.shuttingDown = false → delay ≤ 0 →
      Item.change ⟨c.nextRef, ""⟩ ∉ c.queue.dirty →
      Item.change ⟨c.nextRef, ""⟩ ∉ c.queue.processing →
      (c.CallbackAfter delay callback context).queue.queue =
        c.queue.queue ++ [.change ⟨c.nextRef, ""⟩]) ∧
    (c.queue.shuttingDown = false → 0 < delay →
      ∃ w ∈ (c.CallbackAfter delay callback context).queue.waiting,
        w.data = .change ⟨c.nextRef, ""⟩) ∧
    (∀ (d : EventProcessor) (evt : ResourceChange),
      d.handlers evt.Handler = .callback callback context →
      d.Handle evt =
        (callback (d.events ++ [.handle evt]) context,
         { d with events := d.events ++ [.handle evt, .callbackCall evt.Handler context] })) ∧
    (∀ f : String → Option Error, callback = (fun _ x => f x) →
      ∀ (d : EventProcessor) (evt : ResourceChange),
        d.handlers evt.Handler = .callback callback context → (d.Handle evt).1 = f context) := by
  refine ⟨?_, rfl, ?_, ?_, ?_, ?_, ?_⟩
  · simp [CallbackAfter]
  · intro r hr; simp [CallbackAfter, hr]
  · intro hs hd hdirty hproc
    simp [CallbackAfter, WorkQueue.AddAfter, WorkQueue.Add, hs, hd, hdirty, hproc]
  · intro hs hd
    have hnot : ¬ delay ≤ 0 := by omega
    simp only [CallbackAfter, WorkQueue.AddAfter, hs, hnot, if_false]
    exact WorkQueue.exists_mem_insertWaiting _ _
  · intro d evt hh
    simp [Handle, record, hh]
  · intro f hf d evt hh
    subst hf
    simp [Handle, record, hh]

/-- The statement of C21 at `exEmptyProc`: the handler allocated by
`CallbackAfter(0, fn, "ctx")` is reference 0, its event is pending with an
empty key, and `Handle` of an event with another key records one call of the
callback with the context and returns its result. -/
theorem callbackAfter_enqueues_callback_handler_witness :
    (exEmptyProc.CallbackAfter 0 (fun _ x => some x) "ctx").queue.queue = [.change ⟨0, ""⟩] ∧
      ((exEmptyProc.CallbackAfter 0 (fun _ x => some x) "ctx").Handle ⟨0, "ns1/a"⟩).1
        = some "ctx" ∧
      ((exEmptyProc.CallbackAfter 0 (fun _ x => some x) "ctx").Handle ⟨0, "ns1/a"⟩).2.events
        = [.handle ⟨0, "ns1/a"⟩, .callbackCall 0 "ctx"] := by
  have h := callbackAfter_enqueues_callback_handler exEmptyProc 0 (fun _ x => some x) "ctx"
  have h6 := h.2.2.2.2.2.1 (exEmptyProc.CallbackAfter 0 (fun _ x => some x) "ctx")
    ⟨0, "ns1/a"⟩ h.1
  refine ⟨h.2.2.2.1 rfl (le_refl 0) (by decide) (by decide), ?_, ?_⟩
  · rw [h6]
  · rw [h6]; rfl

/-- Claim C26. When the key of the notified object cannot be computed, each of
the add, update and delete callbacks built by `newEventHandler` only reports
the error to `HandleError`: nothing is enqueued, the queue is exactly as it
was. -/
theorem newEventHandler_skips_object_without_key (handler : HandlerRef) (obj : Notified)
    (err : Error) (c : EventProcessor) (hk : MetaNamespaceKeyFunc obj = .error err) :
    (newEventHandler handler).AddFunc obj c = c.record (.handleError err) ∧
    (∀ old, (newEventHandler handler).UpdateFunc old obj c = c.record (.handleError err)) ∧
    (newEventHandler handler).DeleteFunc obj c = c.record (.handleError err) ∧
    (c.record (.handleError err)).queue = c.queue := by
  refine ⟨?_, ?_, ?_, rfl⟩
  · simp [newEventHandler, hk]
  · intro old; simp [newEventHandler, hk]
  · simp [newEventHandler, hk]

/-- The statement of C26 at a delete notification that carries a value without
object metadata, on `exFailingProc`: its pending event is all the queue holds. -/
theorem newEventHandler_skips_object_without_key_witness :
    MetaNamespaceKeyFunc (.noMeta 3) = .error "object has no meta" ∧
      ((newEventHandler 0).DeleteFunc (.noMeta 3) exFailingProc).queue.queue = [.change exEvt] ∧
      ((newEventHandler 0).AddFunc (.noMeta 3) exFailingProc).queue.dirty = [.change exEvt] := by
  have h := newEventHandler_skips_object_without_key 0 (.noMeta 3) "object has no meta"
    exFailingProc rfl
  refine ⟨rfl, ?_, ?_⟩
  · rw [h.2.2.1]; rfl
  · rw [h.1]; rfl

/-- Claim C25. For every watcher, when the lookup of `event.Key` in the mirror
fails with error `e`, `Handle(event)` returns `e` and does not call the
domain handler. `process` then does what it does for a handler failure: it
logs the error and, with fewer than 5 retries counted, re-inserts the event
through `AddRateLimited` and counts one more retry; otherwise it forgets the
event. -/
theorem lookup_failure_is_retried (c : EventProcessor) (evt : ResourceChange)
    (kind : WatcherKind) (handler : DomainHandler) (e : Error) (rest : List Item)
    (hh : c.handlers evt.Handler = .watcher kind handler)
    (hl : (c.stores evt.Handler).GetByKey evt.Key = .failed e) :
    c.Handle evt = (some e, c.record (.handle evt)) ∧
    (c.queue.queue = .change evt :: rest →
      ∃ c', c.process = some (true, c') ∧
        (c.queue.NumRequeues (.change evt) < 5 →
          c'.events = c.events ++
            [.handle evt, .logError c.errorKey (kind.label ++ " " ++ evt.Key) e,
             .addRateLimited (.change evt), .done (.change evt)] ∧
          c'.queue = ((c.queue.handOut (.change evt) rest).AddRateLimited (.change evt)).Done
            (.change evt) ∧
          c'.queue.NumRequeues (.change evt) = c.queue.NumRequeues (.change evt) + 1) ∧
        (¬ c.queue.NumRequeues (.change evt) < 5 →
          c'.events = c.events ++
            [.handle evt, .logError c.errorKey (kind.label ++ " " ++ evt.Key) e,
             .forget (.change evt), .done (.change evt)] ∧
          c'.queue.queue = rest ∧ c'.queue.waiting = c.queue.waiting ∧
          c'.queue.NumRequeues (.change evt) = 0)) := by
  have hH : c.Handle evt = (some e, c.record (.handle evt)) := by
    simp [Handle, Get, record, hh, hl]
  refine ⟨hH, ?_⟩
  intro hq
  have herr : (c.Handle evt).1 = some e := by rw [hH]
  have htail : handleTail c evt = [] := by simp [handleTail, hh, hl]
  have hdesc : c.Describe evt = kind.label ++ " " ++ evt.Key := by simp [Describe, hh]
  have hnd := WorkQueue.not_mem_dirty_handOut c.queue (.change evt) rest
  by_cases hn : c.queue.failures (.change evt) < 5
  · refine ⟨_, process_retry c evt rest e hq herr hn, fun _ => ⟨?_, rfl, ?_⟩,
      fun hc => absurd hn hc⟩
    · simp [htail, hdesc]
    · have hnd' : Item.change evt ∉
          ((c.queue.handOut (.change evt) rest).AddRateLimited (.change evt)).dirty := by
        rw [WorkQueue.AddRateLimited_dirty]; exact hnd
      show WorkQueue.failures _ _ = _
      rw [WorkQueue.Done_of_not_dirty _ _ hnd']
      show WorkQueue.failures (WorkQueue.AddRateLimited _ _) _ = _
      rw [WorkQueue.AddRateLimited_failures]
      simp [WorkQueue.handOut, WorkQueue.NumRequeues]
  · refine ⟨_, process_drop c evt rest e hq herr hn, fun hc => absurd hc hn,
      fun _ => ⟨?_, ?_, ?_, ?_⟩⟩
    · simp [htail, hdesc]
    · simp [WorkQueue.Done, WorkQueue.Forget, WorkQueue.handOut]
    · simp [WorkQueue.Done, WorkQueue.Forget, WorkQueue.handOut]
    · simp [WorkQueue.Done, WorkQueue.Forget, WorkQueue.handOut, WorkQueue.NumRequeues]

/-- The statement of C25 at `exSucceedingProc` with mirrors that fail every
lookup: the handler would succeed, but the event is re-inserted and no call
of the domain handler is recorded. -/
theorem lookup_failure_is_retried_witness :
    (({ exSucceedingProc with
          stores := fun _ => { GetByKey := fun _ => .failed "unavailable" },
          queue := { queue := [.change exEvt], dirty := [.change exEvt] } } :
        EventProcessor).Handle exEvt).1 = some "unavailable" ∧
      ∃ c', ({ exSucceedingProc with
          stores := fun _ => { GetByKey := fun _ => .failed "unavailable" },
          queue := { queue := [.change exEvt], dirty := [.change exEvt] } } :
        EventProcessor).process = some (true, c') ∧
        c'.events = [.handle exEvt, .logError "Error" "Secret ns1/a" "unavailable",
                     .addRateLimited (.change exEvt), .done (.change exEvt)] ∧
        c'.queue.NumRequeues (.change exEvt) = 1 := by
  have h := lookup_failure_is_retried
    ({ exSucceedingProc with
          stores := fun _ => { GetByKey := fun _ => .failed "unavailable" },
          queue := { queue := [.change exEvt], dirty := [.change exEvt] } } : EventProcessor)
    exEvt .Secret exSucceeding "unavailable" [] rfl rfl
  obtain ⟨c', hp, hlt, _⟩ := h.2 rfl
  have h3 := hlt (by decide)
  exact ⟨by rw [h.1], c', hp, h3.1, h3.2.2⟩

end EventProcessor
end Watchers

namespace Watchers
namespace EventProcessor

theorem process_processing (c : EventProcessor) (obj : Item) (rest : List Item)
    (h : c.queue.queue = obj :: rest) :
    ∃ c', c.process = some (true, c') ∧
      c'.queue.processing = c.queue.processing.filter (fun x => x ≠ obj) := by
  obtain ⟨c', hp, hcases⟩ := process_queue_cases c obj rest h
  refine ⟨c', hp, ?_⟩
  have hnd := WorkQueue.not_mem_dirty_handOut c.queue obj rest
  rcases hcases with hc | hc
  · rw [hc]
    simp [WorkQueue.Done, WorkQueue.Forget, WorkQueue.handOut, List.filter_append]
  · have hnd' : obj ∉ ((c.queue.handOut obj rest).AddRateLimited obj).dirty := by
      rw [WorkQueue.AddRateLimited_dirty]; exact hnd
    rw [hc, WorkQueue.Done_of_not_dirty _ _ hnd']
    show List.filter _ (WorkQueue.processing (WorkQueue.AddRateLimited _ _)) = _
    rw [WorkQueue.AddRateLimited_processing]
    simp [WorkQueue.handOut, List.filter_append]

theorem process_tail_done (c : EventProcessor) (obj : Item) (rest : List Item)
    (h : c.queue.queue = obj :: rest) :
    ∃ c' front, c.process = some (true, c') ∧
      c'.events = c.events ++ (front ++ [.done obj]) ∧ ∀ x, Event.done x ∉ front := by
  cases obj with
  | other tag =>
    exact ⟨_, [.logInvalid c.errorKey (.other tag), .forget (.other tag)],
      process_other c tag rest h, by simp, by simp⟩
  | change evt =>
    have hno : ∀ x, Event.done x ∉ handleTail c evt := by
      intro x hx
      have := count_handleTail c evt (.done x) (by simp) (by simp)
      exact (List.count_eq_zero.mp this) hx
    cases herr : (c.Handle evt).1 with
    | none =>
      refine ⟨_, .handle evt :: handleTail c evt ++ [.forget (.change evt)],
        process_ok c evt rest h herr, by simp, ?_⟩
      intro x hx
      have hx' : Event.done x ∈ handleTail c evt := by simpa using hx
      exact hno x hx'
    | some err =>
      by_cases hn : c.queue.failures (.change evt) < 5
      · refine ⟨_, .handle evt :: handleTail c evt ++
            [.logError c.errorKey (c.Describe evt) err, .addRateLimited (.change evt)],
          process_retry c evt rest err h herr hn, by simp, ?_⟩
        intro x hx
        have hx' : Event.done x ∈ handleTail c evt := by simpa using hx
        exact hno x hx'
      · refine ⟨_, .handle evt :: handleTail c evt ++
            [.logError c.errorKey (c.Describe evt) err, .forget (.change evt)],
          process_drop c evt rest err h herr hn, by simp, ?_⟩
        intro x hx
        have hx' : Event.done x ∈ handleTail c evt := by simpa using hx
        exact hno x hx'

/-- Claim C24. Every call of `process` that dequeues an item marks that item,
and no other, as done, exactly once and as its last step, on every path
(handler success, handler error with re-insertion, handler error with drop,
malformed item). The item is not among the items being processed afterwards,
and when nothing else was being processed nothing is. -/
theorem process_marks_item_done_once (c : EventProcessor) (obj : Item) (rest : List Item)
    (h : c.queue.queue = obj :: rest) :
    ∃ c' more, c.process = some (true, c') ∧ c'.events = c.events ++ more ∧
      more.count (.done obj) = 1 ∧ (∀ x, Event.done x ∈ more → x = obj) ∧
      more.getLast? = some (.done obj) ∧
      obj ∉ c'.queue.processing ∧
      c'.queue.processing = c.queue.processing.filter (fun x => x ≠ obj) ∧
      (c.queue.processing = [] → c'.queue.processing = []) := by
  obtain ⟨c', front, hp, hev, hfront⟩ := process_tail_done c obj rest h
  obtain ⟨c'', hp', hproc⟩ := process_processing c obj rest h
  have hcc : c'' = c' := by
    rw [hp] at hp'
    exact ((Prod.mk.inj (Option.some.inj hp')).2).symm
  subst hcc
  refine ⟨c'', front ++ [.done obj], hp, hev, ?_, ?_, List.getLast?_concat _, ?_, hproc, ?_⟩
  · rw [List.count_append, List.count_eq_zero.mpr (hfront obj)]
    simp
  · intro x hx
    rcases List.mem_append.mp hx with hx | hx
    · exact absurd hx (hfront x)
    · simpa using hx
  · rw [hproc]; simp
  · intro he; rw [hproc, he]; rfl

/-- The statement of C24 at `exFailingProc` (handler error, re-insertion) and
at `exMalformedProc` (malformed item): `Done` is the last step recorded and
nothing is left in processing. -/
theorem process_marks_item_done_once_witness :
    (∃ c', exFailingProc.process = some (true, c') ∧
        c'.events.getLast? = some (.done (.change exEvt)) ∧ c'.queue.processing = []) ∧
      (∃ c', exMalformedProc.process = some (true, c') ∧
        c'.events.count (.done (.other 1)) = 1 ∧ c'.queue.processing = []) := by
  obtain ⟨c1, m1, hp1, he1, _, _, hl1, _, _, hq1⟩ :=
    process_marks_item_done_once exFailingProc (.change exEvt) [] rfl
  obtain ⟨c2, m2, hp2, he2, hc2, _, _, _, _, hq2⟩ :=
    process_marks_item_done_once exMalformedProc (.other 1) [.change exEvt] rfl
  refine ⟨⟨c1, hp1, ?_, hq1 rfl⟩, ⟨c2, hp2, ?_, hq2 rfl⟩⟩
  · rw [he1]
    show ([] ++ m1).getLast? = _
    rw [List.nil_append]; exact hl1
  · rw [he2]
    show ([] ++ m2).count _ = 1
    rw [List.nil_append]; exact hc2

end EventProcessor

theorem splitChars_length (sep : Char) (l : List Char) :
    (splitChars sep l).length = l.count sep + 1 := by
  induction l with
  | nil => rfl
  | cons ch rest ih =>
    unfold splitChars
    by_cases hc : ch = sep
    · subst hc
      simp [ih]
    · rw [if_neg hc]
      have hne : (ch == sep) = false := by simpa using hc
      cases hs : splitChars sep rest with
      | nil => rw [hs] at ih; simp at ih
      | cons piece pieces =>
        rw [hs] at ih
        simp only [List.length_cons] at ih ⊢
        rw [List.count_cons, hne]
        simpa using ih

theorem SplitMetaNamespaceKey_not_two_parts (key : String) (h : key.data.count '/' ≠ 1) :
    (SplitMetaNamespaceKey key).1 = "" := by
  have hlen := splitChars_length '/' key.data
  unfold SplitMetaNamespaceKey
  cases hs : splitChars '/' key.data with
  | nil => rfl
  | cons a t =>
    cases t with
    | nil => rfl
    | cons b t' =>
      cases t' with
      | nil =>
        rw [hs] at hlen
        simp only [List.length_cons, List.length_nil] at hlen
        exact absurd (by omega) h
      | cons c'' t'' => rfl

/-- Claim C27. With a nil predicate `FilterByNamespace` returns the handler
itself. With a predicate that is not nil, a key without `/` and a key with
more than one `/` are filtered as the namespace `""` (the error of the split
is ignored): the handler is called exactly when the predicate holds of `""`,
and it is then called with the key as it was given. -/
theorem filterByNamespace_nil_and_odd_keys {σ V : Type} (handler : KeyHandler σ V) :
    FilterByNamespace none handler = handler ∧
    ∀ (m : String → Bool) (key : String) (value : V) (s : σ),
      (key.data.count '/' = 0 ∨ 1 < key.data.count '/') →
      (SplitMetaNamespaceKey key).1 = "" ∧
      (m "" = true → FilterByNamespace (some m) handler key value s = handler key value s) ∧
      (m "" = false → FilterByNamespace (some m) handler key value s = (none, s)) := by
  refine ⟨rfl, ?_⟩
  intro m key value s hk
  have hns : (SplitMetaNamespaceKey key).1 = "" :=
    SplitMetaNamespaceKey_not_two_parts key (by omega)
  refine ⟨hns, ?_, ?_⟩
  · intro hm
    simp only [FilterByNamespace]
    rw [hns, if_pos hm]
  · intro hm
    simp only [FilterByNamespace]
    rw [hns, if_neg (by rw [hm]; simp)]

/-- The statement of C27 for a handler that records the keys it is called
with and a predicate that holds of `""` only: called with the keys `a` and
`a/b/c` as given, not called with `ns1/a`. -/
theorem filterByNamespace_nil_and_odd_keys_witness :
    FilterByNamespace (some (fun ns => ns == ""))
        (fun key (_ : Nat) (calls : List String) => (none, calls ++ [key])) "a" 0 []
        = (none, ["a"]) ∧
      FilterByNamespace (some (fun ns => ns == ""))
        (fun key (_ : Nat) (calls : List String) => (none, calls ++ [key])) "a/b/c" 0 []
        = (none, ["a/b/c"]) ∧
      FilterByNamespace (some (fun ns => ns == ""))
        (fun key (_ : Nat) (calls : List String) => (none, calls ++ [key])) "ns1/a" 0 []
        = (none, []) := by
  have h := (filterByNamespace_nil_and_odd_keys
    (fun key (_ : Nat) (calls : List String) => ((none : Option Error), calls ++ [key]))).2
    (fun ns => ns == "")
  exact ⟨(h "a" 0 [] (by decide)).2.1 (by decide),
    (h "a/b/c" 0 [] (by decide)).2.1 (by decide), by rfl⟩

end Watchers

namespace Nonkube

theorem errorsJoin_singleton (e : Watchers.Error) : errorsJoin [e] = some e := by
  unfold errorsJoin
  rw [if_neg (by simp)]
  rfl

theorem errorsJoin_nil : errorsJoin [] = none := rfl

namespace CmdSiteCreate

/-- Claim C28. The method `ValidateInput` returns a nil error if and only if
`args` has exactly one element, that element is not empty and the resource
name validator accepts it. An empty list and an empty first element, also
when more elements follow, give `site name must not be empty`; more than one
element with a first element that is not empty gives `only one argument is
allowed for this command`. The field `siteName` is assigned, to `args[0]`,
in the case of a single argument that is not empty, whether the validator
accepts it or not, and in no other case, where the command is left as it is. -/
theorem validateInput_cases (env : Env) (cmd : CmdSiteCreate) (args : List String) :
    ((ValidateInput env cmd args).1 = none ↔
      ∃ a, args = [a] ∧ a ≠ "" ∧ (env.Evaluate a).1 = true) ∧
    (args = [] → (ValidateInput env cmd args).1 = some "site name must not be empty") ∧
    (∀ rest, args = "" :: rest →
      (ValidateInput env cmd args).1 = some "site name must not be empty") ∧
    (∀ a b rest, args = a :: b :: rest → a ≠ "" →
      (ValidateInput env cmd args).1 = some "only one argument is allowed for this command") ∧
    (∀ a, args = [a] → a ≠ "" →
      (ValidateInput env cmd args).2.1 = { cmd with siteName := a }) ∧
    ((¬ ∃ a, args = [a] ∧ a ≠ "") → (ValidateInput env cmd args).2.1 = cmd) := by
  cases args with
  | nil =>
    refine ⟨?_, ?_, ?_, ?_, ?_, ?_⟩
    · simp [ValidateInput, errorsJoin_singleton, errorsJoin_nil]
    · intro _; simp [ValidateInput, errorsJoin_singleton, errorsJoin_nil]
    · intro rest h; cases h
    · intro a b rest h; cases h
    · intro a h; cases h
    · intro _; simp [ValidateInput]
  | cons a0 t =>
    by_cases h0 : a0 = ""
    · subst h0
      refine ⟨?_, ?_, ?_, ?_, ?_, ?_⟩
      · simp [ValidateInput, errorsJoin_singleton, errorsJoin_nil]
      · intro h; cases h
      · intro rest _; simp [ValidateInput, errorsJoin_singleton, errorsJoin_nil]
      · intro a b rest h ha
        exact absurd (List.cons.inj h).1.symm ha
      · intro a h ha
        exact absurd (List.cons.inj h).1.symm ha
      · intro _; simp [ValidateInput]
    · cases t with
      | cons b rest =>
        refine ⟨?_, ?_, ?_, ?_, ?_, ?_⟩
        · simp [ValidateInput, errorsJoin_singleton, errorsJoin_nil, h0]
        · intro h; cases h
        · intro r h; exact absurd (List.cons.inj h).1 h0
        · intro a b' r _ _; simp [ValidateInput, errorsJoin_singleton, errorsJoin_nil, h0]
        · intro a h; simp at h
        · intro _; simp [ValidateInput, h0]
      | nil =>
        refine ⟨?_, ?_, ?_, ?_, ?_, ?_⟩
        · cases hok : (env.Evaluate a0).1 <;>
            simp [ValidateInput, errorsJoin_singleton, errorsJoin_nil, h0, hok]
        · intro h; cases h
        · intro r h; exact absurd (List.cons.inj h).1 h0
        · intro a b r h; simp at h
        · intro a h _
          have : a0 = a := by simpa using h
          subst this
          simp [ValidateInput, h0]
        · intro hne
          exact absurd ⟨a0, rfl, h0⟩ hne

/-- The statement of C28 with a validator that accepts `my-site` and rejects
`my site`: the accepted name gives no error; the rejected one gives an error
and is assigned to `siteName` all the same; an empty first argument before
another one gives the message for an empty name. -/
theorem validateInput_cases_witness :
    (ValidateInput exEnv {} ["my-site"]).1 = none ∧
      (ValidateInput exEnv {} ["my site"]).2.1.siteName = "my site" ∧
      (ValidateInput exEnv {} ["my site"]).1 ≠ none ∧
      (ValidateInput exEnv {} ["", "x"]).1 = some "site name must not be empty" ∧
      (ValidateInput exEnv {} ["a", "x"]).1 =
        some "only one argument is allowed for this command" := by
  refine ⟨?_, ?_, ?_, ?_, ?_⟩
  · exact (validateInput_cases exEnv {} ["my-site"]).1.mpr ⟨"my-site", rfl, by decide, by decide⟩
  · rw [(validateInput_cases exEnv {} ["my site"]).2.2.2.2.1 "my site" rfl (by decide)]
  · intro h
    obtain ⟨a, ha, _, hok⟩ := (validateInput_cases exEnv {} ["my site"]).1.mp h
    have : a = "my site" := by simpa using ha.symm
    subst this
    revert hok
    decide
  · exact (validateInput_cases exEnv {} ["", "x"]).2.2.1 ["x"] rfl
  · exact (validateInput_cases exEnv {} ["a", "x"]).2.2.2.1 "a" "x" [] rfl (by decide)

/-- Claim C29. The method `InputToOptions` sets `namespace` to `default` when
it is empty and leaves any other namespace as it is. When `EnableLinkAccess`
is set it sets `linkAccessEnabled` to true and `routerAccessName` to
`router-access-` followed by `siteName` (and takes the subject alternative
names `GetSansByDefault` returns); when it is not set, `linkAccessEnabled`,
`routerAccessName` and `subjectAlternativeNames` are left unchanged. The
site name is never changed. -/
theorem inputToOptions_effect (env : Env) (cmd : CmdSiteCreate) :
    (cmd.namespace_ = "" → (InputToOptions env cmd).1.namespace_ = "default") ∧
    (cmd.namespace_ ≠ "" → (InputToOptions env cmd).1.namespace_ = cmd.namespace_) ∧
    (cmd.Flags.EnableLinkAccess = true →
      (InputToOptions env cmd).1.linkAccessEnabled = true ∧
      (InputToOptions env cmd).1.routerAccessName = "router-access-" ++ cmd.siteName ∧
      (InputToOptions env cmd).1.subjectAlternativeNames = env.GetSansByDefault.1) ∧
    (cmd.Flags.EnableLinkAccess = false →
      (InputToOptions env cmd).1.linkAccessEnabled = cmd.linkAccessEnabled ∧
      (InputToOptions env cmd).1.routerAccessName = cmd.routerAccessName ∧
      (InputToOptions env cmd).1.subjectAlternativeNames = cmd.subjectAlternativeNames) ∧
    (InputToOptions env cmd).1.siteName = cmd.siteName := by
  refine ⟨?_, ?_, ?_, ?_, ?_⟩
  · intro hn
    cases hf : cmd.Flags.EnableLinkAccess <;> simp [InputToOptions, hf, hn]
  · intro hn
    cases hf : cmd.Flags.EnableLinkAccess <;> simp [InputToOptions, hf, hn]
  · intro hf
    by_cases hn : cmd.namespace_ = "" <;> simp [InputToOptions, hf, hn]
  · intro hf
    by_cases hn : cmd.namespace_ = "" <;> simp [InputToOptions, hf, hn]
  · cases hf : cmd.Flags.EnableLinkAccess <;>
      by_cases hn : cmd.namespace_ = "" <;> simp [InputToOptions, hf, hn]

/-- The statement of C29 for the site `s` with link access enabled and no
namespace, and for the namespace `west` without link access. -/
theorem inputToOptions_effect_witness :
    (InputToOptions exEnv { Flags := { EnableLinkAccess := true }, siteName := "s" }).1.namespace_
        = "default" ∧
      (InputToOptions exEnv
        { Flags := { EnableLinkAccess := true }, siteName := "s" }).1.routerAccessName
        = "router-access-s" ∧
      (InputToOptions exEnv { namespace_ := "west", routerAccessName := "old" }).1.namespace_
        = "west" ∧
      (InputToOptions exEnv { namespace_ := "west", routerAccessName := "old" }).1.routerAccessName
        = "old" := by
  have h1 := inputToOptions_effect exEnv { Flags := { EnableLinkAccess := true }, siteName := "s" }
  have h2 := inputToOptions_effect exEnv { namespace_ := "west", routerAccessName := "old" }
  exact ⟨h1.1 rfl, (h1.2.2.1 rfl).2.1, h2.2.1 (by decide), (h2.2.2.2.1 rfl).2.1⟩

/-- Claim C30. The method `Run` first adds the Site resource, named `siteName`
in `namespace`. When that fails it returns the error and makes no other call.
The RouterAccess resource, named `routerAccessName` with the roles
`inter-router` on port 55671 and `edge` on port 45671, is added if and only if
the Site was added and `linkAccessEnabled` is true. `Run` returns nil exactly
when every `Add` it called succeeded. -/
theorem run_adds_site_then_router_access (env : Env) (cmd : CmdSiteCreate) :
    (Run env cmd).2.head? = some (.site cmd.siteResource) ∧
    cmd.siteResource.Name = cmd.siteName ∧ cmd.siteResource.Namespace = cmd.namespace_ ∧
    (∀ err, env.siteAdd cmd.siteResource = some err →
      Run env cmd = (some err, [.site cmd.siteResource])) ∧
    (∀ resource, AddCall.routerAccess resource ∈ (Run env cmd).2 ↔
      resource = cmd.routerAccessResource ∧ env.siteAdd cmd.siteResource = none ∧
        cmd.linkAccessEnabled = true) ∧
    (∀ resource, AddCall.site resource ∈ (Run env cmd).2 ↔ resource = cmd.siteResource) ∧
    cmd.routerAccessResource.Name = cmd.routerAccessName ∧
    cmd.routerAccessResource.Roles =
      [{ Name := "inter-router", Port := 55671 }, { Name := "edge", Port := 45671 }] ∧
    ((Run env cmd).1 = none ↔ ∀ call ∈ (Run env cmd).2, env.result call = none) := by
  cases hs : env.siteAdd cmd.siteResource with
  | some e =>
    refine ⟨?_, rfl, rfl, ?_, ?_, ?_, rfl, rfl, ?_⟩
    · simp [Run, hs]
    · intro err he; cases he; simp [Run, hs]
    · intro resource; simp [Run, hs]
    · intro resource; simp [Run, hs]
    · simp [Run, hs, Env.result]
  | none =>
    cases hl : cmd.linkAccessEnabled with
    | false =>
      refine ⟨?_, rfl, rfl, ?_, ?_, ?_, rfl, rfl, ?_⟩
      · simp [Run, hs, hl]
      · intro err he; cases he
      · intro resource; simp [Run, hs, hl]
      · intro resource; simp [Run, hs, hl]
      · simp [Run, hs, hl, Env.result]
    | true =>
      cases hr : env.routerAccessAdd cmd.routerAccessResource with
      | some e =>
        refine ⟨?_, rfl, rfl, ?_, ?_, ?_, rfl, rfl, ?_⟩
        · simp [Run, hs, hl, hr]
        · intro err he; cases he
        · intro resource; simp [Run, hs, hl, hr]
        · intro resource; simp [Run, hs, hl, hr]
        · simp [Run, hs, hl, hr, Env.result]
      | none =>
        refine ⟨?_, rfl, rfl, ?_, ?_, ?_, rfl, rfl, ?_⟩
        · simp [Run, hs, hl, hr]
        · intro err he; cases he
        · intro resource; simp [Run, hs, hl, hr]
        · intro resource; simp [Run, hs, hl, hr]
        · simp [Run, hs, hl, hr, Env.result]

/-- The statement of C30 with a site handler that succeeds and a router access
handler that fails: with link access both resources are added and the error
is returned, without link access only the site is added and nil is returned. -/
theorem run_adds_site_then_router_access_witness :
    AddCall.routerAccess
        { APIVersion := "skupper.io/v2alpha1", Kind := "RouterAccess", Name := "ra",
          Namespace := "",
          Roles := [{ Name := "inter-router", Port := 55671 }, { Name := "edge", Port := 45671 }],
          SubjectAlternativeNames := none } ∈
      (Run exEnv { siteName := "s", linkAccessEnabled := true, routerAccessName := "ra" }).2 ∧
      (Run exEnv { siteName := "s", linkAccessEnabled := true, routerAccessName := "ra" }).1
        = some "disk full" ∧
      Run exEnv { siteName := "s" } =
        (none, [.site { APIVersion := "skupper.io/v2alpha1", Kind := "Site", Name := "s",
                        Namespace := "" }]) := by
  have h := run_adds_site_then_router_access exEnv
    { siteName := "s", linkAccessEnabled := true, routerAccessName := "ra" }
  exact ⟨(h.2.2.2.2.1 _).mpr ⟨rfl, rfl, rfl⟩, by rfl, by rfl⟩

end CmdSiteCreate
end Nonkube

namespace Watchers
namespace EventProcessor

theorem count_handleTail_callback (c : EventProcessor) (evt : ResourceChange)
    (r : HandlerRef) (ctx : String) :
    (handleTail c evt).count (.callbackCall r ctx) = callbackHits c r ctx (.change evt) := by
  cases hh : c.handlers evt.Handler with
  | watcher kind handler =>
    cases hl : (c.stores evt.Handler).GetByKey evt.Key <;>
      simp [handleTail, callbackHits, hh, hl]
  | callback cb context =>
    have ht : handleTail c evt = [.callbackCall evt.Handler context] := by
      simp [handleTail, hh]
    have hc : callbackHits c r ctx (.change evt) =
        if evt.Handler = r ∧ context = ctx then 1 else 0 := by
      simp [callbackHits, hh]
    rw [ht, hc]
    by_cases h : evt.Handler = r ∧ context = ctx
    · obtain ⟨h1, h2⟩ := h
      subst h1 h2
      simp
    · rw [if_neg h]
      apply List.count_eq_zero.mpr
      intro hm
      simp only [List.mem_singleton] at hm
      injection hm with h1 h2
      exact h ⟨h1.symm, h2.symm⟩

theorem process_count (c : EventProcessor) (obj : Item) (rest : List Item)
    (r : HandlerRef) (ctx : String) (h : c.queue.queue = obj :: rest) :
    ∃ c', c.process = some (true, c') ∧
      c'.events.count (.callbackCall r ctx) =
        c.events.count (.callbackCall r ctx) + callbackHits c r ctx obj ∧
      c'.queue.queue = rest ∧ c'.handlers = c.handlers := by
  obtain ⟨c', hp, hq, _⟩ := process_of_pending c obj rest h
  refine ⟨c', hp, ?_, hq, ?_⟩
  · cases obj with
    | other tag =>
      have hp' := process_other c tag rest h
      rw [hp] at hp'
      rw [(Prod.mk.inj (Option.some.inj hp')).2]
      simp [callbackHits, List.count_append, List.count_cons]
    | change evt =>
      have hc := count_handleTail_callback c evt r ctx
      cases herr : (c.Handle evt).1 with
      | none =>
        have hp' := process_ok c evt rest h herr
        rw [hp] at hp'
        rw [(Prod.mk.inj (Option.some.inj hp')).2]
        simp [List.count_append, List.count_cons, hc]
      | some err =>
        by_cases hn : c.queue.failures (.change evt) < 5
        · have hp' := process_retry c evt rest err h herr hn
          rw [hp] at hp'
          rw [(Prod.mk.inj (Option.some.inj hp')).2]
          simp [List.count_append, List.count_cons, hc]
        · have hp' := process_drop c evt rest err h herr hn
          rw [hp] at hp'
          rw [(Prod.mk.inj (Option.some.inj hp')).2]
          simp [List.count_append, List.count_cons, hc]
  · obtain ⟨c'', more, hp'', _, _, hh, _⟩ := process_step c obj rest h
    rw [hp] at hp''
    rw [(Prod.mk.inj (Option.some.inj hp'')).2]
    exact hh

theorem callbackHits_congr (c d : EventProcessor) (r : HandlerRef) (ctx : String)
    (h : d.handlers = c.handlers) : callbackHits d r ctx = callbackHits c r ctx := by
  funext item
  unfold callbackHits
  rw [h]

theorem processAll_count (r : HandlerRef) (ctx : String) (items : List Item) :
    ∀ (c : EventProcessor) (n : Nat), c.queue.queue = items → items.length ≤ n →
      (processAll n c).events.count (.callbackCall r ctx) =
        c.events.count (.callbackCall r ctx) + (items.map (callbackHits c r ctx)).sum := by
  induction items with
  | nil =>
    intro c n hq _
    have h0 : ¬ c.queue.Len > 0 := by simp [WorkQueue.Len, hq]
    cases n with
    | zero => simp [processAll]
    | succ n => simp [processAll, h0]
  | cons obj rest ih =>
    intro c n hq hn
    obtain ⟨m, rfl⟩ : ∃ m, n = m + 1 := ⟨n - 1, by simp at hn; omega⟩
    obtain ⟨c', hp, hcount, hq', hh⟩ := process_count c obj rest r ctx hq
    have hlen : c.queue.Len > 0 := by simp [WorkQueue.Len, hq]
    simp only [processAll, hlen, if_true, hp]
    rw [ih c' m hq' (by simp at hn; omega), hcount, callbackHits_congr c c' r ctx hh]
    simp [Nat.add_assoc]

end EventProcessor
end Watchers

namespace Watchers

theorem sum_indicator_range (n i : Nat) :
    ((List.range n).map (fun j => if j = i then 1 else 0)).sum = if i < n then 1 else 0 := by
  induction n with
  | zero => simp
  | succ n ih =>
    rw [List.range_succ, List.map_append, List.sum_append, ih]
    simp only [List.map_cons, List.map_nil, List.sum_cons, List.sum_nil]
    by_cases h1 : i < n
    · have h2 : n ≠ i := by omega
      have h3 : i < n + 1 := by omega
      simp [h1, h2, h3]
    · by_cases h2 : n = i
      · subst h2; simp
      · have h3 : ¬ i < n + 1 := by omega
        simp [h1, h2, h3]

theorem sum_map_zero {α : Type} (l : List α) (f : α → Nat) (h : ∀ a ∈ l, f a = 0) :
    (l.map f).sum = 0 := by
  induction l with
  | nil => rfl
  | cons a t ih =>
    simp only [List.map_cons, List.sum_cons]
    rw [h a (List.mem_cons_self _ _), ih (fun b hb => h b (List.mem_cons_of_mem _ hb))]

namespace EventProcessor

theorem callbackAfter_fresh (c : EventProcessor) (fn : Callback) (ctx : String)
    (hs : c.queue.shuttingDown = false) (hf : RefsAllocated c) :
    (c.CallbackAfter 0 fn ctx).queue.queue = c.queue.queue ++ [.change ⟨c.nextRef, ""⟩] ∧
      (c.CallbackAfter 0 fn ctx).queue.shuttingDown = false ∧
      RefsAllocated (c.CallbackAfter 0 fn ctx) ∧
      (c.CallbackAfter 0 fn ctx).nextRef = c.nextRef + 1 ∧
      (c.CallbackAfter 0 fn ctx).handlers c.nextRef = .callback fn ctx ∧
      (∀ r, r ≠ c.nextRef → (c.CallbackAfter 0 fn ctx).handlers r = c.handlers r) ∧
      (c.CallbackAfter 0 fn ctx).events = c.events := by
  have hd : Item.change ⟨c.nextRef, ""⟩ ∉ c.queue.dirty := fun h =>
    Nat.lt_irrefl _ (hf ⟨c.nextRef, ""⟩ (Or.inr (Or.inl h)))
  have hp : Item.change ⟨c.nextRef, ""⟩ ∉ c.queue.processing := fun h =>
    Nat.lt_irrefl _ (hf ⟨c.nextRef, ""⟩ (Or.inr (Or.inr h)))
  obtain ⟨h1, h2, h3, h4, h5⟩ := CallbackAfter_zero c fn ctx hs hd hp
  have hproc : (c.CallbackAfter 0 fn ctx).queue.processing = c.queue.processing := by
    simp [CallbackAfter, WorkQueue.AddAfter, WorkQueue.Add, hs, hd, hp]
  have hsd : (c.CallbackAfter 0 fn ctx).queue.shuttingDown = false := by
    simp [CallbackAfter, WorkQueue.AddAfter, WorkQueue.Add, hs, hd, hp]
  refine ⟨h1, hsd, ?_, h4, h3, ?_, h5⟩
  · intro evt hmem
    rw [h4]
    rw [h1, h2, hproc] at hmem
    have hcases : (Item.change evt ∈ c.queue.queue ∨ Item.change evt ∈ c.queue.dirty ∨
        Item.change evt ∈ c.queue.processing) ∨ evt = ⟨c.nextRef, ""⟩ := by
      rcases hmem with h | h | h
      · rcases List.mem_append.mp h with h | h
        · exact Or.inl (Or.inl h)
        · exact Or.inr (by simpa using h)
      · rcases List.mem_append.mp h with h | h
        · exact Or.inl (Or.inr (Or.inl h))
        · exact Or.inr (by simpa using h)
      · exact Or.inl (Or.inr (Or.inr h))
    rcases hcases with h | h
    · exact Nat.lt_succ_of_lt (hf evt h)
    · rw [h]; exact Nat.lt_succ_self _
  · intro r hr
    simp [CallbackAfter, hr]

theorem callbackTimes_spec (fn : Callback) (ctx : String) (n : Nat) :
    ∀ c : EventProcessor, c.queue.shuttingDown = false → RefsAllocated c →
      (c.callbackTimes fn ctx n).queue.queue =
        c.queue.queue ++ (List.range n).map (fun i => Item.change ⟨c.nextRef + i, ""⟩) ∧
      (c.callbackTimes fn ctx n).events = c.events ∧
      (∀ i, i < n → (c.callbackTimes fn ctx n).handlers (c.nextRef + i) = .callback fn ctx) ∧
      (∀ r, r < c.nextRef → (c.callbackTimes fn ctx n).handlers r = c.handlers r) := by
  induction n with
  | zero =>
    intro c _ _
    exact ⟨by simp [callbackTimes], rfl, fun i hi => absurd hi (Nat.not_lt_zero i),
      fun _ _ => rfl⟩
  | succ n ih =>
    intro c hs hf
    obtain ⟨h1, h2, h3, h4, h5, h6, h7⟩ := callbackAfter_fresh c fn ctx hs hf
    obtain ⟨i1, i2, i3, i4⟩ := ih (c.CallbackAfter 0 fn ctx) h2 h3
    rw [h4] at i1 i3 i4
    refine ⟨?_, ?_, ?_, ?_⟩
    · show ((c.CallbackAfter 0 fn ctx).callbackTimes fn ctx n).queue.queue = _
      rw [i1, h1, List.range_succ_eq_map, List.map_cons, List.map_map, List.append_assoc]
      congr 1
      simp only [List.singleton_append, Nat.add_zero]
      congr 1
      apply List.map_congr_left
      intro i _
      simp only [Function.comp]
      rw [Nat.add_assoc, Nat.add_comm 1 i]
    · show ((c.CallbackAfter 0 fn ctx).callbackTimes fn ctx n).events = _
      rw [i2, h7]
    · intro i hi
      show ((c.CallbackAfter 0 fn ctx).callbackTimes fn ctx n).handlers _ = _
      cases i with
      | zero =>
        rw [Nat.add_zero, i4 c.nextRef (Nat.lt_succ_self _)]
        exact h5
      | succ j =>
        have := i3 j (by omega)
        rw [Nat.add_assoc, Nat.add_comm 1 j] at this
        exact this
    · intro r hr
      show ((c.CallbackAfter 0 fn ctx).callbackTimes fn ctx n).handlers r = _
      rw [i4 r (Nat.lt_succ_of_lt hr)]
      exact h6 r (Nat.ne_of_lt hr)

end EventProcessor
end Watchers

namespace Watchers
namespace EventProcessor

theorem callbackHits_of_ne (c : EventProcessor) (r : HandlerRef) (ctx : String)
    (evt : ResourceChange) (hne : evt.Handler ≠ r) :
    callbackHits c r ctx (.change evt) = 0 := by
  cases hh : c.handlers evt.Handler <;> simp [callbackHits, hh, hne]

theorem callbackHits_callback (c : EventProcessor) (r : HandlerRef) (ctx : String)
    (evt : ResourceChange) (fn : Callback) (context : String)
    (hh : c.handlers evt.Handler = .callback fn context) :
    callbackHits c r ctx (.change evt) = if evt.Handler = r ∧ context = ctx then 1 else 0 := by
  simp [callbackHits, hh]

/-- Claim C23. Calls of `CallbackAfter` are never coalesced with each other:
each call allocates a handler of its own, so `n` calls with zero delay, the
same callback and the same context (and the same empty key) on a running
processor leave `n` more pending events, one for each of the `n` handlers,
and processing the queue calls the callback of each of these handlers
exactly once: `n` invocations. -/
theorem callbacks_are_not_coalesced (c : EventProcessor) (fn : Callback) (ctx : String)
    (n : Nat) (hs : c.queue.shuttingDown = false) (hf : RefsAllocated c) :
    (c.callbackTimes fn ctx n).queue.queue =
      c.queue.queue ++ (List.range n).map (fun i => Item.change ⟨c.nextRef + i, ""⟩) ∧
    (c.callbackTimes fn ctx n).queue.Len = c.queue.Len + n ∧
    (∀ i, i < n →
      (c.callbackTimes fn ctx n).handlers (c.nextRef + i) = .callback fn ctx ∧
      (c.callbackTimes fn ctx n).queue.queue.count (.change ⟨c.nextRef + i, ""⟩) = 1 ∧
      (c.callbackTimes fn ctx n).TestProcessAll.events.count
          (.callbackCall (c.nextRef + i) ctx) =
        c.events.count (.callbackCall (c.nextRef + i) ctx) + 1) := by
  obtain ⟨hq, hev, hh, _⟩ := callbackTimes_spec fn ctx n c hs hf
  refine ⟨hq, by simp [WorkQueue.Len, hq], ?_⟩
  intro i hi
  have hold : ∀ evt, Item.change evt ∈ c.queue.queue → evt.Handler ≠ c.nextRef + i := by
    intro evt hmem heq
    have := hf evt (Or.inl hmem)
    rw [heq] at this
    exact absurd this (by simp)
  refine ⟨hh i hi, ?_, ?_⟩
  · rw [hq, List.count_append]
    have h0 : c.queue.queue.count (.change ⟨c.nextRef + i, ""⟩) = 0 :=
      List.count_eq_zero.mpr (fun hm => hold _ hm rfl)
    have hinj : Function.Injective (fun j => Item.change ⟨c.nextRef + j, ""⟩) := by
      intro a b hab
      have h1 : c.nextRef + a = c.nextRef + b := by
        injection hab with h2
        injection h2
      exact Nat.add_left_cancel h1
    have h1 := List.count_map_of_injective (List.range n)
      (fun j => Item.change ⟨c.nextRef + j, ""⟩) hinj i
    rw [h0, Nat.zero_add, h1]
    exact List.count_eq_one_of_mem (List.nodup_range n) (List.mem_range.mpr hi)
  · unfold TestProcessAll
    have hpc := processAll_count (c.nextRef + i) ctx (c.callbackTimes fn ctx n).queue.queue
      (c.callbackTimes fn ctx n) (c.callbackTimes fn ctx n).queue.Len rfl (le_refl _)
    rw [hpc, hev, hq, List.map_append, List.sum_append]
    have hzero : (c.queue.queue.map
        (callbackHits (c.callbackTimes fn ctx n) (c.nextRef + i) ctx)).sum = 0 := by
      apply sum_map_zero
      intro item hitem
      cases item with
      | other tag => rfl
      | change evt => exact callbackHits_of_ne _ _ _ evt (hold evt hitem)
    have hone : (((List.range n).map (fun j => Item.change ⟨c.nextRef + j, ""⟩)).map
        (callbackHits (c.callbackTimes fn ctx n) (c.nextRef + i) ctx)).sum = 1 := by
      rw [List.map_map]
      have hcongr : (List.range n).map
          (callbackHits (c.callbackTimes fn ctx n) (c.nextRef + i) ctx ∘
            fun j => Item.change ⟨c.nextRef + j, ""⟩) =
          (List.range n).map (fun j => if j = i then 1 else 0) := by
        apply List.map_congr_left
        intro j hj
        have hjn : j < n := List.mem_range.mp hj
        simp only [Function.comp]
        rw [callbackHits_callback _ _ _ ⟨c.nextRef + j, ""⟩ fn ctx (hh j hjn)]
        by_cases hji : j = i
        · subst hji; simp
        · have : ¬ (c.nextRef + j = c.nextRef + i ∧ ctx = ctx) := fun h =>
            hji (Nat.add_left_cancel h.1)
          rw [if_neg this, if_neg hji]
      rw [hcongr, sum_indicator_range, if_pos hi]
    rw [hzero, hone]

theorem exEmptyProc_refsAllocated : RefsAllocated exEmptyProc := by
  intro evt h
  simp [exEmptyProc] at h

/-- The statement of C23 at three calls `CallbackAfter(0, fn, "ctx")` on
`exEmptyProc`: three pending events, and each of the three handlers has its
callback called once when the queue is processed. -/
theorem callbacks_are_not_coalesced_witness :
    (exEmptyProc.callbackTimes (fun _ _ => none) "ctx" 3).queue.queue =
        [.change ⟨0, ""⟩, .change ⟨1, ""⟩, .change ⟨2, ""⟩] ∧
      (exEmptyProc.callbackTimes (fun _ _ => none) "ctx" 3).TestProcessAll.events.count
        (.callbackCall 0 "ctx") = 1 ∧
      (exEmptyProc.callbackTimes (fun _ _ => none) "ctx" 3).TestProcessAll.events.count
        (.callbackCall 1 "ctx") = 1 ∧
      (exEmptyProc.callbackTimes (fun _ _ => none) "ctx" 3).TestProcessAll.events.count
        (.callbackCall 2 "ctx") = 1 := by
  have h := callbacks_are_not_coalesced exEmptyProc (fun _ _ => none) "ctx" 3 rfl
    exEmptyProc_refsAllocated
  exact ⟨h.1, (h.2.2 0 (by decide)).2.2, (h.2.2 1 (by decide)).2.2,
    (h.2.2 2 (by decide)).2.2⟩

end EventProcessor
end Watchers
